import Mathlib

/-!
Verification of the TASD (Tool-Assisted Speedrun Dump) codec, a shallow
embedding of the `tasd-rs` Rust library.

The embedding models:
  * the primitive big-endian codecs (`src/tasd/src/packets/encode.rs`,
    `src/tasd/src/packets/decode.rs`),
  * the variable-width `PLen` length prefix,
  * the per-variant packet codecs generated by the `Packet` derive macro
    (`src/tasd-macros/src/packet.rs`),
  * the dispatching decoder generated by the `Wrapper` derive macro
    (`src/tasd-macros/src/wrapper.rs`),
  * the file container `TasdFile::parse_slice` (`src/tasd/src/lib.rs`),
  * the legacy R08 conversions (`src/src/spec/legacy.rs`).

Conventions:
  * A Rust byte is a `Nat` expected to be `< 256`; a byte stream is
    `List Nat`.  Machine-integer overflow is modelled with explicit
    `% 2 ^ w` where the Rust code can overflow.
  * A reader (`std::io::Cursor`) is the pair of the full input and a
    cursor position.  Decoders return `DOut α`: success with a value and
    the new cursor, an error with the cursor position the reader was left
    at, or `DOut.panic` at the places where the Rust code aborts
    abnormally (integer-underflow panic / failed huge allocation).
  * Rust `String` is modelled as its UTF-8 byte list; Rust enums backed by
    a primitive are modelled as their discriminant together with the
    validity set checked by `TryFromPrimitive`.
-/

namespace Tasd

/-- A byte stream.  Each element models one `u8` (values `< 256`). -/
abbrev Bytes := List Nat

/-- `DecodeError` from `src/tasd/src/packets/decode.rs` (the `time`
feature is off, so `TimeComponent` does not arise; `Io` cannot arise from
an in-memory cursor but is kept for completeness). -/
inductive DecodeError where
  | io
  | endOfStream
  | invalidUtf8
  | invalidEnum
  | invalidBool
  | wrongKey
  | oversizedLength
  | exponentIsZero
  | wrongLength
  deriving DecidableEq, Repr

/-- Result of running a decoder on a reader: the value and the cursor
after it, a `DecodeError` with the cursor the reader was left at, or an
abnormal termination (`panic` models a Rust integer-underflow panic or an
aborted `usize::MAX`-sized allocation). -/
inductive DOut (α : Type) where
  | ok (a : α) (pos : Nat)
  | err (e : DecodeError) (pos : Nat)
  | panic
  deriving DecidableEq, Repr

/-- Sequencing of decoder steps (`?` in the Rust sources): errors and
panics short-circuit, success feeds the value and the new cursor onward. -/
def dseq {α β : Type} (m : DOut α) (f : α → Nat → DOut β) : DOut β :=
  match m with
  | .ok a p => f a p
  | .err e p => .err e p
  | .panic => .panic

/-- Mapping over a successful decode (`.map(|inner| inner.into())`). -/
def DOut.map {α β : Type} (f : α → β) : DOut α → DOut β
  | .ok a p => .ok (f a) p
  | .err e p => .err e p
  | .panic => .panic

/-- `read_exact` into an `n`-byte buffer: returns the bytes
`input[pos..pos+n]` when available, `EndOfStream` otherwise. -/
def readBytes (input : Bytes) (pos n : Nat) : DOut Bytes :=
  if pos + n ≤ input.length then .ok ((input.drop pos).take n) (pos + n)
  else .err .endOfStream pos

/-- `u8::decode`: read one byte. -/
def readU8 (input : Bytes) (pos : Nat) : DOut Nat :=
  match readBytes input pos 1 with
  | .ok l p => .ok (l.headI) p
  | .err e p => .err e p
  | .panic => .panic

/-- Big-endian value of a byte list (`from_be_bytes`). -/
def beNat (l : Bytes) : Nat := l.foldl (fun acc b => acc * 256 + b) 0

/-- The `k` big-endian bytes of `n % 2^(8*k)` (`to_be_bytes`). -/
def beBytes : Nat → Nat → Bytes
  | 0, _ => []
  | k + 1, n => beBytes k (n / 256) ++ [n % 256]

/-- Fixed-width big-endian integer decode (`read_u16/u32/u64` from the
`byteorder` crate). -/
def readBE (k : Nat) (input : Bytes) (pos : Nat) : DOut Nat :=
  match readBytes input pos k with
  | .ok l p => .ok (beNat l) p
  | .err e p => .err e p
  | .panic => .panic

/-- `bool::decode`: one byte, only `0` and `1` are accepted. -/
def readBool (input : Bytes) (pos : Nat) : DOut Bool :=
  dseq (readU8 input pos) fun b p =>
    if b = 0 then .ok false p
    else if b = 1 then .ok true p
    else .err .invalidBool p

/-- Signed fixed-width decode: reinterpret the `8*k`-bit pattern as a
two's-complement integer (`read_i16/i64`). -/
def readIBE (k : Nat) (input : Bytes) (pos : Nat) : DOut Int :=
  dseq (readBE k input pos) fun n p =>
    if n < 2 ^ (8 * k - 1) then .ok (Int.ofNat n) p
    else .ok (Int.ofNat n - Int.ofNat (2 ^ (8 * k))) p

/-- Two's-complement encoding of a `8*k`-bit signed integer
(`write_i16/i64`). -/
def ibeBytes (k : Nat) (v : Int) : Bytes := beBytes k (v.emod (2 ^ (8 * k))).toNat

/-! ### The PLen codec -/

/-- Fuel-indexed minimal big-endian digits; `fuel` bounds the loop count
so the definition is structurally recursive (and hence computes inside
the kernel).  `beMin` below supplies always-sufficient fuel. -/
def beMinF : Nat → Nat → Bytes
  | 0, _ => []
  | fuel + 1, n => if n = 0 then [] else beMinF fuel (n / 256) ++ [n % 256]

/-- Minimal big-endian digits of `n` (the loop
`while tmp > 0 { plen.insert(0, tmp as u8); tmp >>= 8; }` in
`impl Encode for PLen`, which prepends the low byte each round, so the
result is most-significant first and empty for `n = 0`). -/
def beMin (n : Nat) : Bytes := beMinF n n

/-- `PLen::encode` (`src/tasd/src/packets/encode.rs`): `0` is emitted as
the single byte `0x00`; otherwise the count of minimal big-endian bytes
(the exponent) followed by those bytes. -/
def plenEncode (n : Nat) : Bytes :=
  if n = 0 then [0] else (beMin n).length :: beMin n

/-- Rust `usize::checked_shl`: `None` exactly when the shift amount is at
least the bit width, otherwise the shifted value with high bits
discarded. -/
def checkedShl (bits x n : Nat) : Option Nat :=
  if bits ≤ n then none else some ((x <<< n) % 2 ^ bits)

/-- One fold step of `PLen::decode`:
`let Some(shifted) = len.checked_shl(8) else { return OversizedLength };
 len = shifted | byte;`. -/
def plenStep (len b : Nat) : Option Nat :=
  (checkedShl 64 len 8).map (fun shifted => shifted ||| b)

/-- The `for _ in 0..exp` loop body of `PLen::decode`. -/
def plenLoop (input : Bytes) : Nat → Nat → Nat → DOut Nat
  | 0, len, pos => .ok len pos
  | e + 1, len, pos =>
    match plenStep len 0 with
    | none => .err .oversizedLength pos
    | some _ =>
      dseq (readU8 input pos) fun b p =>
        match plenStep len b with
        | none => .err .oversizedLength p
        | some len2 => plenLoop input e len2 p

/-- `PLen::decode` (`src/tasd/src/packets/decode.rs`): read the exponent
byte, reject `0` with `ExponentIsZero`, then fold the exponent-many
length bytes. -/
def plenDecode (input : Bytes) (pos : Nat) : DOut Nat :=
  dseq (readU8 input pos) fun e p =>
    if e = 0 then .err .exponentIsZero p
    else plenLoop input e 0 p

/-! ### UTF-8 validity (the semantics of `String::from_utf8`) -/

/-- A UTF-8 continuation byte (`0x80..=0xBF`; in the encoder's test,
`(*b as i8) >= -0x40` is exactly "not a continuation byte"). -/
def isCont (b : Nat) : Bool := 0x80 ≤ b && b ≤ 0xBF

/-- Length of the single well-formed UTF-8 scalar encoding at the head of
the stream, `none` if the head is ill-formed.  This is the standard UTF-8
byte-pattern table (as enforced by Rust `String::from_utf8`), excluding
overlong forms, surrogates, and values above `U+10FFFF`. -/
def charLen : Bytes → Option Nat
  | [] => none
  | b :: rest =>
    if b ≤ 0x7F then some 1
    else if 0xC2 ≤ b && b ≤ 0xDF then
      match rest with
      | c1 :: _ => if isCont c1 then some 2 else none
      | [] => none
    else if b = 0xE0 then
      match rest with
      | c1 :: c2 :: _ => if (0xA0 ≤ c1 && c1 ≤ 0xBF) && isCont c2 then some 3 else none
      | _ => none
    else if (0xE1 ≤ b && b ≤ 0xEC) || b = 0xEE || b = 0xEF then
      match rest with
      | c1 :: c2 :: _ => if isCont c1 && isCont c2 then some 3 else none
      | _ => none
    else if b = 0xED then
      match rest with
      | c1 :: c2 :: _ => if (0x80 ≤ c1 && c1 ≤ 0x9F) && isCont c2 then some 3 else none
      | _ => none
    else if b = 0xF0 then
      match rest with
      | c1 :: c2 :: c3 :: _ =>
        if ((0x90 ≤ c1 && c1 ≤ 0xBF) && isCont c2) && isCont c3 then some 4 else none
      | _ => none
    else if 0xF1 ≤ b && b ≤ 0xF3 then
      match rest with
      | c1 :: c2 :: c3 :: _ => if (isCont c1 && isCont c2) && isCont c3 then some 4 else none
      | _ => none
    else if b = 0xF4 then
      match rest with
      | c1 :: c2 :: c3 :: _ =>
        if ((0x80 ≤ c1 && c1 ≤ 0x8F) && isCont c2) && isCont c3 then some 4 else none
      | _ => none
    else none

/-- Fuel-indexed UTF-8 validity check: consume one `charLen`-sized scalar
encoding per unit of fuel.  Structural recursion on the fuel keeps the
function kernel-computable; `utf8Valid` supplies always-sufficient
fuel. -/
def utf8ValidF : Nat → Bytes → Bool
  | _, [] => true
  | 0, _ :: _ => false
  | fuel + 1, b :: rest =>
    match charLen (b :: rest) with
    | some k => utf8ValidF fuel (rest.drop (k - 1))
    | none => false

/-- `String::from_utf8` validity: the stream is a concatenation of
well-formed UTF-8 scalar encodings. -/
def utf8Valid (s : Bytes) : Bool := utf8ValidF s.length s

/-! ### Composite field codecs -/

/-- `U8Vec::decode`: one length byte, then that many raw bytes. -/
def readU8Vec (input : Bytes) (pos : Nat) : DOut Bytes :=
  dseq (readU8 input pos) fun len p => readBytes input p len

/-- `U8String::decode`: a `U8Vec` whose bytes must be valid UTF-8. -/
def readU8String (input : Bytes) (pos : Nat) : DOut Bytes :=
  dseq (readU8Vec input pos) fun bytes p =>
    if utf8Valid bytes then .ok bytes p else .err .invalidUtf8 p

/-- The `u8_string` encoder emitted by the `Packet` derive macro
(`src/tasd-macros/src/packet.rs`, the code ripped from the unstable
`str::floor_char_boundary`): strings of at most 255 bytes are kept whole,
longer ones are cut at the byte position `252 + j` where `j` is the last
non-continuation byte among positions `252..=255`.  For a valid UTF-8
string longer than 255 bytes such a byte always exists; the Rust code
relies on that via `unwrap_unchecked`, whose absence case is undefined
behaviour and is modelled here (unreachably for valid strings) as `252`. -/
def u8StrIndex (s : Bytes) : Nat :=
  if s.length ≤ 255 then s.length
  else
    match (s.drop 252).take 4 with
    | [a, b, c, d] =>
      if isCont d = false then 255
      else if isCont c = false then 254
      else if isCont b = false then 253
      else if isCont a = false then 252
      else 252
    | _ => 252

/-- The byte output of the `u8_string` encoder arm: the one-byte length
(the Rust `data.len() as u8` cast) followed by the truncated bytes. -/
def u8StringEnc (s : Bytes) : Bytes :=
  (u8StrIndex s % 256) :: s.take (u8StrIndex s)

/-! ### Tail-field readers (`src/tasd-macros/src/packet.rs`)

Each tail arm computes `offset = stream_position - payload_start` and
`len = plen - offset` in unsigned Rust arithmetic.  When `offset > plen`
the subtraction underflows: a panic in debug builds, a wrapped
near-`usize::MAX` allocation (an abort) in release builds.  Both are
modelled as `DOut.panic`.  `stream_position < payload_start` cannot occur
but would underflow the same way. -/

/-- The tail `Vec<u8>` arm: read the remaining `plen - offset` payload
bytes. -/
def readTailVec (input : Bytes) (plen pstart pos : Nat) : DOut Bytes :=
  if pos < pstart then .panic
  else if plen < pos - pstart then .panic
  else readBytes input pos (plen - (pos - pstart))

/-- The tail `String` arm: the remaining payload bytes, UTF-8 checked. -/
def readTailString (input : Bytes) (plen pstart pos : Nat) : DOut Bytes :=
  dseq (readTailVec input plen pstart pos) fun bytes p =>
    if utf8Valid bytes then .ok bytes p else .err .invalidUtf8 p

/-- Group a byte list into big-endian `u64` words (`chunks_exact(8)` with
`u64::from_be_bytes`; callers guarantee the length is a multiple of 8). -/
def toU64s : Bytes → List Nat
  | b0 :: b1 :: b2 :: b3 :: b4 :: b5 :: b6 :: b7 :: rest =>
    beNat [b0, b1, b2, b3, b4, b5, b6, b7] :: toU64s rest
  | _ => []

/-- The tail `Vec<u64>` arm: remaining length must be a multiple of 8,
then each 8 bytes decode big-endian. -/
def readTailVec64 (input : Bytes) (plen pstart pos : Nat) : DOut (List Nat) :=
  if pos < pstart then .panic
  else if plen < pos - pstart then .panic
  else if (plen - (pos - pstart)) % 8 ≠ 0 then .err .wrongLength pos
  else
    dseq (readBytes input pos (plen - (pos - pstart))) fun buf p => .ok (toU64s buf) p

/-! ### Packet data model (`src/tasd/src/packets.rs`)

Enum-backed fields are modelled as their backing discriminant; the
validity sets below are the value lists accepted by `TryFromPrimitive`
for the corresponding `#[repr(u8)]` / `#[repr(u16)]` enums. -/

/-- The `Console` enum discriminants. -/
def consoleValid (n : Nat) : Bool := n ∈ [1, 2, 3, 4, 5, 6, 7, 8, 9, 0xFF]

/-- The `ConsoleRegion` enum discriminants. -/
def consoleRegionValid (n : Nat) : Bool := n ∈ [1, 2, 0xFF]

/-- The `AttributionKind` enum discriminants. -/
def attributionKindValid (n : Nat) : Bool := n ∈ [1, 2, 3, 4, 0xFF]

/-- The `InitKind` enum discriminants. -/
def initKindValid (n : Nat) : Bool := n ∈ [1, 2, 3, 4, 5, 0xFF]

/-- The `InitDevice` enum discriminants (`u16`). -/
def initDeviceValid (n : Nat) : Bool :=
  n ∈ [0x0101, 0x0102, 0x0201, 0x0202, 0x0501, 0x0502, 0x0601, 0x0602,
       0x0701, 0x0702, 0x0801, 0x0802, 0x0901, 0x0902, 0xFFFF]

/-- The `IdKind` enum discriminants. -/
def idKindValid (n : Nat) : Bool :=
  n ∈ [1, 2, 3, 4, 5, 6, 7, 8, 9, 0x0A, 0x0B, 0x0C, 0x0D, 0x0E, 0xFF]

/-- The `IdEncoding` enum discriminants. -/
def idEncodingValid (n : Nat) : Bool := n ∈ [1, 2, 3, 4]

/-- The `PortKind` enum discriminants (`u16`). -/
def portKindValid (n : Nat) : Bool :=
  n ∈ [0x0101, 0x0102, 0x0103, 0x0104, 0x0105,
       0x0201, 0x0202, 0x0203, 0x0204,
       0x0301, 0x0302, 0x0303, 0x0304, 0x0305, 0x0306, 0x0307, 0x0308,
       0x0401, 0x0402, 0x0501, 0x0601, 0x0701, 0x0801, 0x0802,
       0x0901, 0x0902, 0x0903, 0xFFFF]

/-- The `MomentIndexKind` enum discriminants. -/
def momentIndexKindValid (n : Nat) : Bool := n ∈ [1, 2, 3, 4, 5]

/-- The `TransitionIndexKind` enum discriminants. -/
def transitionIndexKindValid (n : Nat) : Bool := n ∈ [1, 2, 3, 4, 5, 6]

/-- The `TransitionKind` enum discriminants. -/
def transitionKindValid (n : Nat) : Bool := n ∈ [1, 2, 3, 0xFF]

/-- An enum-backed field decode: decode the backing primitive, then
`try_from`, surfacing unknown discriminants as `InvalidEnum`. -/
def readEnum (valid : Nat → Bool) (k : Nat) (input : Bytes) (pos : Nat) : DOut Nat :=
  dseq (readBE k input pos) fun n p =>
    if valid n then .ok n p else .err .invalidEnum p

/-- `ConsoleType` (key `00 01`): `#[u8_enum] console: Console`, tail
`name: String`. -/
structure ConsoleType where
  console : Nat
  name : Bytes
  deriving DecidableEq, Repr

/-- `GameTitle` (key `00 03`): tail `title: String`. -/
structure GameTitle where
  title : Bytes
  deriving DecidableEq, Repr

/-- `RomName` (key `00 04`): tail `name: String`. -/
structure RomName where
  name : Bytes
  deriving DecidableEq, Repr

/-- `Attribution` (key `00 05`): `#[u8_enum] kind`, tail `name: String`. -/
structure Attribution where
  kind : Nat
  name : Bytes
  deriving DecidableEq, Repr

/-- `Category` (key `00 06`): tail `category: String`. -/
structure Category where
  category : Bytes
  deriving DecidableEq, Repr

/-- `EmulatorName` (key `00 07`): tail `name: String`. -/
structure EmulatorName where
  name : Bytes
  deriving DecidableEq, Repr

/-- `EmulatorVersion` (key `00 08`): tail `version: String`. -/
structure EmulatorVersion where
  version : Bytes
  deriving DecidableEq, Repr

/-- `EmulatorCore` (key `00 09`): tail `core: String`. -/
structure EmulatorCore where
  core : Bytes
  deriving DecidableEq, Repr

/-- `TasLastModified` (key `00 0A`): `timestamp: i64` (the `time` feature
is off, so the field is a plain Unix-seconds `i64`). -/
structure TasLastModified where
  timestamp : Int
  deriving DecidableEq, Repr

/-- `DumpCreated` (key `00 0B`): `timestamp: i64`. -/
structure DumpCreated where
  timestamp : Int
  deriving DecidableEq, Repr

/-- `DumpLastModified` (key `00 0C`): `timestamp: i64`. -/
structure DumpLastModified where
  timestamp : Int
  deriving DecidableEq, Repr

/-- `TotalFrames` (key `00 0D`): `frames: u32`. -/
structure TotalFrames where
  frames : Nat
  deriving DecidableEq, Repr

/-- `Rerecords` (key `00 0E`): `rerecords: u32`. -/
structure Rerecords where
  rerecords : Nat
  deriving DecidableEq, Repr

/-- `SourceLink` (key `00 0F`): tail `link: String`. -/
structure SourceLink where
  link : Bytes
  deriving DecidableEq, Repr

/-- `BlankFrames` (key `00 10`): `frames: i16`. -/
structure BlankFrames where
  frames : Int
  deriving DecidableEq, Repr

/-- `Verified` (key `00 11`): `verified: bool`. -/
structure Verified where
  verified : Bool
  deriving DecidableEq, Repr

/-- `MemoryInit` (key `00 12`): `#[u8_enum] data_type`, `#[u16_enum]
device`, `required: bool`, `#[u8_string] name`, tail `data: Vec<u8>`. -/
structure MemoryInit where
  data_type : Nat
  device : Nat
  required : Bool
  name : Bytes
  data : Bytes
  deriving DecidableEq, Repr

/-- `GameIdentifier` (key `00 13`): `#[u8_enum] kind`, `#[u8_enum]
encoding`, `#[u8_string] name`, tail `identifier: Vec<u8>`. -/
structure GameIdentifier where
  kind : Nat
  encoding : Nat
  name : Bytes
  identifier : Bytes
  deriving DecidableEq, Repr

/-- `MovieLicense` (key `00 14`): tail `license: String`. -/
structure MovieLicense where
  license : Bytes
  deriving DecidableEq, Repr

/-- `MovieFile` (key `00 15`): `#[u8_string] name`, tail `data: Vec<u8>`. -/
structure MovieFile where
  name : Bytes
  data : Bytes
  deriving DecidableEq, Repr

/-- `PortController` (key `00 F0`): `port: u8`, `#[u16_enum] kind`. -/
structure PortController where
  port : Nat
  kind : Nat
  deriving DecidableEq, Repr

/-- `PortOverread` (key `00 F1`): `port: u8`, `high: bool`. -/
structure PortOverread where
  port : Nat
  high : Bool
  deriving DecidableEq, Repr

/-- `NesLatchFilter` (key `01 01`): `time: u16`. -/
structure NesLatchFilter where
  time : Nat
  deriving DecidableEq, Repr

/-- `NesClockFilter` (key `01 02`): `time: u8`. -/
structure NesClockFilter where
  time : Nat
  deriving DecidableEq, Repr

/-- `NesGameGenieCode` (key `01 04`): tail `code: String`. -/
structure NesGameGenieCode where
  code : Bytes
  deriving DecidableEq, Repr

/-- `SnesLatchFilter` (key `02 01`): `time: u16`. -/
structure SnesLatchFilter where
  time : Nat
  deriving DecidableEq, Repr

/-- `SnesClockFilter` (key `02 02`): `time: u8`. -/
structure SnesClockFilter where
  time : Nat
  deriving DecidableEq, Repr

/-- `SnesGameGenieCode` (key `02 04`): tail `code: String`. -/
structure SnesGameGenieCode where
  code : Bytes
  deriving DecidableEq, Repr

/-- `SnesLatchTrain` (key `02 05`): tail `latch_trains: Vec<u64>`. -/
structure SnesLatchTrain where
  latch_trains : List Nat
  deriving DecidableEq, Repr

/-- `GenesisGameGenieCode` (key `08 04`): tail `code: String`. -/
structure GenesisGameGenieCode where
  code : Bytes
  deriving DecidableEq, Repr

/-- `InputChunk` (key `FE 01`): `port: u8`, tail `inputs: Vec<u8>`. -/
structure InputChunk where
  port : Nat
  inputs : Bytes
  deriving DecidableEq, Repr

/-- `InputMoment` (key `FE 02`): `port: u8`, `hold: bool`, `#[u8_enum]
index_type`, `index: u64`, tail `inputs: Vec<u8>`. -/
structure InputMoment where
  port : Nat
  hold : Bool
  index_type : Nat
  index : Nat
  inputs : Bytes
  deriving DecidableEq, Repr

/-- `LagFrameChunk` (key `FE 04`): `movie_frame: u32`, `count: u32`. -/
structure LagFrameChunk where
  movie_frame : Nat
  count : Nat
  deriving DecidableEq, Repr

/-- `Comment` (key `FF 01`): tail `comment: String`. -/
structure Comment where
  comment : Bytes
  deriving DecidableEq, Repr

/-- `Experimental` (key `FF FE`): `experimental: bool`. -/
structure Experimental where
  experimental : Bool
  deriving DecidableEq, Repr

/-- `Unspecified` (key `FF FF`): tail `data: Vec<u8>`. -/
structure Unspecified where
  data : Bytes
  deriving DecidableEq, Repr

/-- `Unsupported`: an opaque key (a `Vec<u8>`, two bytes on the wire) and
the raw payload. -/
structure Unsupported where
  key : Bytes
  data : Bytes
  deriving DecidableEq, Repr

/-- The `Packet` tagged union (`src/tasd/src/packets.rs`, declaration
order preserved).  The recursive variants `Transition` (key `FE 03`:
`port: u8`, `#[u8_enum] index_type`, `index: u64`, `#[u8_enum]
transition_type`, tail `inner_packet: Option<Box<Packet>>`) and
`MovieTransition` (key `FE 05`: `movie_frame: u32`, `#[u8_enum]
transition_type`, tail `inner_packet: Option<Box<Packet>>`) carry their
fields inline. -/
inductive Packet where
  | consoleType (p : ConsoleType)
  | consoleRegion (region : Nat)
  | gameTitle (p : GameTitle)
  | romName (p : RomName)
  | attribution (p : Attribution)
  | category (p : Category)
  | emulatorName (p : EmulatorName)
  | emulatorVersion (p : EmulatorVersion)
  | emulatorCore (p : EmulatorCore)
  | tasLastModified (p : TasLastModified)
  | dumpCreated (p : DumpCreated)
  | dumpLastModified (p : DumpLastModified)
  | totalFrames (p : TotalFrames)
  | rerecords (p : Rerecords)
  | sourceLink (p : SourceLink)
  | blankFrames (p : BlankFrames)
  | verified (p : Verified)
  | memoryInit (p : MemoryInit)
  | gameIdentifier (p : GameIdentifier)
  | movieLicense (p : MovieLicense)
  | movieFile (p : MovieFile)
  | portController (p : PortController)
  | portOverread (p : PortOverread)
  | nesLatchFilter (p : NesLatchFilter)
  | nesClockFilter (p : NesClockFilter)
  | nesGameGenieCode (p : NesGameGenieCode)
  | snesLatchFilter (p : SnesLatchFilter)
  | snesClockFilter (p : SnesClockFilter)
  | snesGameGenieCode (p : SnesGameGenieCode)
  | snesLatchTrain (p : SnesLatchTrain)
  | genesisGameGenieCode (p : GenesisGameGenieCode)
  | inputChunk (p : InputChunk)
  | inputMoment (p : InputMoment)
  | transition (port : Nat) (index_type : Nat) (index : Nat)
      (transition_type : Nat) (inner : Option Packet)
  | lagFrameChunk (p : LagFrameChunk)
  | movieTransition (movie_frame : Nat) (transition_type : Nat)
      (inner : Option Packet)
  | comment (p : Comment)
  | experimental (p : Experimental)
  | unspecified (p : Unspecified)
  | unsupported (p : Unsupported)

/-! ### Encoding (`impl Encode`, macro-generated per variant)

Each variant encoder builds the payload in a temporary buffer, then
writes `key`, `PLen(payload.len())` and the payload
(`src/tasd-macros/src/packet.rs`, `derive_encode`). -/

/-- `u8` / `as u8` write (the cast truncates; plain `u8` fields are
already `< 256`). -/
def encU8 (n : Nat) : Bytes := [n % 256]

/-- `bool` write: `false → 0x00`, `true → 0x01`. -/
def encBool (b : Bool) : Bytes := [if b then 1 else 0]

/-- The outer packet framing `key || PLen(payload.len()) || payload`. -/
def mkPacket (key : Nat × Nat) (payload : Bytes) : Bytes :=
  [key.1, key.2] ++ plenEncode payload.length ++ payload

/-- `ConsoleType` payload: `#[u8_enum] console`, tail `name`. -/
def ConsoleType.payload (p : ConsoleType) : Bytes := encU8 p.console ++ p.name

/-- `Attribution` payload: `#[u8_enum] kind`, tail `name`. -/
def Attribution.payload (p : Attribution) : Bytes := encU8 p.kind ++ p.name

/-- `MemoryInit` payload: `#[u8_enum] data_type`, `#[u16_enum] device`,
`required`, `#[u8_string] name`, tail `data`. -/
def MemoryInit.payload (p : MemoryInit) : Bytes :=
  encU8 p.data_type ++ beBytes 2 p.device ++ encBool p.required ++ u8StringEnc p.name ++ p.data

/-- `GameIdentifier` payload: `#[u8_enum] kind`, `#[u8_enum] encoding`,
`#[u8_string] name`, tail `identifier`. -/
def GameIdentifier.payload (p : GameIdentifier) : Bytes :=
  encU8 p.kind ++ encU8 p.encoding ++ u8StringEnc p.name ++ p.identifier

/-- `MovieFile` payload: `#[u8_string] name`, tail `data`. -/
def MovieFile.payload (p : MovieFile) : Bytes := u8StringEnc p.name ++ p.data

/-- `PortController` payload: `port`, `#[u16_enum] kind`. -/
def PortController.payload (p : PortController) : Bytes := encU8 p.port ++ beBytes 2 p.kind

/-- `PortOverread` payload: `port`, `high`. -/
def PortOverread.payload (p : PortOverread) : Bytes := encU8 p.port ++ encBool p.high

/-- `SnesLatchTrain` payload: tail `Vec<u64>`, each word big-endian. -/
def SnesLatchTrain.payload (p : SnesLatchTrain) : Bytes :=
  p.latch_trains.flatMap (beBytes 8)

/-- `InputChunk` payload: `port`, tail `inputs`. -/
def InputChunk.payload (p : InputChunk) : Bytes := encU8 p.port ++ p.inputs

/-- `InputMoment` payload: `port`, `hold`, `#[u8_enum] index_type`,
`index: u64`, tail `inputs`. -/
def InputMoment.payload (p : InputMoment) : Bytes :=
  encU8 p.port ++ encBool p.hold ++ encU8 p.index_type ++ beBytes 8 p.index ++ p.inputs

/-- `LagFrameChunk` payload: `movie_frame: u32`, `count: u32`. -/
def LagFrameChunk.payload (p : LagFrameChunk) : Bytes :=
  beBytes 4 p.movie_frame ++ beBytes 4 p.count

/-- `Unsupported::encode`: the stored key bytes, `PLen(data.len())`, and
the stored payload, all verbatim. -/
def Unsupported.encode (p : Unsupported) : Bytes :=
  p.key ++ plenEncode p.data.length ++ p.data

/-- `Packet::encode`: the `Wrapper` derive delegates to the active
variant's macro-generated encoder.  `Transition` / `MovieTransition`
payloads end with the optional boxed inner packet (`None` writes
nothing). -/
def Packet.encode : Packet → Bytes
  | .consoleType p => mkPacket (0x00, 0x01) p.payload
  | .consoleRegion region => mkPacket (0x00, 0x02) (encU8 region)
  | .gameTitle p => mkPacket (0x00, 0x03) p.title
  | .romName p => mkPacket (0x00, 0x04) p.name
  | .attribution p => mkPacket (0x00, 0x05) p.payload
  | .category p => mkPacket (0x00, 0x06) p.category
  | .emulatorName p => mkPacket (0x00, 0x07) p.name
  | .emulatorVersion p => mkPacket (0x00, 0x08) p.version
  | .emulatorCore p => mkPacket (0x00, 0x09) p.core
  | .tasLastModified p => mkPacket (0x00, 0x0A) (ibeBytes 8 p.timestamp)
  | .dumpCreated p => mkPacket (0x00, 0x0B) (ibeBytes 8 p.timestamp)
  | .dumpLastModified p => mkPacket (0x00, 0x0C) (ibeBytes 8 p.timestamp)
  | .totalFrames p => mkPacket (0x00, 0x0D) (beBytes 4 p.frames)
  | .rerecords p => mkPacket (0x00, 0x0E) (beBytes 4 p.rerecords)
  | .sourceLink p => mkPacket (0x00, 0x0F) p.link
  | .blankFrames p => mkPacket (0x00, 0x10) (ibeBytes 2 p.frames)
  | .verified p => mkPacket (0x00, 0x11) (encBool p.verified)
  | .memoryInit p => mkPacket (0x00, 0x12) p.payload
  | .gameIdentifier p => mkPacket (0x00, 0x13) p.payload
  | .movieLicense p => mkPacket (0x00, 0x14) p.license
  | .movieFile p => mkPacket (0x00, 0x15) p.payload
  | .portController p => mkPacket (0x00, 0xF0) p.payload
  | .portOverread p => mkPacket (0x00, 0xF1) p.payload
  | .nesLatchFilter p => mkPacket (0x01, 0x01) (beBytes 2 p.time)
  | .nesClockFilter p => mkPacket (0x01, 0x02) (encU8 p.time)
  | .nesGameGenieCode p => mkPacket (0x01, 0x04) p.code
  | .snesLatchFilter p => mkPacket (0x02, 0x01) (beBytes 2 p.time)
  | .snesClockFilter p => mkPacket (0x02, 0x02) (encU8 p.time)
  | .snesGameGenieCode p => mkPacket (0x02, 0x04) p.code
  | .snesLatchTrain p => mkPacket (0x02, 0x05) p.payload
  | .genesisGameGenieCode p => mkPacket (0x08, 0x04) p.code
  | .inputChunk p => mkPacket (0xFE, 0x01) p.payload
  | .inputMoment p => mkPacket (0xFE, 0x02) p.payload
  | .transition port index_type index transition_type inner =>
    mkPacket (0xFE, 0x03)
      (encU8 port ++ encU8 index_type ++ beBytes 8 index ++ encU8 transition_type ++
        match inner with
        | none => []
        | some q => Packet.encode q)
  | .lagFrameChunk p => mkPacket (0xFE, 0x04) p.payload
  | .movieTransition movie_frame transition_type inner =>
    mkPacket (0xFE, 0x05)
      (beBytes 4 movie_frame ++ encU8 transition_type ++
        match inner with
        | none => []
        | some q => Packet.encode q)
  | .comment p => mkPacket (0xFF, 0x01) p.comment
  | .experimental p => mkPacket (0xFF, 0xFE) (encBool p.experimental)
  | .unspecified p => mkPacket (0xFF, 0xFF) p.data
  | .unsupported p => p.encode

/-! ### Decoding (`impl Decode`, macro-generated per variant)

`decodeWith` is the skeleton every `#[derive(Packet)]` decoder expands
to (`src/tasd-macros/src/packet.rs`, `derive_decode`): record the start,
read and compare the two key bytes, read `PLen`, record the payload
start, run the field reads, and on any failure seek back to the start
and propagate. -/

/-- A payload-field reader: gets the input, the decoded `plen`, the
payload start offset, and the current cursor. -/
abbrev Body (α : Type) := Bytes → Nat → Nat → Nat → DOut α

/-- The macro-generated decoder skeleton. -/
def decodeWith {α : Type} (key : Nat × Nat) (body : Body α) (input : Bytes)
    (pos : Nat) : DOut α :=
  match
    dseq (readBytes input pos 2) fun k p1 =>
      if k ≠ [key.1, key.2] then .err .wrongKey p1
      else
        dseq (plenDecode input p1) fun plen p2 => body input plen p2 p2
  with
  | .ok a p => .ok a p
  | .err e _ => .err e pos
  | .panic => .panic

/-- Map a constructor over a body's result. -/
def mapB {α β : Type} (f : α → β) (body : Body α) : Body β :=
  fun input plen pstart pos => DOut.map f (body input plen pstart pos)

/-- Body of a fixed-field-only variant: the field reads ignore `plen`
and the payload start entirely. -/
def fixedB {α : Type} (rd : Bytes → Nat → DOut α) : Body α :=
  fun input _plen _pstart pos => rd input pos

/-- Body shape `#[u8_enum] x, tail String y` (`ConsoleType`,
`Attribution`). -/
def enumTailStrB (valid : Nat → Bool) : Body (Nat × Bytes) :=
  fun input plen pstart pos =>
    dseq (readEnum valid 1 input pos) fun v p =>
    dseq (readTailString input plen pstart p) fun s p2 => .ok (v, s) p2

/-- Body shape `port: u8, tail Vec<u8>` (`InputChunk`). -/
def u8TailVecB : Body (Nat × Bytes) :=
  fun input plen pstart pos =>
    dseq (readU8 input pos) fun v p =>
    dseq (readTailVec input plen pstart p) fun d p2 => .ok (v, d) p2

/-- `MemoryInit` body. -/
def memoryInitB : Body MemoryInit :=
  fun input plen pstart pos =>
    dseq (readEnum initKindValid 1 input pos) fun data_type p1 =>
    dseq (readEnum initDeviceValid 2 input p1) fun device p2 =>
    dseq (readBool input p2) fun required p3 =>
    dseq (readU8String input p3) fun name p4 =>
    dseq (readTailVec input plen pstart p4) fun data p5 =>
      .ok ⟨data_type, device, required, name, data⟩ p5

/-- `GameIdentifier` body. -/
def gameIdentifierB : Body GameIdentifier :=
  fun input plen pstart pos =>
    dseq (readEnum idKindValid 1 input pos) fun kind p1 =>
    dseq (readEnum idEncodingValid 1 input p1) fun encoding p2 =>
    dseq (readU8String input p2) fun name p3 =>
    dseq (readTailVec input plen pstart p3) fun identifier p4 =>
      .ok ⟨kind, encoding, name, identifier⟩ p4

/-- `MovieFile` body. -/
def movieFileB : Body MovieFile :=
  fun input plen pstart pos =>
    dseq (readU8String input pos) fun name p1 =>
    dseq (readTailVec input plen pstart p1) fun data p2 => .ok ⟨name, data⟩ p2

/-- `PortController` body. -/
def portControllerB : Body PortController :=
  fixedB fun input pos =>
    dseq (readU8 input pos) fun port p1 =>
    dseq (readEnum portKindValid 2 input p1) fun kind p2 => .ok ⟨port, kind⟩ p2

/-- `PortOverread` body. -/
def portOverreadB : Body PortOverread :=
  fixedB fun input pos =>
    dseq (readU8 input pos) fun port p1 =>
    dseq (readBool input p1) fun high p2 => .ok ⟨port, high⟩ p2

/-- `InputMoment` body. -/
def inputMomentB : Body InputMoment :=
  fun input plen pstart pos =>
    dseq (readU8 input pos) fun port p1 =>
    dseq (readBool input p1) fun hold p2 =>
    dseq (readEnum momentIndexKindValid 1 input p2) fun index_type p3 =>
    dseq (readBE 8 input p3) fun index p4 =>
    dseq (readTailVec input plen pstart p4) fun inputs p5 =>
      .ok ⟨port, hold, index_type, index, inputs⟩ p5

/-- `LagFrameChunk` body. -/
def lagFrameChunkB : Body LagFrameChunk :=
  fixedB fun input pos =>
    dseq (readBE 4 input pos) fun movie_frame p1 =>
    dseq (readBE 4 input p1) fun count p2 => .ok ⟨movie_frame, count⟩ p2

/-- The tail `Option<Box<Packet>>` arm: zero remaining payload bytes is
`None`, otherwise one recursive `Packet::decode` (with no check that the
inner packet fills the remaining bytes). -/
def readTailOpt (dec : Bytes → Nat → DOut Packet) : Body (Option Packet) :=
  fun input plen pstart pos =>
    if pos < pstart then .panic
    else if plen < pos - pstart then .panic
    else if plen - (pos - pstart) = 0 then .ok none pos
    else
      dseq (dec input pos) fun q p => .ok (some q) p

/-- `Transition` body (recursive through `dec`). -/
def transitionB (dec : Bytes → Nat → DOut Packet) : Body Packet :=
  fun input plen pstart pos =>
    dseq (readU8 input pos) fun port p1 =>
    dseq (readEnum transitionIndexKindValid 1 input p1) fun index_type p2 =>
    dseq (readBE 8 input p2) fun index p3 =>
    dseq (readEnum transitionKindValid 1 input p3) fun transition_type p4 =>
    dseq (readTailOpt dec input plen pstart p4) fun inner p5 =>
      .ok (.transition port index_type index transition_type inner) p5

/-- `MovieTransition` body (recursive through `dec`). -/
def movieTransitionB (dec : Bytes → Nat → DOut Packet) : Body Packet :=
  fun input plen pstart pos =>
    dseq (readBE 4 input pos) fun movie_frame p1 =>
    dseq (readEnum transitionKindValid 1 input p1) fun transition_type p2 =>
    dseq (readTailOpt dec input plen pstart p2) fun inner p3 =>
      .ok (.movieTransition movie_frame transition_type inner) p3

/-- The two key bytes of the typed variant at declaration position `j`
(`src/tasd/src/packets.rs` declaration order). -/
def typedKey : Nat → Nat × Nat
  | 0 => (0x00, 0x01)
  | 1 => (0x00, 0x02)
  | 2 => (0x00, 0x03)
  | 3 => (0x00, 0x04)
  | 4 => (0x00, 0x05)
  | 5 => (0x00, 0x06)
  | 6 => (0x00, 0x07)
  | 7 => (0x00, 0x08)
  | 8 => (0x00, 0x09)
  | 9 => (0x00, 0x0A)
  | 10 => (0x00, 0x0B)
  | 11 => (0x00, 0x0C)
  | 12 => (0x00, 0x0D)
  | 13 => (0x00, 0x0E)
  | 14 => (0x00, 0x0F)
  | 15 => (0x00, 0x10)
  | 16 => (0x00, 0x11)
  | 17 => (0x00, 0x12)
  | 18 => (0x00, 0x13)
  | 19 => (0x00, 0x14)
  | 20 => (0x00, 0x15)
  | 21 => (0x00, 0xF0)
  | 22 => (0x00, 0xF1)
  | 23 => (0x01, 0x01)
  | 24 => (0x01, 0x02)
  | 25 => (0x01, 0x04)
  | 26 => (0x02, 0x01)
  | 27 => (0x02, 0x02)
  | 28 => (0x02, 0x04)
  | 29 => (0x02, 0x05)
  | 30 => (0x08, 0x04)
  | 31 => (0xFE, 0x01)
  | 32 => (0xFE, 0x02)
  | 33 => (0xFE, 0x03)
  | 34 => (0xFE, 0x04)
  | 35 => (0xFE, 0x05)
  | 36 => (0xFF, 0x01)
  | 37 => (0xFF, 0xFE)
  | 38 => (0xFF, 0xFF)
  | _ => (0x00, 0x00)

/-- The payload body of the typed variant at declaration position `j`,
already wrapped into the `Packet` union (`.map(|inner| inner.into())` in
the `Wrapper` derive).  `dec` is the recursive dispatcher used by the
`Option<Box<Packet>>` tails. -/
def typedBody (dec : Bytes → Nat → DOut Packet) : Nat → Body Packet
  | 0 => mapB (fun x => .consoleType ⟨x.1, x.2⟩) (enumTailStrB consoleValid)
  | 1 => mapB .consoleRegion (fixedB (readEnum consoleRegionValid 1))
  | 2 => mapB (fun s => .gameTitle ⟨s⟩) readTailString
  | 3 => mapB (fun s => .romName ⟨s⟩) readTailString
  | 4 => mapB (fun x => .attribution ⟨x.1, x.2⟩) (enumTailStrB attributionKindValid)
  | 5 => mapB (fun s => .category ⟨s⟩) readTailString
  | 6 => mapB (fun s => .emulatorName ⟨s⟩) readTailString
  | 7 => mapB (fun s => .emulatorVersion ⟨s⟩) readTailString
  | 8 => mapB (fun s => .emulatorCore ⟨s⟩) readTailString
  | 9 => mapB (fun t => .tasLastModified ⟨t⟩) (fixedB (readIBE 8))
  | 10 => mapB (fun t => .dumpCreated ⟨t⟩) (fixedB (readIBE 8))
  | 11 => mapB (fun t => .dumpLastModified ⟨t⟩) (fixedB (readIBE 8))
  | 12 => mapB (fun n => .totalFrames ⟨n⟩) (fixedB (readBE 4))
  | 13 => mapB (fun n => .rerecords ⟨n⟩) (fixedB (readBE 4))
  | 14 => mapB (fun s => .sourceLink ⟨s⟩) readTailString
  | 15 => mapB (fun v => .blankFrames ⟨v⟩) (fixedB (readIBE 2))
  | 16 => mapB (fun b => .verified ⟨b⟩) (fixedB readBool)
  | 17 => mapB .memoryInit memoryInitB
  | 18 => mapB .gameIdentifier gameIdentifierB
  | 19 => mapB (fun s => .movieLicense ⟨s⟩) readTailString
  | 20 => mapB .movieFile movieFileB
  | 21 => mapB .portController portControllerB
  | 22 => mapB .portOverread portOverreadB
  | 23 => mapB (fun n => .nesLatchFilter ⟨n⟩) (fixedB (readBE 2))
  | 24 => mapB (fun n => .nesClockFilter ⟨n⟩) (fixedB readU8)
  | 25 => mapB (fun s => .nesGameGenieCode ⟨s⟩) readTailString
  | 26 => mapB (fun n => .snesLatchFilter ⟨n⟩) (fixedB (readBE 2))
  | 27 => mapB (fun n => .snesClockFilter ⟨n⟩) (fixedB readU8)
  | 28 => mapB (fun s => .snesGameGenieCode ⟨s⟩) readTailString
  | 29 => mapB (fun l => .snesLatchTrain ⟨l⟩) readTailVec64
  | 30 => mapB (fun s => .genesisGameGenieCode ⟨s⟩) readTailString
  | 31 => mapB (fun x => .inputChunk ⟨x.1, x.2⟩) u8TailVecB
  | 32 => mapB .inputMoment inputMomentB
  | 33 => transitionB dec
  | 34 => mapB .lagFrameChunk lagFrameChunkB
  | 35 => movieTransitionB dec
  | 36 => mapB (fun s => .comment ⟨s⟩) readTailString
  | 37 => mapB (fun b => .experimental ⟨b⟩) (fixedB readBool)
  | 38 => mapB (fun d => .unspecified ⟨d⟩) readTailVec
  | _ => fun _ _ _ pos => .err .wrongKey pos

/-- `Unsupported::decode` (`src/tasd/src/packets.rs`): two opaque key
bytes, a `PLen`, then the raw payload; no rewind of its own (the
dispatcher rewinds). -/
def Unsupported.decode (input : Bytes) (pos : Nat) : DOut Unsupported :=
  dseq (readBytes input pos 2) fun key p1 =>
  dseq (plenDecode input p1) fun plen p2 =>
  dseq (readBytes input p2 plen) fun data p3 => .ok ⟨key, data⟩ p3

/-- The macro-generated typed decoder of the variant at declaration
position `j`, wrapped into the `Packet` union; `dec` is the dispatcher
used by recursive tails. -/
def typedDec (dec : Bytes → Nat → DOut Packet) (j : Nat) (input : Bytes)
    (pos : Nat) : DOut Packet :=
  decodeWith (typedKey j) (typedBody dec j) input pos

/-- The typed-variant loop of the `Wrapper`-derived `Packet::decode`
(`src/tasd-macros/src/wrapper.rs`): try each typed variant in
declaration order at the recorded start; the first success returns, any
failure rewinds and moves on; after the last typed variant, try
`Unsupported`, whose failure rewinds and propagates. -/
def tryTyped (dec : Bytes → Nat → DOut Packet) (input : Bytes) (pos : Nat) :
    List Nat → DOut Packet
  | [] =>
    match Unsupported.decode input pos with
    | .ok u p => .ok (.unsupported u) p
    | .err e _ => .err e pos
    | .panic => .panic
  | j :: rest =>
    match typedDec dec j input pos with
    | .ok a p => .ok a p
    | .err _ _ => tryTyped dec input pos rest
    | .panic => .panic

/-- Fueled `Packet::decode`.  The Rust dispatcher recurses unboundedly
through `Option<Box<Packet>>` tails; every level of recursion strictly
advances the cursor, so `input.length + 1` units of fuel (supplied by
`Packet.decode` below) always suffice, and exhausted fuel — unreachable
from `Packet.decode` — is mapped to `panic`. -/
def Packet.decodeFuel : Nat → Bytes → Nat → DOut Packet
  | 0, _, _ => .panic
  | fuel + 1, input, pos =>
    tryTyped (Packet.decodeFuel fuel) input pos (List.range 39)

/-- `Packet::decode`: the dispatcher at its entry point. -/
def Packet.decode (input : Bytes) (pos : Nat) : DOut Packet :=
  Packet.decodeFuel (input.length + 1) input pos

/-! ### Well-formed packet values -/

/-- All entries are bytes. -/
def bytesWf (l : Bytes) : Bool := l.all (fun b => b < 256)

/-- A payload length fits the platform index width (`usize` on the
64-bit targets the crate builds for), so its `PLen` round-trips. -/
def plenOk (n : Nat) : Bool := n < 2 ^ 64

/-- The 39 typed keys. -/
def knownKeys : List (Nat × Nat) := (List.range 39).map typedKey

/-- Well-formed packet values: the value constraints every well-typed
Rust `Packet` satisfies by construction (field bounds from the machine
types, UTF-8 validity of `String` fields, `usize` payload lengths),
together with the conditions singled out by the round-trip analysis:
a `#[u8_string]` field is at most 255 bytes (longer ones are truncated
by the encoder), every encoded payload — also of nested inner packets —
is non-empty (a zero payload encodes as the `PLen` byte `0x00`, which
the decoder rejects), and an `Unsupported` value carries two key bytes
that match no typed variant and a non-empty payload. -/
def Packet.wfb : Packet → Bool
  | .consoleType p => consoleValid p.console && utf8Valid p.name && plenOk (1 + p.name.length)
  | .consoleRegion r => consoleRegionValid r
  | .gameTitle p => utf8Valid p.title && !p.title.isEmpty && plenOk p.title.length
  | .romName p => utf8Valid p.name && !p.name.isEmpty && plenOk p.name.length
  | .attribution p =>
    attributionKindValid p.kind && utf8Valid p.name && plenOk (1 + p.name.length)
  | .category p => utf8Valid p.category && !p.category.isEmpty && plenOk p.category.length
  | .emulatorName p => utf8Valid p.name && !p.name.isEmpty && plenOk p.name.length
  | .emulatorVersion p => utf8Valid p.version && !p.version.isEmpty && plenOk p.version.length
  | .emulatorCore p => utf8Valid p.core && !p.core.isEmpty && plenOk p.core.length
  | .tasLastModified p => decide (-(2 ^ 63) ≤ p.timestamp) && decide (p.timestamp < 2 ^ 63)
  | .dumpCreated p => decide (-(2 ^ 63) ≤ p.timestamp) && decide (p.timestamp < 2 ^ 63)
  | .dumpLastModified p => decide (-(2 ^ 63) ≤ p.timestamp) && decide (p.timestamp < 2 ^ 63)
  | .totalFrames p => decide (p.frames < 2 ^ 32)
  | .rerecords p => decide (p.rerecords < 2 ^ 32)
  | .sourceLink p => utf8Valid p.link && !p.link.isEmpty && plenOk p.link.length
  | .blankFrames p => decide (-(2 ^ 15) ≤ p.frames) && decide (p.frames < 2 ^ 15)
  | .verified _ => true
  | .memoryInit p =>
    initKindValid p.data_type && initDeviceValid p.device && utf8Valid p.name &&
      decide (p.name.length ≤ 255) && bytesWf p.data &&
      plenOk (5 + p.name.length + p.data.length)
  | .gameIdentifier p =>
    idKindValid p.kind && idEncodingValid p.encoding && utf8Valid p.name &&
      decide (p.name.length ≤ 255) && bytesWf p.identifier &&
      plenOk (3 + p.name.length + p.identifier.length)
  | .movieLicense p => utf8Valid p.license && !p.license.isEmpty && plenOk p.license.length
  | .movieFile p =>
    utf8Valid p.name && decide (p.name.length ≤ 255) && bytesWf p.data &&
      plenOk (1 + p.name.length + p.data.length)
  | .portController p => decide (p.port < 256) && portKindValid p.kind
  | .portOverread p => decide (p.port < 256)
  | .nesLatchFilter p => decide (p.time < 2 ^ 16)
  | .nesClockFilter p => decide (p.time < 256)
  | .nesGameGenieCode p => utf8Valid p.code && !p.code.isEmpty && plenOk p.code.length
  | .snesLatchFilter p => decide (p.time < 2 ^ 16)
  | .snesClockFilter p => decide (p.time < 256)
  | .snesGameGenieCode p => utf8Valid p.code && !p.code.isEmpty && plenOk p.code.length
  | .snesLatchTrain p =>
    p.latch_trains.all (fun w => w < 2 ^ 64) && !p.latch_trains.isEmpty &&
      plenOk (8 * p.latch_trains.length)
  | .genesisGameGenieCode p => utf8Valid p.code && !p.code.isEmpty && plenOk p.code.length
  | .inputChunk p => decide (p.port < 256) && bytesWf p.inputs && plenOk (1 + p.inputs.length)
  | .inputMoment p =>
    decide (p.port < 256) && momentIndexKindValid p.index_type &&
      decide (p.index < 2 ^ 64) && bytesWf p.inputs &&
      plenOk (11 + p.inputs.length)
  | .transition port index_type index transition_type inner =>
    decide (port < 256) && transitionIndexKindValid index_type &&
      decide (index < 2 ^ 64) && transitionKindValid transition_type &&
      (match inner with
       | none => true
       | some q => Packet.wfb q && plenOk (11 + (Packet.encode q).length))
  | .lagFrameChunk p => decide (p.movie_frame < 2 ^ 32) && decide (p.count < 2 ^ 32)
  | .movieTransition movie_frame transition_type inner =>
    decide (movie_frame < 2 ^ 32) && transitionKindValid transition_type &&
      (match inner with
       | none => true
       | some q => Packet.wfb q && plenOk (5 + (Packet.encode q).length))
  | .comment p => utf8Valid p.comment && !p.comment.isEmpty && plenOk p.comment.length
  | .experimental _ => true
  | .unspecified p => bytesWf p.data && !p.data.isEmpty && plenOk p.data.length
  | .unsupported p =>
    (match p.key with
     | [k1, k2] => decide (k1 < 256) && decide (k2 < 256) && decide ((k1, k2) ∉ knownKeys)
     | _ => false) &&
      bytesWf p.data && !p.data.isEmpty && plenOk p.data.length

/-- Nesting depth of a packet value through the `Option<Box<Packet>>`
tails. -/
def Packet.depth : Packet → Nat
  | .transition _ _ _ _ (some q) => q.depth + 1
  | .movieTransition _ _ (some q) => q.depth + 1
  | _ => 1

/-! ### The file container (`src/tasd/src/lib.rs`) -/

/-- `TasdError` (the `Io` case only arises from real I/O faults, which an
in-memory cursor never produces). -/
inductive TasdError where
  | io
  | packet (e : DecodeError)
  | missingHeader
  | magicNumberMismatch (magic : Bytes)
  | unsupportedVersion
  | missingPath
  deriving DecidableEq, Repr

/-- Outcome of a file-level operation: a value, a `TasdError`, or the
abnormal terminations inherited from `Packet::decode`. -/
inductive FOut (α : Type) where
  | ok (a : α)
  | err (e : TasdError)
  | panic
  deriving DecidableEq, Repr

/-- `TasdFile` (the `path` field, which `parse_slice` always leaves
`None`, is omitted). -/
structure TasdFile where
  version : Nat
  keylen : Nat
  packets : List Packet

/-- The packet loop of `TasdFile::parse_slice`: decode packets until an
error; `EndOfStream` is accepted — ending the loop successfully — only
when the (rewound) cursor sits exactly at the end of the input, any
other outcome is an error.  Each successful `Packet::decode` consumes at
least four bytes, so the `data.length + 1` fuel supplied by `parseSlice`
never runs out (the fuel-exhaustion value is arbitrary). -/
def parseLoop : Nat → Bytes → Nat → List Packet → FOut (List Packet)
  | 0, _, _, _ => .err .io
  | fuel + 1, data, pos, acc =>
    match Packet.decode data pos with
    | .ok p pos2 => parseLoop fuel data pos2 (acc ++ [p])
    | .err .endOfStream p2 =>
      if p2 ≠ data.length then .err (.packet .endOfStream) else .ok acc
    | .err e _ => .err (.packet e)
    | .panic => .panic

/-- `TasdFile::parse_slice`: magic (4 bytes, else `MissingHeader` /
`MagicNumberMismatch`), version (2 bytes big-endian, must lie in the
supported range list `[1..=1]`), keylen (1 byte), then the packet
loop. -/
def TasdFile.parseSlice (data : Bytes) : FOut TasdFile :=
  match readBytes data 0 4 with
  | .err _ _ => .err .missingHeader
  | .panic => .panic
  | .ok magic p4 =>
    if magic ≠ [0x54, 0x41, 0x53, 0x44] then .err (.magicNumberMismatch magic)
    else
      match readBE 2 data p4 with
      | .err _ _ => .err .missingHeader
      | .panic => .panic
      | .ok version p6 =>
        if version ≠ 1 then .err .unsupportedVersion
        else
          match readU8 data p6 with
          | .err _ _ => .err .missingHeader
          | .panic => .panic
          | .ok keylen p7 =>
            match parseLoop (data.length + 1) data p7 [] with
            | .ok packets => .ok ⟨version, keylen, packets⟩
            | .err e => .err e
            | .panic => .panic



/-! ### Legacy interop (`src/src/spec/legacy.rs`)

`legacy.rs` belongs to an earlier module tree (`crate::spec`) whose
packet declarations are not part of the sources; the minimal packet
model below is therefore taken from the specification (§3, §4.5, §4.6),
while the conversions themselves mirror `legacy.rs` verbatim. -/

/-- `LegacyError` from `legacy.rs`. -/
inductive LegacyError where
  | missingPortControllers
  | inputPortOutOfRange
  | unsupportedControllers
  | unsupportedConsole
  deriving DecidableEq, Repr

/-- Modelled from the spec: the `crate::spec::packets::Packet` variants
`legacy.rs` matches on — `PortController { port, kind: u16 }`,
`InputChunk { port, inputs }`, `ConsoleType { kind, custom }` (the
`custom` name is irrelevant here), the `DumpCreated` stamp added by
`TasdFile::new`, and a catch-all for every other variant (all ignored by
the R08 conversion's `filter_map`s). -/
inductive LPacket where
  | dumpCreated
  | consoleType (kind : Nat)
  | portController (port : Nat) (kind : Nat)
  | inputChunk (port : Nat) (inputs : List Nat)
  | other
  deriving DecidableEq, Repr

/-- Modelled from the spec: the `crate::spec::TasdFile` container as far
as `legacy.rs` uses it — its packet list. -/
structure LTasdFile where
  packets : List LPacket
  deriving DecidableEq, Repr

/-- Modelled from the spec (§4.5 New): a fresh container holds a single
`DumpCreated` packet. -/
def LTasdFile.new : LTasdFile := ⟨[.dumpCreated]⟩

/-- The R08 legacy format: a flat list of 2-byte input frames. -/
structure R08 where
  inputs : List (Nat × Nat)
  deriving DecidableEq, Repr

/-- The `PortController`s of a file (the first `filter_map ... cloned
... collect` in `TryFrom<TasdFile> for R08`), as `(port, kind)` pairs. -/
def lPortControllers (f : LTasdFile) : List (Nat × Nat) :=
  f.packets.filterMap fun p =>
    match p with
    | .portController port kind => some (port, kind)
    | _ => none

/-- The `InputChunk`s of a file (the second `filter_map`). -/
def lInputChunks (f : LTasdFile) : List (Nat × List Nat) :=
  f.packets.filterMap fun p =>
    match p with
    | .inputChunk port inputs => some (port, inputs)
    | _ => none

/-- The `fold` distributing chunk bytes into the two port lanes:
port 1 extends lane 0, port 2 extends lane 1, all others are dropped. -/
def lLanes (chunks : List (Nat × List Nat)) : List Nat × List Nat :=
  chunks.foldl
    (fun acc chunk =>
      if chunk.1 = 1 then (acc.1 ++ chunk.2, acc.2)
      else if chunk.1 = 2 then (acc.1, acc.2 ++ chunk.2)
      else acc)
    ([], [])

/-- `Vec::resize(len, 0xFF)` as used on the shorter lane (only ever
called with `len` at least the current length). -/
def lResize (l : List Nat) (len : Nat) : List Nat :=
  l ++ List.replicate (len - l.length) 0xFF

/-- `impl TryFrom<TasdFile> for R08`: at least one `PortController` must
exist (`MissingPortControllers`), all must have kind `0x0101`
(`UnsupportedControllers`); then the two lanes are padded to equal
length with `0xFF` and each frame `i` is
`[p1[i] ^ 0xFF, p2[i] ^ 0xFF]`. -/
def R08.tryFromTasd (f : LTasdFile) : Except LegacyError R08 :=
  let ports := lPortControllers f
  if ports.isEmpty then .error .missingPortControllers
  else if ports.any (fun pc => pc.2 ≠ 0x0101) then .error .unsupportedControllers
  else
    let lanes := lLanes (lInputChunks f)
    let p1 := lResize lanes.1 lanes.2.length
    let p2 := lResize lanes.2 lanes.1.length
    .ok ⟨List.zipWith (fun a b => (a ^^^ 0xFF, b ^^^ 0xFF)) p1 p2⟩

/-- `impl From<R08> for TasdFile`: a fresh file, a `ConsoleType { NES }`
packet, then — for each non-empty lane — its `PortController` with kind
`0x0101` and its `InputChunk` of re-inverted bytes. -/
def tasdFromR08 (r : R08) : LTasdFile :=
  let p1 := r.inputs.map fun i => i.1 ^^^ 0xFF
  let p2 := r.inputs.map fun i => i.2 ^^^ 0xFF
  ⟨LTasdFile.new.packets ++ [.consoleType 0x01] ++
    (if !p1.isEmpty then [.portController 1 0x0101] else []) ++
    (if !p2.isEmpty then [.portController 2 0x0101] else []) ++
    (if !p1.isEmpty then [.inputChunk 1 p1] else []) ++
    (if !p2.isEmpty then [.inputChunk 2 p2] else [])⟩




/-! ## Lemmas -/

theorem beMinF_fuel {fuel1 fuel2 n : Nat} (h1 : n ≤ fuel1) (h2 : n ≤ fuel2) :
    beMinF fuel1 n = beMinF fuel2 n := by
  induction fuel1 generalizing fuel2 n with
  | zero =>
    have hn : n = 0 := by omega
    subst hn
    cases fuel2 <;> simp [beMinF]
  | succ f ih =>
    cases fuel2 with
    | zero =>
      have hn : n = 0 := by omega
      subst hn
      simp [beMinF]
    | succ f2 =>
      simp only [beMinF]
      by_cases hn : n = 0
      · simp [hn]
      · simp only [hn, if_false]
        have hd : n / 256 < n := Nat.div_lt_self (Nat.pos_of_ne_zero hn) (by omega)
        rw [ih (show n / 256 ≤ f by omega) (show n / 256 ≤ f2 by omega)]

/-- The defining recurrence of `beMin`. -/
theorem beMin_eq (n : Nat) :
    beMin n = if n = 0 then [] else beMin (n / 256) ++ [n % 256] := by
  by_cases hn : n = 0
  · simp [hn, beMin, beMinF]
  · have hd : n / 256 < n := Nat.div_lt_self (Nat.pos_of_ne_zero hn) (by omega)
    simp only [hn, if_false, beMin]
    have hstep : beMinF n n = beMinF (n - 1 + 1) n := beMinF_fuel (le_refl n) (by omega)
    rw [hstep]
    simp only [beMinF, hn, if_false]
    exact congrArg (· ++ [n % 256]) (beMinF_fuel (by omega) (le_refl (n / 256)))

theorem charLen_pos {s : Bytes} {k : Nat} (h : charLen s = some k) : 1 ≤ k := by
  match s with
  | [] => simp [charLen] at h
  | b :: rest =>
    unfold charLen at h
    repeat' split at h
    all_goals simp_all
    all_goals omega

theorem utf8ValidF_fuel {fuel1 fuel2 : Nat} {s : Bytes}
    (h1 : s.length ≤ fuel1) (h2 : s.length ≤ fuel2) :
    utf8ValidF fuel1 s = utf8ValidF fuel2 s := by
  induction fuel1 generalizing fuel2 s with
  | zero =>
    have hs : s = [] := by
      cases s with
      | nil => rfl
      | cons b r => simp at h1
    subst hs
    cases fuel2 <;> simp [utf8ValidF]
  | succ f ih =>
    cases s with
    | nil => cases fuel2 <;> simp [utf8ValidF]
    | cons b rest =>
      cases fuel2 with
      | zero => simp at h2
      | succ f2 =>
        simp only [utf8ValidF]
        cases hcl : charLen (b :: rest) with
        | none => rfl
        | some k =>
          have hlen : (rest.drop (k - 1)).length ≤ rest.length := by
            simp [List.length_drop]
          have h1r : (rest.drop (k - 1)).length ≤ f := by
            simp only [List.length_cons] at h1
            omega
          have h2r : (rest.drop (k - 1)).length ≤ f2 := by
            simp only [List.length_cons] at h2
            omega
          exact ih h1r h2r

/-- `utf8Valid` steps through the stream one `charLen`-sized scalar
encoding at a time. -/
theorem utf8Valid_eq (b : Nat) (rest : Bytes) :
    utf8Valid (b :: rest) =
      match charLen (b :: rest) with
      | some k => utf8Valid ((b :: rest).drop k)
      | none => false := by
  simp only [utf8Valid, List.length_cons, utf8ValidF]
  cases hcl : charLen (b :: rest) with
  | none => rfl
  | some k =>
    have hk := charLen_pos hcl
    have hdrop : (b :: rest).drop k = rest.drop (k - 1) := by
      cases k with
      | zero => omega
      | succ m => simp
    show utf8ValidF rest.length (rest.drop (k - 1)) =
      utf8ValidF ((b :: rest).drop k).length ((b :: rest).drop k)
    rw [hdrop]
    exact utf8ValidF_fuel (by simp [List.length_drop]) (le_refl _)


theorem beNat_append_one (l : Bytes) (b : Nat) :
    beNat (l ++ [b]) = beNat l * 256 + b := by
  simp [beNat, List.foldl_append]

theorem beMin_lt (n : Nat) : n < 256 ^ (beMin n).length := by
  induction n using Nat.strong_induction_on with
  | _ n ih =>
    rw [beMin_eq]
    by_cases hn : n = 0
    · simp [hn]
    · simp only [hn, if_false, List.length_append, List.length_cons, List.length_nil]
      have hd : n / 256 < n := Nat.div_lt_self (Nat.pos_of_ne_zero hn) (by omega)
      have h1 := ih (n / 256) hd
      have h2 : n < 256 * (n / 256) + 256 := by omega
      calc n < 256 * (n / 256) + 256 := h2
        _ ≤ 256 * 256 ^ (beMin (n / 256)).length := by nlinarith [h1]
        _ = 256 ^ ((beMin (n / 256)).length + (0 + 1)) := by ring
  
theorem beMin_len_min (n : Nat) (h : 0 < n) :
    256 ^ ((beMin n).length - 1) ≤ n := by
  induction n using Nat.strong_induction_on with
  | _ n ih =>
    rw [beMin_eq]
    have hn : n ≠ 0 := by omega
    simp only [hn, if_false, List.length_append, List.length_cons, List.length_nil]
    by_cases hq : n / 256 = 0
    · have hb0 : beMin (n / 256) = [] := by
        rw [hq, beMin_eq]
        simp
      rw [hb0]
      simpa using h
    · have hd : n / 256 < n := Nat.div_lt_self (by omega) (by omega)
      have h1 := ih (n / 256) hd (Nat.pos_of_ne_zero hq)
      have hlenpos : 0 < (beMin (n / 256)).length := by
        by_contra hc
        have hz : (beMin (n / 256)).length = 0 := by omega
        rw [beMin_eq] at hz
        simp [hq] at hz
      have hpow : 256 ^ ((beMin (n / 256)).length + (0 + 1) - 1) =
          256 ^ ((beMin (n / 256)).length - 1) * 256 := by
        have hL : (beMin (n / 256)).length + (0 + 1) - 1 =
            (beMin (n / 256)).length - 1 + 1 := by omega
        rw [hL, pow_succ]
      rw [hpow]
      have h256 : 256 * (n / 256) ≤ n := Nat.mul_div_le n 256
      nlinarith [h1]

theorem beNat_beMin (n : Nat) : beNat (beMin n) = n := by
  induction n using Nat.strong_induction_on with
  | _ n ih =>
    rw [beMin_eq]
    by_cases hn : n = 0
    · simp [hn, beNat]
    · have hd : n / 256 < n := Nat.div_lt_self (Nat.pos_of_ne_zero hn) (by omega)
      simp only [hn, if_false]
      rw [beNat_append_one, ih (n / 256) hd]
      omega

theorem beMin_ne_nil (n : Nat) (h : 0 < n) : beMin n ≠ [] := by
  rw [beMin_eq]
  simp [Nat.pos_iff_ne_zero.mp h]

/-- The port-1 lane a chunk list distributes to. -/
theorem lLanes_foldl (chunks : List (Nat × List Nat)) :
    ∀ acc : List Nat × List Nat,
      chunks.foldl
        (fun acc chunk =>
          if chunk.1 = 1 then (acc.1 ++ chunk.2, acc.2)
          else if chunk.1 = 2 then (acc.1, acc.2 ++ chunk.2)
          else acc)
        acc =
      (acc.1 ++ (chunks.filter (fun c => c.1 = 1)).flatMap Prod.snd,
       acc.2 ++ (chunks.filter (fun c => c.1 = 2)).flatMap Prod.snd) := by
  induction chunks with
  | nil => intro acc; simp
  | cons c rest ih =>
    intro acc
    by_cases h1 : c.1 = 1
    · simp only [List.foldl_cons, List.filter_cons, h1, if_pos rfl]
      rw [ih]
      simp [h1]
    · by_cases h2 : c.1 = 2
      · simp only [List.foldl_cons, List.filter_cons, h1, h2, if_false, if_pos rfl]
        rw [ih]
        simp [h1, h2]
      · simp only [List.foldl_cons, List.filter_cons, h1, h2, if_false]
        rw [ih]
        simp [h1, h2]

theorem lLanes_eq (chunks : List (Nat × List Nat)) :
    lLanes chunks =
      ((chunks.filter (fun c => c.1 = 1)).flatMap Prod.snd,
       (chunks.filter (fun c => c.1 = 2)).flatMap Prod.snd) := by
  unfold lLanes
  rw [lLanes_foldl]
  simp

theorem xor_ff_cancel (a : Nat) : a ^^^ 0xFF ^^^ 0xFF = a := by
  simp [Nat.xor_assoc]

theorem zip_xor_inv (l : List (Nat × Nat)) :
    List.zipWith (fun a b => (a ^^^ 0xFF, b ^^^ 0xFF))
      (l.map (fun i => i.1 ^^^ 0xFF)) (l.map (fun i => i.2 ^^^ 0xFF)) = l := by
  induction l with
  | nil => rfl
  | cons i rest ih =>
    simp only [List.map_cons, List.zipWith_cons_cons, ih, xor_ff_cancel]

theorem parseLoop_ok_eos :
    ∀ fuel (data : Bytes) pos acc l, parseLoop fuel data pos acc = .ok l →
      ∃ pos2, Packet.decode data pos2 = .err .endOfStream data.length := by
  intro fuel
  induction fuel with
  | zero =>
    intro data pos acc l h
    simp [parseLoop] at h
  | succ f ih =>
    intro data pos acc l h
    unfold parseLoop at h
    cases hd : Packet.decode data pos with
    | ok p pos2 =>
      rw [hd] at h
      simp only at h
      exact ih data pos2 (acc ++ [p]) l h
    | err e p2 =>
      rw [hd] at h
      cases e with
      | endOfStream =>
        by_cases hp : p2 = data.length
        · exact ⟨pos, by rw [hd, hp]⟩
        · simp [hp] at h
      | io => simp at h
      | invalidUtf8 => simp at h
      | invalidEnum => simp at h
      | invalidBool => simp at h
      | wrongKey => simp at h
      | oversizedLength => simp at h
      | exponentIsZero => simp at h
      | wrongLength => simp at h
    | panic =>
      rw [hd] at h
      simp at h

/-- A typed decoder whose two key bytes do not match fails with
`WrongKey`, rewound. -/
theorem decodeWith_wrongKey {α : Type} (key : Nat × Nat) (body : Body α)
    (input : Bytes) (pos k1 k2 : Nat)
    (h : readBytes input pos 2 = .ok [k1, k2] (pos + 2)) (hne : (k1, k2) ≠ key) :
    decodeWith key body input pos = .err .wrongKey pos := by
  unfold decodeWith
  rw [h]
  simp only [dseq]
  rw [if_pos ?hc]
  case hc =>
    simp only [ne_eq, List.cons.injEq, and_true, not_and]
    intro h1 h2
    exact hne (Prod.ext h1 h2)

/-- A typed decoder with fewer than two input bytes left fails with
`EndOfStream`, rewound. -/
theorem decodeWith_eos {α : Type} (key : Nat × Nat) (body : Body α)
    (input : Bytes) (pos : Nat) (h : input.length < pos + 2) :
    decodeWith key body input pos = .err .endOfStream pos := by
  unfold decodeWith readBytes
  rw [if_neg (by omega)]
  rfl

/-- If every typed decoder in the list fails, the dispatcher loop
reaches the `Unsupported` fallback. -/
theorem tryTyped_all_err (dec : Bytes → Nat → DOut Packet) (input : Bytes)
    (pos : Nat) (l : List Nat)
    (h : ∀ j ∈ l, ∃ e p, typedDec dec j input pos = .err e p) :
    tryTyped dec input pos l = tryTyped dec input pos [] := by
  induction l with
  | nil => rfl
  | cons j rest ih =>
    obtain ⟨e, p, hj⟩ := h j (by simp)
    simp only [tryTyped]
    rw [hj]
    exact ih fun j2 hm => h j2 (by simp [hm])

/-- `Unsupported::decode` on a stream with two key bytes, a decodable
`PLen`, and a complete payload. -/
theorem unsupported_decode_ok (input : Bytes) (pos k1 k2 plen pstart : Nat)
    (data : Bytes)
    (hk : readBytes input pos 2 = .ok [k1, k2] (pos + 2))
    (hp : plenDecode input (pos + 2) = .ok plen pstart)
    (hd : readBytes input pstart plen = .ok data (pstart + plen)) :
    Unsupported.decode input pos = .ok ⟨[k1, k2], data⟩ (pstart + plen) := by
  unfold Unsupported.decode
  rw [hk]
  simp only [dseq]
  rw [hp]
  simp only [dseq]
  rw [hd]

/-- The 39 typed keys are pairwise distinct. -/
theorem typedKey_inj :
    ∀ i ∈ List.range 39, ∀ j ∈ List.range 39, i ≠ j → typedKey i ≠ typedKey j := by
  decide

theorem dseq_ok {α β : Type} {m : DOut α} {f : α → Nat → DOut β} {b : β} {p : Nat}
    (h : dseq m f = .ok b p) : ∃ a pm, m = .ok a pm ∧ f a pm = .ok b p := by
  cases m with
  | ok a pm => exact ⟨a, pm, rfl, h⟩
  | err e pe => simp [dseq] at h
  | panic => simp [dseq] at h

theorem readBytes_ok_pos {input : Bytes} {pos n : Nat} {l : Bytes} {p : Nat}
    (h : readBytes input pos n = .ok l p) : p = pos + n := by
  unfold readBytes at h
  by_cases hc : pos + n ≤ input.length
  · rw [if_pos hc] at h
    cases h
    rfl
  · rw [if_neg hc] at h
    cases h

/-- A body whose final tail read consumes exactly the remaining payload
lands at `payload_start + plen` on success. -/
def TailExact {α : Type} (body : Body α) : Prop :=
  ∀ input plen pstart pos a p, body input plen pstart pos = .ok a p → p = pstart + plen

theorem readTailVec_exact : TailExact readTailVec := by
  intro input plen pstart pos a p h
  unfold readTailVec at h
  by_cases h1 : pos < pstart
  · rw [if_pos h1] at h
    cases h
  · rw [if_neg h1] at h
    by_cases h2 : plen < pos - pstart
    · rw [if_pos h2] at h
      cases h
    · rw [if_neg h2] at h
      have := readBytes_ok_pos h
      omega

theorem readTailString_exact : TailExact readTailString := by
  intro input plen pstart pos a p h
  unfold readTailString at h
  obtain ⟨bytes, pm, hv, hf⟩ := dseq_ok h
  by_cases hu : utf8Valid bytes = true
  · rw [if_pos hu] at hf
    cases hf
    exact readTailVec_exact _ _ _ _ _ _ hv
  · rw [if_neg hu] at hf
    cases hf

theorem readTailVec64_exact : TailExact readTailVec64 := by
  intro input plen pstart pos a p h
  unfold readTailVec64 at h
  by_cases h1 : pos < pstart
  · rw [if_pos h1] at h
    cases h
  · rw [if_neg h1] at h
    by_cases h2 : plen < pos - pstart
    · rw [if_pos h2] at h
      cases h
    · rw [if_neg h2] at h
      by_cases h3 : (plen - (pos - pstart)) % 8 ≠ 0
      · rw [if_pos h3] at h
        cases h
      · rw [if_neg h3] at h
        obtain ⟨buf, pm, hv, hf⟩ := dseq_ok h
        cases hf
        have := readBytes_ok_pos hv
        omega

theorem mapB_exact {α β : Type} (f : α → β) (body : Body α) (h : TailExact body) :
    TailExact (mapB f body) := by
  intro input plen pstart pos a p hm
  unfold mapB at hm
  cases hb : body input plen pstart pos with
  | ok a2 p2 =>
    rw [hb] at hm
    cases hm
    exact h _ _ _ _ _ _ hb
  | err e pe =>
    rw [hb] at hm
    cases hm
  | panic =>
    rw [hb] at hm
    cases hm

theorem enumTailStrB_exact (valid : Nat → Bool) : TailExact (enumTailStrB valid) := by
  intro input plen pstart pos a p h
  obtain ⟨v, pm, _, hf⟩ := dseq_ok h
  obtain ⟨s, pm2, hv2, hf2⟩ := dseq_ok hf
  cases hf2
  exact readTailString_exact _ _ _ _ _ _ hv2

theorem u8TailVecB_exact : TailExact u8TailVecB := by
  intro input plen pstart pos a p h
  obtain ⟨v, pm, _, hf⟩ := dseq_ok h
  obtain ⟨d, pm2, hv2, hf2⟩ := dseq_ok hf
  cases hf2
  exact readTailVec_exact _ _ _ _ _ _ hv2

theorem memoryInitB_exact : TailExact memoryInitB := by
  intro input plen pstart pos a p h
  obtain ⟨v1, p1, _, h1⟩ := dseq_ok h
  obtain ⟨v2, p2, _, h2⟩ := dseq_ok h1
  obtain ⟨v3, p3, _, h3⟩ := dseq_ok h2
  obtain ⟨v4, p4, _, h4⟩ := dseq_ok h3
  obtain ⟨v5, p5, hv5, h5⟩ := dseq_ok h4
  cases h5
  exact readTailVec_exact _ _ _ _ _ _ hv5

theorem gameIdentifierB_exact : TailExact gameIdentifierB := by
  intro input plen pstart pos a p h
  obtain ⟨v1, p1, _, h1⟩ := dseq_ok h
  obtain ⟨v2, p2, _, h2⟩ := dseq_ok h1
  obtain ⟨v3, p3, _, h3⟩ := dseq_ok h2
  obtain ⟨v4, p4, hv4, h4⟩ := dseq_ok h3
  cases h4
  exact readTailVec_exact _ _ _ _ _ _ hv4

theorem movieFileB_exact : TailExact movieFileB := by
  intro input plen pstart pos a p h
  obtain ⟨v1, p1, _, h1⟩ := dseq_ok h
  obtain ⟨v2, p2, hv2, h2⟩ := dseq_ok h1
  cases h2
  exact readTailVec_exact _ _ _ _ _ _ hv2

theorem inputMomentB_exact : TailExact inputMomentB := by
  intro input plen pstart pos a p h
  obtain ⟨v1, p1, _, h1⟩ := dseq_ok h
  obtain ⟨v2, p2, _, h2⟩ := dseq_ok h1
  obtain ⟨v3, p3, _, h3⟩ := dseq_ok h2
  obtain ⟨v4, p4, _, h4⟩ := dseq_ok h3
  obtain ⟨v5, p5, hv5, h5⟩ := dseq_ok h4
  cases h5
  exact readTailVec_exact _ _ _ _ _ _ hv5

/-- A success of the decoder skeleton pins the final cursor through its
body: the decoded `plen`, the payload start, and the body's landing
position. -/
theorem decodeWith_ok {α : Type} (key : Nat × Nat) (body : Body α) (input : Bytes)
    (pos : Nat) (a : α) (p : Nat) (h : decodeWith key body input pos = .ok a p) :
    ∃ plen pstart, plenDecode input (pos + 2) = .ok plen pstart ∧
      body input plen pstart pstart = .ok a p := by
  unfold decodeWith at h
  cases hr :
      dseq (readBytes input pos 2) fun k p1 =>
        if k ≠ [key.1, key.2] then .err .wrongKey p1
        else dseq (plenDecode input p1) fun plen p2 => body input plen p2 p2 with
  | ok a2 p2 =>
    rw [hr] at h
    cases h
    obtain ⟨kbytes, pk, hk, hf⟩ := dseq_ok hr
    have hpk : pk = pos + 2 := readBytes_ok_pos hk
    subst hpk
    by_cases hkey : kbytes ≠ [key.1, key.2]
    · rw [if_pos hkey] at hf
      cases hf
    · rw [if_neg hkey] at hf
      obtain ⟨plen, pstart, hp, hb⟩ := dseq_ok hf
      exact ⟨plen, pstart, hp, hb⟩
  | err e pe =>
    rw [hr] at h
    cases h
  | panic =>
    rw [hr] at h
    cases h

theorem readU8_ok_pos {input : Bytes} {pos : Nat} {b p : Nat}
    (h : readU8 input pos = .ok b p) : p = pos + 1 := by
  unfold readU8 at h
  cases hb : readBytes input pos 1 with
  | ok l p2 =>
    rw [hb] at h
    cases h
    exact readBytes_ok_pos hb
  | err e pe =>
    rw [hb] at h
    cases h
  | panic =>
    rw [hb] at h
    cases h

theorem readBE_ok_pos {k : Nat} {input : Bytes} {pos : Nat} {n p : Nat}
    (h : readBE k input pos = .ok n p) : p = pos + k := by
  unfold readBE at h
  cases hb : readBytes input pos k with
  | ok l p2 =>
    rw [hb] at h
    cases h
    exact readBytes_ok_pos hb
  | err e pe =>
    rw [hb] at h
    cases h
  | panic =>
    rw [hb] at h
    cases h

theorem readBool_ok_pos {input : Bytes} {pos : Nat} {b : Bool} {p : Nat}
    (h : readBool input pos = .ok b p) : p = pos + 1 := by
  unfold readBool at h
  obtain ⟨v, pm, hv, hf⟩ := dseq_ok h
  have := readU8_ok_pos hv
  by_cases h0 : v = 0
  · rw [if_pos h0] at hf
    cases hf
    omega
  · rw [if_neg h0] at hf
    by_cases h1 : v = 1
    · rw [if_pos h1] at hf
      cases hf
      omega
    · rw [if_neg h1] at hf
      cases hf

theorem readIBE_ok_pos {k : Nat} {input : Bytes} {pos : Nat} {v : Int} {p : Nat}
    (h : readIBE k input pos = .ok v p) : p = pos + k := by
  unfold readIBE at h
  obtain ⟨n, pm, hn, hf⟩ := dseq_ok h
  have := readBE_ok_pos hn
  by_cases hc : n < 2 ^ (8 * k - 1)
  · rw [if_pos hc] at hf
    cases hf
    omega
  · rw [if_neg hc] at hf
    cases hf
    omega

theorem readEnum_ok_pos {valid : Nat → Bool} {k : Nat} {input : Bytes} {pos n p : Nat}
    (h : readEnum valid k input pos = .ok n p) : p = pos + k := by
  unfold readEnum at h
  obtain ⟨v, pm, hv, hf⟩ := dseq_ok h
  have := readBE_ok_pos hv
  by_cases hc : valid v = true
  · rw [if_pos hc] at hf
    cases hf
    omega
  · rw [if_neg hc] at hf
    cases hf

/-- A body of fixed total field width `w` lands at `pos + w` on
success. -/
def FixedExact {α : Type} (body : Body α) (w : Nat) : Prop :=
  ∀ input plen pstart pos a p, body input plen pstart pos = .ok a p → p = pos + w

theorem mapB_fixed {α β : Type} (f : α → β) (body : Body α) (w : Nat)
    (h : FixedExact body w) : FixedExact (mapB f body) w := by
  intro input plen pstart pos a p hm
  unfold mapB at hm
  cases hb : body input plen pstart pos with
  | ok a2 p2 =>
    rw [hb] at hm
    cases hm
    exact h _ _ _ _ _ _ hb
  | err e pe =>
    rw [hb] at hm
    cases hm
  | panic =>
    rw [hb] at hm
    cases hm

theorem fixedB_enum (valid : Nat → Bool) (k : Nat) :
    FixedExact (fixedB (readEnum valid k)) k :=
  fun _ _ _ _ _ _ h => readEnum_ok_pos h

theorem fixedB_ibe (k : Nat) : FixedExact (fixedB (readIBE k)) k :=
  fun _ _ _ _ _ _ h => readIBE_ok_pos h

theorem fixedB_be (k : Nat) : FixedExact (fixedB (readBE k)) k :=
  fun _ _ _ _ _ _ h => readBE_ok_pos h

theorem fixedB_bool : FixedExact (fixedB readBool) 1 :=
  fun _ _ _ _ _ _ h => readBool_ok_pos h

theorem fixedB_u8 : FixedExact (fixedB readU8) 1 :=
  fun _ _ _ _ _ _ h => readU8_ok_pos h

theorem portControllerB_fixed : FixedExact portControllerB 3 := by
  intro input plen pstart pos a p h
  obtain ⟨v1, p1, h1, hf⟩ := dseq_ok h
  obtain ⟨v2, p2, h2, hf2⟩ := dseq_ok hf
  cases hf2
  have := readU8_ok_pos h1
  have := readEnum_ok_pos h2
  omega

theorem portOverreadB_fixed : FixedExact portOverreadB 2 := by
  intro input plen pstart pos a p h
  obtain ⟨v1, p1, h1, hf⟩ := dseq_ok h
  obtain ⟨v2, p2, h2, hf2⟩ := dseq_ok hf
  cases hf2
  have := readU8_ok_pos h1
  have := readBool_ok_pos h2
  omega

theorem lagFrameChunkB_fixed : FixedExact lagFrameChunkB 8 := by
  intro input plen pstart pos a p h
  obtain ⟨v1, p1, h1, hf⟩ := dseq_ok h
  obtain ⟨v2, p2, h2, hf2⟩ := dseq_ok hf
  cases hf2
  have := readBE_ok_pos h1
  have := readBE_ok_pos h2
  omega

theorem charLen_head_nocont {b : Nat} {rest : Bytes} {k : Nat}
    (h : charLen (b :: rest) = some k) : isCont b = false := by
  unfold charLen at h
  repeat' split at h
  all_goals simp_all [isCont]
  all_goals omega

theorem charLen_le {b : Nat} {rest : Bytes} {k : Nat}
    (h : charLen (b :: rest) = some k) : k ≤ 4 ∧ k ≤ (b :: rest).length := by
  unfold charLen at h
  repeat' split at h
  all_goals cases h
  all_goals simp_all

theorem charLen_conts {b : Nat} {rest : Bytes} {k : Nat}
    (h : charLen (b :: rest) = some k) :
    ∀ i, 1 ≤ i → i < k → isCont ((b :: rest).getD i 0) = true := by
  unfold charLen at h
  repeat' split at h
  all_goals cases h
  all_goals intro i h1 h2
  all_goals interval_cases i
  all_goals simp_all [isCont, List.getD]
  all_goals omega

theorem charLen_truncated {b : Nat} {rest : Bytes} {k : Nat}
    (h : charLen (b :: rest) = some k) :
    ∀ i, 0 < i → i < k → charLen ((b :: rest).take i) = none := by
  unfold charLen at h
  repeat' split at h
  all_goals cases h
  all_goals intro i h1 h2
  all_goals interval_cases i
  all_goals simp_all [charLen]
  all_goals repeat' split
  all_goals try rfl
  all_goals simp_all
  all_goals omega

theorem charLen_stable {b : Nat} {rest : Bytes} {k : Nat}
    (h : charLen (b :: rest) = some k) (t : Bytes) :
    charLen ((b :: rest).take k ++ t) = some k := by
  unfold charLen at h
  repeat' split at h
  all_goals cases h
  all_goals simp_all [charLen]
  all_goals repeat' split
  all_goals try rfl
  all_goals simp_all
  all_goals omega

theorem utf8Valid_cons_ex {b : Nat} {rest : Bytes} (h : utf8Valid (b :: rest) = true) :
    ∃ k, charLen (b :: rest) = some k ∧ utf8Valid ((b :: rest).drop k) = true := by
  rw [utf8Valid_eq] at h
  cases hcl : charLen (b :: rest) with
  | none =>
    rw [hcl] at h
    simp at h
  | some k =>
    rw [hcl] at h
    exact ⟨k, rfl, h⟩

theorem getD_drop (l : Bytes) (n i : Nat) : (l.drop n).getD i 0 = l.getD (n + i) 0 := by
  induction l generalizing n with
  | nil => simp
  | cons a t ih =>
    cases n with
    | zero => simp
    | succ m =>
      simp only [List.drop_succ_cons]
      rw [ih m]
      simp only [Nat.succ_add]
      rfl

theorem take_cons_of_pos (b : Nat) (rest : Bytes) (i : Nat) (h : 0 < i) :
    (b :: rest).take i = b :: rest.take (i - 1) := by
  cases i with
  | zero => omega
  | succ m => simp

theorem drop_len_append (l t : Bytes) (n : Nat) (h : l.length = n) : (l ++ t).drop n = t := by
  subst h
  exact List.drop_left l t

/-- For a valid UTF-8 stream, a prefix of length `i ≤ length` is itself
valid exactly when `i` is the total length or the byte at position `i`
is not a continuation byte — i.e. exactly when `i` is a character
boundary (the portable characterization from the spec, §9). -/
theorem utf8_boundary_iff :
    ∀ (s : Bytes), utf8Valid s = true → ∀ i, i ≤ s.length →
      (utf8Valid (s.take i) = true ↔
        (i = s.length ∨ (i < s.length ∧ isCont (s.getD i 0) = false)))
  | [], _, i, hi => by
    simp only [List.length_nil, Nat.le_zero] at hi
    subst hi
    simp [show utf8Valid ([] : Bytes) = true from rfl]
  | b :: rest, hs, i, hi => by
    obtain ⟨k, hcl, hrest⟩ := utf8Valid_cons_ex hs
    have hk1 : 1 ≤ k := charLen_pos hcl
    obtain ⟨hk4, hklen⟩ := charLen_le hcl
    by_cases hi0 : i = 0
    · subst hi0
      constructor
      · intro _
        right
        refine ⟨by simp, ?_⟩
        simpa using charLen_head_nocont hcl
      · intro _
        rfl
    · by_cases hik : i < k
      · have hlhs : utf8Valid ((b :: rest).take i) = false := by
          have htr := charLen_truncated hcl i (by omega) hik
          rw [take_cons_of_pos b rest i (by omega)] at htr ⊢
          rw [utf8Valid_eq, htr]
        constructor
        · intro hcontra
          rw [hlhs] at hcontra
          cases hcontra
        · intro hrhs
          exfalso
          rcases hrhs with heq | ⟨hlt, hnc⟩
          · simp only [List.length_cons] at heq hklen
            omega
          · have hc := charLen_conts hcl i (by omega) hik
            rw [hc] at hnc
            cases hnc
      · have hki : k ≤ i := by omega
        have htake : (b :: rest).take i =
            (b :: rest).take k ++ ((b :: rest).drop k).take (i - k) := by
          conv_lhs => rw [show i = k + (i - k) by omega]
          exact List.take_add (b :: rest) k (i - k)
        have hvalid_eq : utf8Valid ((b :: rest).take i) =
            utf8Valid (((b :: rest).drop k).take (i - k)) := by
          rw [htake]
          have hstable := charLen_stable hcl (((b :: rest).drop k).take (i - k))
          rw [take_cons_of_pos b rest k (by omega)] at hstable ⊢
          rw [List.cons_append] at hstable
          rw [List.cons_append, utf8Valid_eq, hstable]
          have hlen : (rest.take (k - 1)).length = k - 1 := by
            simp only [List.length_take, List.length_cons] at hklen ⊢
            omega
          have hdrop : (b :: (rest.take (k - 1) ++ ((b :: rest).drop k).take (i - k))).drop k =
              ((b :: rest).drop k).take (i - k) := by
            cases k with
            | zero => omega
            | succ m =>
              simp only [Nat.succ_sub_one] at hlen
              simp only [List.drop_succ_cons, Nat.succ_sub_one]
              exact drop_len_append _ _ _ hlen
          show utf8Valid ((b :: (rest.take (k - 1) ++
            ((b :: rest).drop k).take (i - k))).drop k) =
            utf8Valid (((b :: rest).drop k).take (i - k))
          rw [hdrop]
        rw [hvalid_eq]
        have hlen_drop : ((b :: rest).drop k).length = (b :: rest).length - k := by
          simp
        have IH := utf8_boundary_iff ((b :: rest).drop k) hrest (i - k)
          (by rw [hlen_drop]; omega)
        rw [IH]
        have hgd : ((b :: rest).drop k).getD (i - k) 0 = (b :: rest).getD i 0 := by
          rw [getD_drop]
          congr 1
          omega
        rw [hgd, hlen_drop]
        constructor
        · intro hcase
          rcases hcase with heq | ⟨hlt, hnc⟩
          · left
            omega
          · right
            exact ⟨by omega, hnc⟩
        · intro hcase
          rcases hcase with heq | ⟨hlt, hnc⟩
          · left
            omega
          · right
            exact ⟨by omega, hnc⟩
  termination_by s => s.length
  decreasing_by
    rw [hlen_drop]
    simp only [List.length_cons]
    omega

/-- In a valid UTF-8 stream every position lies within four bytes of a
character start (a non-continuation byte) — scalar encodings are at most
four bytes long. -/
theorem utf8_nocont_window :
    ∀ (s : Bytes), utf8Valid s = true → ∀ i, i < s.length →
      ∃ c, c ≤ i ∧ i < c + 4 ∧ isCont (s.getD c 0) = false
  | [], _, i, hi => by simp at hi
  | b :: rest, hs, i, hi => by
    obtain ⟨k, hcl, hrest⟩ := utf8Valid_cons_ex hs
    have hk1 : 1 ≤ k := charLen_pos hcl
    obtain ⟨hk4, hklen⟩ := charLen_le hcl
    by_cases hik : i < k
    · exact ⟨0, by omega, by omega, by simpa using charLen_head_nocont hcl⟩
    · have hlen_drop : ((b :: rest).drop k).length = (b :: rest).length - k := by
        simp
      obtain ⟨c, hc1, hc2, hc3⟩ := utf8_nocont_window ((b :: rest).drop k) hrest (i - k)
        (by rw [hlen_drop]; omega)
      rw [getD_drop] at hc3
      exact ⟨k + c, by omega, by omega, hc3⟩
  termination_by s => s.length
  decreasing_by
    rw [hlen_drop]
    simp only [List.length_cons]
    omega

/-- A list of length exactly four is a four-element literal. -/
theorem list_len4 (l : Bytes) (h : l.length = 4) :
    ∃ a b c d, l = [a, b, c, d] := by
  match l, h with
  | [a, b, c, d], _ => exact ⟨a, b, c, d, rfl⟩

theorem getD_take (l : Bytes) (n i : Nat) (h : i < n) :
    (l.take n).getD i 0 = l.getD i 0 := by
  induction l generalizing n i with
  | nil => simp
  | cons a t ih =>
    cases n with
    | zero => omega
    | succ m =>
      cases i with
      | zero => simp
      | succ j =>
        simp only [List.take_succ_cons, List.getD_cons_succ]
        exact ih m j (by omega)

theorem getD_mem (l : Bytes) (n : Nat) (h : n < l.length) : l.getD n 0 ∈ l := by
  rw [List.getD_eq_getElem l 0 h]
  exact List.getElem_mem h

theorem shiftLeft_lor_eq_add : ∀ (k x d : Nat), d < 2 ^ k → (x <<< k) ||| d = x * 2 ^ k + d := by
  intro k
  induction k with
  | zero =>
    intro x d hd
    have hd0 : d = 0 := by omega
    subst hd0
    simp
  | succ m ih =>
    intro x d hd
    have hbit1 : x <<< (m + 1) = Nat.bit false (x <<< m) := by
      simp [Nat.bit, Nat.shiftLeft_succ, Nat.mul_comm]
    have hbit2 : d = Nat.bit (decide (d % 2 = 1)) (d / 2) := by
      by_cases hp : d % 2 = 1
      · simp [Nat.bit, hp]
        omega
      · simp [Nat.bit, hp]
        omega
    rw [hbit1]
    conv_lhs => rw [hbit2]
    rw [Nat.lor_bit]
    rw [ih x (d / 2) (by omega)]
    by_cases hp : d % 2 = 1
    · simp [Nat.bit, hp]
      ring_nf
      omega
    · simp [Nat.bit, hp]
      ring_nf
      omega

theorem readBytes_at (a m c : Bytes) :
    readBytes (a ++ m ++ c) a.length m.length = .ok m (a.length + m.length) := by
  unfold readBytes
  rw [if_pos (by simp only [List.length_append]; omega)]
  rw [List.append_assoc, drop_len_append a (m ++ c) a.length rfl, List.take_left]

theorem readU8_at (a : Bytes) (b : Nat) (c : Bytes) :
    readU8 (a ++ [b] ++ c) a.length = .ok b (a.length + 1) := by
  unfold readU8
  rw [show (1 : Nat) = ([b] : Bytes).length from rfl, readBytes_at a [b] c]
  rfl

theorem beBytes_length (k n : Nat) : (beBytes k n).length = k := by
  induction k generalizing n with
  | zero => rfl
  | succ m ih => simp [beBytes, ih]

theorem beBytes_lt (k n : Nat) : ∀ x ∈ beBytes k n, x < 256 := by
  induction k generalizing n with
  | zero => simp [beBytes]
  | succ m ih =>
    intro x hx
    simp only [beBytes, List.mem_append, List.mem_singleton] at hx
    rcases hx with h | h
    · exact ih (n / 256) x h
    · subst h
      omega

theorem beNat_cons_init (l : Bytes) :
    ∀ acc, l.foldl (fun acc b => acc * 256 + b) acc = acc * 256 ^ l.length + beNat l := by
  induction l with
  | nil => intro acc; simp [beNat]
  | cons d rest ih =>
    intro acc
    simp only [List.foldl_cons, List.length_cons]
    rw [ih (acc * 256 + d)]
    conv_rhs => rw [beNat]
    simp only [List.foldl_cons]
    rw [show ((0 : Nat) * 256 + d) = d from by omega]
    rw [show rest.foldl (fun acc b => acc * 256 + b) d = d * 256 ^ rest.length + beNat rest
      from ih d]
    ring

theorem beNat_cons (d : Nat) (rest : Bytes) :
    beNat (d :: rest) = d * 256 ^ rest.length + beNat rest := by
  unfold beNat
  simp only [List.foldl_cons]
  rw [show ((0 : Nat) * 256 + d) = d from by omega]
  exact beNat_cons_init rest d

theorem beNat_beBytes (k n : Nat) : beNat (beBytes k n) = n % 256 ^ k := by
  induction k generalizing n with
  | zero => simp [beBytes, beNat, Nat.mod_one]
  | succ m ih =>
    simp only [beBytes]
    rw [beNat_append_one, ih (n / 256)]
    have hM : 0 < 256 ^ m := Nat.pos_pow_of_pos m (by omega)
    have hqm : n / 256 % 256 ^ m < 256 ^ m := Nat.mod_lt _ hM
    have h1 : n % 256 ^ (m + 1) = 256 * (n / 256 % 256 ^ m) + n % 256 := by
      rw [pow_succ, mul_comm (256 ^ m) 256]
      conv_lhs => rw [show n = 256 * (n / 256) + n % 256 from by omega]
      rw [Nat.add_mod, Nat.mul_mod_mul_left]
      have h256 : 256 * 1 ≤ 256 * 256 ^ m := Nat.mul_le_mul_left 256 hM
      have hr : n % 256 % (256 * 256 ^ m) = n % 256 := Nat.mod_eq_of_lt (by omega)
      rw [hr]
      exact Nat.mod_eq_of_lt (by omega)
    omega

theorem readBE_at (k n : Nat) (hn : n < 256 ^ k) (a c : Bytes) :
    readBE k (a ++ beBytes k n ++ c) a.length = .ok n (a.length + k) := by
  have hb := readBytes_at a (beBytes k n) c
  rw [beBytes_length] at hb
  unfold readBE
  rw [hb]
  show DOut.ok (beNat (beBytes k n)) (a.length + k) = DOut.ok n (a.length + k)
  rw [beNat_beBytes, Nat.mod_eq_of_lt hn]

theorem readBool_at (a : Bytes) (v : Bool) (c : Bytes) :
    readBool (a ++ encBool v ++ c) a.length = .ok v (a.length + 1) := by
  unfold readBool encBool
  cases v with
  | false =>
    rw [show (if (false : Bool) then (1 : Nat) else 0) = 0 from rfl, readU8_at]
    rfl
  | true =>
    rw [show (if (true : Bool) then (1 : Nat) else 0) = 1 from rfl, readU8_at]
    rfl

theorem readEnum_at (valid : Nat → Bool) (k n : Nat) (hn : n < 256 ^ k)
    (hv : valid n = true) (a c : Bytes) :
    readEnum valid k (a ++ beBytes k n ++ c) a.length = .ok n (a.length + k) := by
  unfold readEnum
  rw [readBE_at k n hn a c]
  simp only [dseq, hv, if_pos]

theorem readU8_at_enc (v : Nat) (hv : v < 256) (a c : Bytes) :
    readU8 (a ++ encU8 v ++ c) a.length = .ok v (a.length + 1) := by
  unfold encU8
  rw [Nat.mod_eq_of_lt hv]
  exact readU8_at a v c

theorem readEnum_at_u8 (valid : Nat → Bool) (n : Nat) (hn : n < 256)
    (hv : valid n = true) (a c : Bytes) :
    readEnum valid 1 (a ++ encU8 n ++ c) a.length = .ok n (a.length + 1) := by
  unfold encU8
  rw [Nat.mod_eq_of_lt hn]
  have hb : beBytes 1 n = [n] := by
    simp [beBytes, Nat.mod_eq_of_lt hn, Nat.div_eq_of_lt hn]
  rw [← hb]
  exact readEnum_at valid 1 n (by simpa using hn) hv a c

theorem readIBE_at (k : Nat) (hk : 0 < k) (v : Int)
    (hlo : -(2 ^ (8 * k - 1)) ≤ v) (hhi : v < 2 ^ (8 * k - 1)) (a c : Bytes) :
    readIBE k (a ++ ibeBytes k v ++ c) a.length = .ok v (a.length + k) := by
  have hM : (2 : Int) ^ (8 * k) = 2 ^ (8 * k - 1) * 2 := by
    rw [← pow_succ]
    congr 1
    omega
  have hMn : (256 : Nat) ^ k = 2 ^ (8 * k) := by
    rw [show (256 : Nat) = 2 ^ 8 from rfl, ← pow_mul]
  have hce : (((2 : Nat) ^ (8 * k) : Nat) : Int) = (2 : Int) ^ (8 * k) := by
    push_cast
    ring
  have hch : (((2 : Nat) ^ (8 * k - 1) : Nat) : Int) = (2 : Int) ^ (8 * k - 1) := by
    push_cast
    ring
  have hMpos : (0 : Int) < 2 ^ (8 * k - 1) := by positivity
  unfold readIBE ibeBytes
  have hemod : v.emod (2 ^ (8 * k)) = if 0 ≤ v then v else v + 2 ^ (8 * k) := by
    by_cases h0 : 0 ≤ v
    · rw [if_pos h0]
      exact Int.emod_eq_of_lt h0 (by omega)
    · rw [if_neg h0]
      have h1 : (v + 2 ^ (8 * k)).emod (2 ^ (8 * k)) = v.emod (2 ^ (8 * k)) := by
        conv_lhs => rw [show v + 2 ^ (8 * k) = v + 2 ^ (8 * k) * 1 from by ring]
        exact Int.add_mul_emod_self_left v (2 ^ (8 * k)) 1
      rw [← h1]
      exact Int.emod_eq_of_lt (by omega) (by omega)
  by_cases h0 : 0 ≤ v
  · rw [hemod, if_pos h0]
    have htn : v.toNat < 256 ^ k := by
      rw [hMn]
      omega
    rw [readBE_at k v.toNat htn a c]
    simp only [dseq]
    rw [if_pos ?hc]
    case hc => omega
    congr 1
    exact Int.toNat_of_nonneg h0
  · rw [hemod, if_neg h0]
    have hvn : 0 ≤ v + 2 ^ (8 * k) := by omega
    have htn : (v + 2 ^ (8 * k)).toNat < 256 ^ k := by
      rw [hMn]
      omega
    rw [readBE_at k (v + 2 ^ (8 * k)).toNat htn a c]
    simp only [dseq]
    rw [if_neg ?hc]
    case hc => omega
    congr 1
    simp only [Int.ofNat_eq_coe]
    omega

theorem beMin_digits_lt (n : Nat) : ∀ x ∈ beMin n, x < 256 := by
  induction n using Nat.strong_induction_on with
  | _ n ih =>
    rw [beMin_eq]
    by_cases hn : n = 0
    · simp [hn]
    · simp only [hn, if_false]
      intro x hx
      rcases List.mem_append.mp hx with h | h
      · exact ih (n / 256) (Nat.div_lt_self (Nat.pos_of_ne_zero hn) (by omega)) x h
      · simp only [List.mem_singleton] at h
        subst h
        omega

theorem beMin_len_le {n e : Nat} (h : n < 256 ^ e) : (beMin n).length ≤ e := by
  by_cases h0 : n = 0
  · subst h0
    simp [beMin, beMinF]
  · have hmin := beMin_len_min n (Nat.pos_of_ne_zero h0)
    have hlt : 256 ^ ((beMin n).length - 1) < 256 ^ e := lt_of_le_of_lt hmin h
    have := (Nat.pow_lt_pow_iff_right (by omega : 1 < 256)).mp hlt
    have hnn : beMin n ≠ [] := beMin_ne_nil n (Nat.pos_of_ne_zero h0)
    have : (beMin n).length ≠ 0 := fun hc => hnn (List.length_eq_zero.mp hc)
    omega

theorem plenLoop_at (digits : Bytes) :
    ∀ (a c : Bytes) (len0 : Nat), (∀ x ∈ digits, x < 256) → digits.length ≤ 8 →
      len0 < 256 ^ (8 - digits.length) →
      plenLoop (a ++ digits ++ c) digits.length len0 a.length =
        .ok (len0 * 256 ^ digits.length + beNat digits) (a.length + digits.length) := by
  induction digits with
  | nil =>
    intro a c len0 _ _ _
    simp [plenLoop, beNat]
  | cons d rest ih =>
    intro a c len0 hd hlen hl0
    have hd256 : d < 256 := hd d (by simp)
    have hmul : len0 * 256 < 2 ^ 64 := by
      have h1 : len0 * 256 < 256 ^ (8 - (d :: rest).length) * 256 :=
        mul_lt_mul_of_pos_right hl0 (by omega)
      have h2 : 256 ^ (8 - (d :: rest).length) * 256 ≤ 256 ^ 8 := by
        rw [← pow_succ]
        apply Nat.pow_le_pow_right (by omega)
        simp only [List.length_cons]
        omega
      have h3 : (256 : Nat) ^ 8 = 2 ^ 64 := by norm_num
      omega
    have hstep : plenStep len0 d = some (len0 * 256 + d) := by
      simp only [plenStep, checkedShl]
      rw [if_neg (by omega)]
      simp only [Option.map_some']
      congr 1
      have hsh : len0 <<< 8 = len0 * 256 := by
        rw [Nat.shiftLeft_eq]
      rw [hsh, Nat.mod_eq_of_lt hmul]
      have hadd := shiftLeft_lor_eq_add 8 len0 d (by omega)
      rw [Nat.shiftLeft_eq] at hadd
      norm_num at hadd
      exact hadd
    have hgrp : a ++ (d :: rest) ++ c = (a ++ [d]) ++ rest ++ c := by simp
    rw [hgrp]
    have hunfold : plenLoop ((a ++ [d]) ++ rest ++ c) ((d :: rest).length) len0 a.length =
        dseq (readU8 ((a ++ [d]) ++ rest ++ c) a.length) (fun b p =>
          match plenStep len0 b with
          | none => DOut.err .oversizedLength p
          | some len2 => plenLoop ((a ++ [d]) ++ rest ++ c) rest.length len2 p) := rfl
    rw [hunfold]
    have hread : readU8 ((a ++ [d]) ++ rest ++ c) a.length = .ok d (a.length + 1) := by
      have hgrp2 : (a ++ [d]) ++ rest ++ c = a ++ [d] ++ (rest ++ c) := by simp
      rw [hgrp2]
      exact readU8_at a d (rest ++ c)
    rw [hread]
    simp only [dseq]
    rw [hstep]
    show plenLoop ((a ++ [d]) ++ rest ++ c) rest.length (len0 * 256 + d) (a.length + 1) = _
    have hlen2 : a.length + 1 = (a ++ [d]).length := by simp
    rw [hlen2]
    rw [ih (a ++ [d]) c (len0 * 256 + d) (fun x hx => hd x (by simp [hx]))
      (by simp only [List.length_cons] at hlen; omega) ?hbound]
    case hbound =>
      simp only [List.length_cons] at hlen hl0 ⊢
      have h1 : 256 ^ (8 - (rest.length + 1)) * 256 = 256 ^ (8 - rest.length) := by
        rw [← pow_succ]
        congr 1
        omega
      have h2 : len0 * 256 + 256 ≤ 256 ^ (8 - (rest.length + 1)) * 256 := by
        have h3 := Nat.succ_le_of_lt hl0
        nlinarith
      omega
    congr 1
    · rw [beNat_cons]
      simp only [List.length_cons]
      ring
    · simp only [List.length_append, List.length_cons, List.length_nil]
      omega

theorem plenDecode_at (n : Nat) (h0 : 0 < n) (h64 : n < 2 ^ 64) (a c : Bytes) :
    plenDecode (a ++ plenEncode n ++ c) a.length =
      .ok n (a.length + (plenEncode n).length) := by
  have henc : plenEncode n = (beMin n).length :: beMin n := by
    simp [plenEncode, Nat.pos_iff_ne_zero.mp h0]
  have hlen8 : (beMin n).length ≤ 8 := beMin_len_le (by norm_num at h64 ⊢; omega)
  unfold plenDecode
  rw [henc]
  have hread : readU8 (a ++ ((beMin n).length :: beMin n) ++ c) a.length =
      .ok (beMin n).length (a.length + 1) := by
    have : a ++ ((beMin n).length :: beMin n) ++ c =
        a ++ [(beMin n).length] ++ (beMin n ++ c) := by simp
    rw [this]
    exact readU8_at a (beMin n).length (beMin n ++ c)
  rw [hread]
  simp only [dseq]
  have hne : (beMin n).length ≠ 0 := fun hc =>
    (beMin_ne_nil n h0) (List.length_eq_zero.mp hc)
  rw [if_neg hne]
  have hassoc : a ++ ((beMin n).length :: beMin n) ++ c =
      (a ++ [(beMin n).length]) ++ beMin n ++ c := by simp
  rw [hassoc]
  have hpos : a.length + 1 = (a ++ [(beMin n).length]).length := by simp
  rw [hpos]
  rw [plenLoop_at (beMin n) (a ++ [(beMin n).length]) c 0 (beMin_digits_lt n) hlen8
    (Nat.pos_pow_of_pos _ (by omega))]
  rw [beNat_beMin]
  simp only [List.length_append, List.length_cons, List.length_nil]
  congr 1
  · omega
  · omega

theorem readTailVec_at (a d c : Bytes) (pstart : Nat) (hp : pstart ≤ a.length) :
    readTailVec (a ++ d ++ c) (a.length - pstart + d.length) pstart a.length =
      .ok d (a.length + d.length) := by
  unfold readTailVec
  rw [if_neg (by omega), if_neg (by omega)]
  rw [show a.length - pstart + d.length - (a.length - pstart) = d.length from by omega]
  exact readBytes_at a d c

theorem readTailString_at (a d c : Bytes) (pstart : Nat) (hp : pstart ≤ a.length)
    (hv : utf8Valid d = true) :
    readTailString (a ++ d ++ c) (a.length - pstart + d.length) pstart a.length =
      .ok d (a.length + d.length) := by
  unfold readTailString
  rw [readTailVec_at a d c pstart hp]
  simp only [dseq, hv, if_pos]

theorem toU64s_append (w t : Bytes) (h : w.length = 8) :
    toU64s (w ++ t) = beNat w :: toU64s t := by
  match w, h with
  | [b0, b1, b2, b3, b4, b5, b6, b7], _ => rfl

theorem flatMap_beBytes_length (l : List Nat) :
    (l.flatMap (beBytes 8)).length = 8 * l.length := by
  induction l with
  | nil => rfl
  | cons w rest ih =>
    simp only [List.flatMap_cons, List.length_append, beBytes_length, ih,
      List.length_cons]
    ring

theorem toU64s_flatMap (l : List Nat) (h : ∀ w ∈ l, w < 2 ^ 64) :
    toU64s (l.flatMap (beBytes 8)) = l := by
  induction l with
  | nil => rfl
  | cons w rest ih =>
    simp only [List.flatMap_cons]
    rw [toU64s_append _ _ (beBytes_length 8 w)]
    rw [beNat_beBytes]
    rw [ih (fun x hx => h x (by simp [hx]))]
    congr 1
    have hw := h w (by simp)
    have : (256 : Nat) ^ 8 = 2 ^ 64 := by norm_num
    omega

theorem readTailVec64_at (a c : Bytes) (l : List Nat) (pstart : Nat)
    (hp : pstart ≤ a.length) (hw : ∀ w ∈ l, w < 2 ^ 64) :
    readTailVec64 (a ++ l.flatMap (beBytes 8) ++ c)
        (a.length - pstart + 8 * l.length) pstart a.length =
      .ok l (a.length + 8 * l.length) := by
  unfold readTailVec64
  rw [if_neg (by omega), if_neg (by omega)]
  rw [show a.length - pstart + 8 * l.length - (a.length - pstart) = 8 * l.length
    from by omega]
  rw [if_neg (by omega)]
  have hlen := flatMap_beBytes_length l
  have hb := readBytes_at a (l.flatMap (beBytes 8)) c
  rw [hlen] at hb
  rw [hb]
  simp only [dseq]
  rw [toU64s_flatMap l hw]

theorem u8StringEnc_short (s : Bytes) (hlen : s.length ≤ 255) :
    u8StringEnc s = s.length :: s := by
  unfold u8StringEnc u8StrIndex
  rw [if_pos hlen]
  rw [Nat.mod_eq_of_lt (by omega), List.take_length]

theorem readU8String_at (a s c : Bytes) (hlen : s.length ≤ 255)
    (hv : utf8Valid s = true) :
    readU8String (a ++ u8StringEnc s ++ c) a.length =
      .ok s (a.length + (1 + s.length)) := by
  rw [u8StringEnc_short s hlen]
  unfold readU8String readU8Vec
  have hgrp : a ++ (s.length :: s) ++ c = a ++ [s.length] ++ (s ++ c) := by simp
  rw [hgrp]
  rw [readU8_at a s.length (s ++ c)]
  simp only [dseq]
  have hgrp2 : a ++ [s.length] ++ (s ++ c) = (a ++ [s.length]) ++ s ++ c := by simp
  rw [hgrp2]
  have hpos : a.length + 1 = (a ++ [s.length]).length := by simp
  rw [hpos]
  rw [readBytes_at (a ++ [s.length]) s c]
  simp only [dseq, hv, if_pos]
  congr 1
  simp only [List.length_append, List.length_cons, List.length_nil]
  omega

theorem mkPacket_grouped (key : Nat × Nat) (pl a c : Bytes) :
    a ++ mkPacket key pl ++ c =
      (a ++ [key.1, key.2] ++ plenEncode pl.length) ++ pl ++ c := by
  simp [mkPacket]

theorem decodeWith_at {α : Type} (key : Nat × Nat) (body : Body α) (a pl c : Bytes)
    (h0 : 0 < pl.length) (h64 : pl.length < 2 ^ 64) (v : α) (p : Nat)
    (hbody : body (a ++ mkPacket key pl ++ c) pl.length
        (a.length + (2 + (plenEncode pl.length).length))
        (a.length + (2 + (plenEncode pl.length).length)) = .ok v p) :
    decodeWith key body (a ++ mkPacket key pl ++ c) a.length = .ok v p := by
  unfold decodeWith
  have hgrp : a ++ mkPacket key pl ++ c =
      a ++ [key.1, key.2] ++ (plenEncode pl.length ++ pl ++ c) := by
    simp [mkPacket]
  rw [hgrp] at hbody ⊢
  rw [show (2 : Nat) = ([key.1, key.2] : Bytes).length from rfl,
    readBytes_at a [key.1, key.2] (plenEncode pl.length ++ pl ++ c)]
  simp only [dseq]
  rw [if_neg (by simp)]
  have hgrp2 : a ++ [key.1, key.2] ++ (plenEncode pl.length ++ pl ++ c) =
      (a ++ [key.1, key.2]) ++ plenEncode pl.length ++ (pl ++ c) := by simp
  rw [hgrp2] at hbody ⊢
  have hpos : a.length + [key.1, key.2].length = (a ++ [key.1, key.2]).length := by simp
  rw [hpos]
  rw [plenDecode_at pl.length h0 h64 (a ++ [key.1, key.2]) (pl ++ c)]
  simp only [dseq]
  have hpos2 : (a ++ [key.1, key.2]).length + (plenEncode pl.length).length =
      a.length + (2 + (plenEncode pl.length).length) := by
    simp only [List.length_append, List.length_cons, List.length_nil]
    omega
  rw [hpos2, hbody]

theorem bodyRT_tailString (A s c : Bytes) (hv : utf8Valid s = true) :
    readTailString (A ++ s ++ c) s.length A.length A.length =
      .ok s (A.length + s.length) := by
  have h := readTailString_at A s c A.length (le_refl _) hv
  rw [show A.length - A.length + s.length = s.length from by omega] at h
  exact h

theorem bodyRT_tailVec (A d c : Bytes) :
    readTailVec (A ++ d ++ c) d.length A.length A.length =
      .ok d (A.length + d.length) := by
  have h := readTailVec_at A d c A.length (le_refl _)
  rw [show A.length - A.length + d.length = d.length from by omega] at h
  exact h

theorem bodyRT_tailVec64 (A c : Bytes) (l : List Nat) (hw : ∀ w ∈ l, w < 2 ^ 64) :
    readTailVec64 (A ++ l.flatMap (beBytes 8) ++ c) (l.flatMap (beBytes 8)).length
        A.length A.length =
      .ok l (A.length + (l.flatMap (beBytes 8)).length) := by
  have h := readTailVec64_at A c l A.length (le_refl _) hw
  rw [show A.length - A.length + 8 * l.length = 8 * l.length from by omega] at h
  rw [flatMap_beBytes_length]
  exact h

theorem bodyRT_enumTailStr (valid : Nat → Bool) (A c : Bytes) (v : Nat) (s : Bytes)
    (hv : valid v = true) (hv256 : v < 256) (hs : utf8Valid s = true) :
    enumTailStrB valid (A ++ (encU8 v ++ s) ++ c) (1 + s.length) A.length A.length =
      .ok (v, s) (A.length + (1 + s.length)) := by
  unfold enumTailStrB
  have hgrp : A ++ (encU8 v ++ s) ++ c = A ++ encU8 v ++ (s ++ c) := by simp
  rw [hgrp]
  rw [readEnum_at_u8 valid v hv256 hv A (s ++ c)]
  simp only [dseq]
  have hgrp2 : A ++ encU8 v ++ (s ++ c) = (A ++ encU8 v) ++ s ++ c := by simp
  rw [hgrp2]
  have hpos : A.length + 1 = (A ++ encU8 v).length := by simp [encU8]
  rw [hpos]
  have ht := readTailString_at (A ++ encU8 v) s c A.length
    (by simp [encU8]) hs
  rw [show (A ++ encU8 v).length - A.length + s.length = 1 + s.length
    from by simp [encU8]] at ht
  rw [ht]
  simp [encU8]
  omega

theorem bodyRT_u8TailVec (A c : Bytes) (v : Nat) (d : Bytes) (hv256 : v < 256) :
    u8TailVecB (A ++ (encU8 v ++ d) ++ c) (1 + d.length) A.length A.length =
      .ok (v, d) (A.length + (1 + d.length)) := by
  unfold u8TailVecB
  have hgrp : A ++ (encU8 v ++ d) ++ c = A ++ encU8 v ++ (d ++ c) := by simp
  rw [hgrp]
  rw [readU8_at_enc v hv256 A (d ++ c)]
  simp only [dseq]
  have hgrp2 : A ++ encU8 v ++ (d ++ c) = (A ++ encU8 v) ++ d ++ c := by simp
  rw [hgrp2]
  have hpos : A.length + 1 = (A ++ encU8 v).length := by simp [encU8]
  rw [hpos]
  have ht := readTailVec_at (A ++ encU8 v) d c A.length (by simp [encU8])
  rw [show (A ++ encU8 v).length - A.length + d.length = 1 + d.length
    from by simp [encU8]] at ht
  rw [ht]
  simp [encU8]
  omega

theorem bodyRT_memoryInit (A c : Bytes) (dt dev : Nat) (req : Bool) (name data : Bytes)
    (hdt : initKindValid dt = true) (hdt256 : dt < 256)
    (hdev : initDeviceValid dev = true) (hdev16 : dev < 2 ^ 16)
    (hname : utf8Valid name = true) (hnlen : name.length ≤ 255) :
    memoryInitB
        (A ++ (encU8 dt ++ beBytes 2 dev ++ encBool req ++ u8StringEnc name ++ data) ++ c)
        (5 + name.length + data.length) A.length A.length =
      .ok ⟨dt, dev, req, name, data⟩ (A.length + (5 + name.length + data.length)) := by
  unfold memoryInitB
  have hg1 : A ++ (encU8 dt ++ beBytes 2 dev ++ encBool req ++ u8StringEnc name ++ data) ++ c =
      A ++ encU8 dt ++ (beBytes 2 dev ++ (encBool req ++ (u8StringEnc name ++ (data ++ c)))) := by
    simp
  rw [hg1, readEnum_at_u8 initKindValid dt hdt256 hdt A _]
  simp only [dseq]
  have hg2 : A ++ encU8 dt ++ (beBytes 2 dev ++ (encBool req ++ (u8StringEnc name ++ (data ++ c)))) =
      (A ++ encU8 dt) ++ beBytes 2 dev ++ (encBool req ++ (u8StringEnc name ++ (data ++ c))) := by
    simp
  rw [hg2, show A.length + 1 = (A ++ encU8 dt).length from by simp [encU8]]
  rw [readEnum_at initDeviceValid 2 dev (by norm_num at hdev16 ⊢; omega) hdev _ _]
  simp only [dseq]
  have hg3 : (A ++ encU8 dt) ++ beBytes 2 dev ++ (encBool req ++ (u8StringEnc name ++ (data ++ c))) =
      ((A ++ encU8 dt) ++ beBytes 2 dev) ++ encBool req ++ (u8StringEnc name ++ (data ++ c)) := by
    simp
  rw [hg3, show (A ++ encU8 dt).length + 2 = ((A ++ encU8 dt) ++ beBytes 2 dev).length
    from by simp [beBytes_length]; omega]
  rw [readBool_at _ req _]
  simp only [dseq]
  have hg4 : ((A ++ encU8 dt) ++ beBytes 2 dev) ++ encBool req ++ (u8StringEnc name ++ (data ++ c)) =
      (((A ++ encU8 dt) ++ beBytes 2 dev) ++ encBool req) ++ u8StringEnc name ++ (data ++ c) := by
    simp
  rw [hg4, show ((A ++ encU8 dt) ++ beBytes 2 dev).length + 1 =
    (((A ++ encU8 dt) ++ beBytes 2 dev) ++ encBool req).length from by simp [encBool]; omega]
  rw [readU8String_at _ name _ hnlen hname]
  simp only [dseq]
  have hg5 : (((A ++ encU8 dt) ++ beBytes 2 dev) ++ encBool req) ++ u8StringEnc name ++ (data ++ c) =
      ((((A ++ encU8 dt) ++ beBytes 2 dev) ++ encBool req) ++ u8StringEnc name) ++ data ++ c := by
    simp
  rw [hg5, show (((A ++ encU8 dt) ++ beBytes 2 dev) ++ encBool req).length + (1 + name.length) =
    ((((A ++ encU8 dt) ++ beBytes 2 dev) ++ encBool req) ++ u8StringEnc name).length
    from by simp [u8StringEnc_short name hnlen]; omega]
  have ht := readTailVec_at ((((A ++ encU8 dt) ++ beBytes 2 dev) ++ encBool req) ++ u8StringEnc name)
    data c A.length (by simp)
  rw [show ((((A ++ encU8 dt) ++ beBytes 2 dev) ++ encBool req) ++ u8StringEnc name).length -
      A.length + data.length = 5 + name.length + data.length
    from by simp [encU8, encBool, beBytes_length, u8StringEnc_short name hnlen]; omega] at ht
  rw [ht]
  simp [encU8, encBool, beBytes_length, u8StringEnc_short name hnlen]
  omega

theorem mapB_ok {α β : Type} (f : α → β) (body : Body α) (input : Bytes)
    (plen pstart pos : Nat) {v : α} {p : Nat}
    (h : body input plen pstart pos = .ok v p) :
    mapB f body input plen pstart pos = .ok (f v) p := by
  unfold mapB
  rw [h]
  rfl

theorem bodyRT_gameIdentifier (A c : Bytes) (kind enc : Nat) (name ident : Bytes)
    (hk : idKindValid kind = true) (hk256 : kind < 256)
    (he : idEncodingValid enc = true) (he256 : enc < 256)
    (hname : utf8Valid name = true) (hnlen : name.length ≤ 255) :
    gameIdentifierB (A ++ (encU8 kind ++ encU8 enc ++ u8StringEnc name ++ ident) ++ c)
        (3 + name.length + ident.length) A.length A.length =
      .ok ⟨kind, enc, name, ident⟩ (A.length + (3 + name.length + ident.length)) := by
  unfold gameIdentifierB
  have hg1 : A ++ (encU8 kind ++ encU8 enc ++ u8StringEnc name ++ ident) ++ c =
      A ++ encU8 kind ++ (encU8 enc ++ (u8StringEnc name ++ (ident ++ c))) := by simp
  rw [hg1, readEnum_at_u8 idKindValid kind hk256 hk A _]
  simp only [dseq]
  have hg2 : A ++ encU8 kind ++ (encU8 enc ++ (u8StringEnc name ++ (ident ++ c))) =
      (A ++ encU8 kind) ++ encU8 enc ++ (u8StringEnc name ++ (ident ++ c)) := by simp
  rw [hg2, show A.length + 1 = (A ++ encU8 kind).length from by simp [encU8]]
  rw [readEnum_at_u8 idEncodingValid enc he256 he _ _]
  simp only [dseq]
  have hg3 : (A ++ encU8 kind) ++ encU8 enc ++ (u8StringEnc name ++ (ident ++ c)) =
      ((A ++ encU8 kind) ++ encU8 enc) ++ u8StringEnc name ++ (ident ++ c) := by simp
  rw [hg3, show (A ++ encU8 kind).length + 1 = ((A ++ encU8 kind) ++ encU8 enc).length
    from by simp [encU8]]
  rw [readU8String_at _ name _ hnlen hname]
  simp only [dseq]
  have hg4 : ((A ++ encU8 kind) ++ encU8 enc) ++ u8StringEnc name ++ (ident ++ c) =
      (((A ++ encU8 kind) ++ encU8 enc) ++ u8StringEnc name) ++ ident ++ c := by simp
  rw [hg4, show ((A ++ encU8 kind) ++ encU8 enc).length + (1 + name.length) =
    (((A ++ encU8 kind) ++ encU8 enc) ++ u8StringEnc name).length
    from by simp [encU8, u8StringEnc_short name hnlen]; omega]
  have ht := readTailVec_at (((A ++ encU8 kind) ++ encU8 enc) ++ u8StringEnc name)
    ident c A.length (by simp)
  rw [show (((A ++ encU8 kind) ++ encU8 enc) ++ u8StringEnc name).length -
      A.length + ident.length = 3 + name.length + ident.length
    from by simp [encU8, u8StringEnc_short name hnlen]; omega] at ht
  rw [ht]
  simp [encU8, u8StringEnc_short name hnlen]
  omega

theorem bodyRT_movieFile (A c : Bytes) (name data : Bytes)
    (hname : utf8Valid name = true) (hnlen : name.length ≤ 255) :
    movieFileB (A ++ (u8StringEnc name ++ data) ++ c)
        (1 + name.length + data.length) A.length A.length =
      .ok ⟨name, data⟩ (A.length + (1 + name.length + data.length)) := by
  unfold movieFileB
  have hg1 : A ++ (u8StringEnc name ++ data) ++ c =
      A ++ u8StringEnc name ++ (data ++ c) := by simp
  rw [hg1, readU8String_at A name _ hnlen hname]
  simp only [dseq]
  have hg2 : A ++ u8StringEnc name ++ (data ++ c) =
      (A ++ u8StringEnc name) ++ data ++ c := by simp
  rw [hg2, show A.length + (1 + name.length) = (A ++ u8StringEnc name).length
    from by simp [u8StringEnc_short name hnlen]; omega]
  have ht := readTailVec_at (A ++ u8StringEnc name) data c A.length (by simp)
  rw [show (A ++ u8StringEnc name).length - A.length + data.length =
      1 + name.length + data.length
    from by simp [u8StringEnc_short name hnlen]; omega] at ht
  rw [ht]
  simp [u8StringEnc_short name hnlen]
  omega

theorem bodyRT_inputMoment (A c : Bytes) (port : Nat) (hold : Bool)
    (it idx : Nat) (inputs : Bytes)
    (hport : port < 256) (hit : momentIndexKindValid it = true) (hit256 : it < 256)
    (hidx : idx < 2 ^ 64) :
    inputMomentB
        (A ++ (encU8 port ++ encBool hold ++ encU8 it ++ beBytes 8 idx ++ inputs) ++ c)
        (11 + inputs.length) A.length A.length =
      .ok ⟨port, hold, it, idx, inputs⟩ (A.length + (11 + inputs.length)) := by
  unfold inputMomentB
  have hg1 : A ++ (encU8 port ++ encBool hold ++ encU8 it ++ beBytes 8 idx ++ inputs) ++ c =
      A ++ encU8 port ++ (encBool hold ++ (encU8 it ++ (beBytes 8 idx ++ (inputs ++ c)))) := by
    simp
  rw [hg1, readU8_at_enc port hport A _]
  simp only [dseq]
  have hg2 : A ++ encU8 port ++ (encBool hold ++ (encU8 it ++ (beBytes 8 idx ++ (inputs ++ c)))) =
      (A ++ encU8 port) ++ encBool hold ++ (encU8 it ++ (beBytes 8 idx ++ (inputs ++ c))) := by
    simp
  rw [hg2, show A.length + 1 = (A ++ encU8 port).length from by simp [encU8]]
  rw [readBool_at _ hold _]
  simp only [dseq]
  have hg3 : (A ++ encU8 port) ++ encBool hold ++ (encU8 it ++ (beBytes 8 idx ++ (inputs ++ c))) =
      ((A ++ encU8 port) ++ encBool hold) ++ encU8 it ++ (beBytes 8 idx ++ (inputs ++ c)) := by
    simp
  rw [hg3, show (A ++ encU8 port).length + 1 = ((A ++ encU8 port) ++ encBool hold).length
    from by simp [encBool]; omega]
  rw [readEnum_at_u8 momentIndexKindValid it hit256 hit _ _]
  simp only [dseq]
  have hg4 : ((A ++ encU8 port) ++ encBool hold) ++ encU8 it ++ (beBytes 8 idx ++ (inputs ++ c)) =
      (((A ++ encU8 port) ++ encBool hold) ++ encU8 it) ++ beBytes 8 idx ++ (inputs ++ c) := by
    simp
  rw [hg4, show ((A ++ encU8 port) ++ encBool hold).length + 1 =
    (((A ++ encU8 port) ++ encBool hold) ++ encU8 it).length from by simp [encU8, encBool]]
  rw [readBE_at 8 idx (by norm_num at hidx ⊢; omega) _ _]
  simp only [dseq]
  have hg5 : (((A ++ encU8 port) ++ encBool hold) ++ encU8 it) ++ beBytes 8 idx ++ (inputs ++ c) =
      ((((A ++ encU8 port) ++ encBool hold) ++ encU8 it) ++ beBytes 8 idx) ++ inputs ++ c := by
    simp
  rw [hg5, show (((A ++ encU8 port) ++ encBool hold) ++ encU8 it).length + 8 =
    ((((A ++ encU8 port) ++ encBool hold) ++ encU8 it) ++ beBytes 8 idx).length
    from by simp [beBytes_length]; omega]
  have ht := readTailVec_at ((((A ++ encU8 port) ++ encBool hold) ++ encU8 it) ++ beBytes 8 idx)
    inputs c A.length (by simp)
  rw [show ((((A ++ encU8 port) ++ encBool hold) ++ encU8 it) ++ beBytes 8 idx).length -
      A.length + inputs.length = 11 + inputs.length
    from by simp [encU8, encBool, beBytes_length]; try omega] at ht
  rw [ht]
  simp [encU8, encBool, beBytes_length]
  omega

theorem bodyRT_portController (A c : Bytes) (port kind : Nat)
    (hport : port < 256) (hkind : portKindValid kind = true) (hk16 : kind < 2 ^ 16)
    (plen pstart : Nat) :
    portControllerB (A ++ (encU8 port ++ beBytes 2 kind) ++ c) plen pstart A.length =
      .ok ⟨port, kind⟩ (A.length + 3) := by
  unfold portControllerB fixedB
  simp only []
  have hg1 : A ++ (encU8 port ++ beBytes 2 kind) ++ c =
      A ++ encU8 port ++ (beBytes 2 kind ++ c) := by simp
  rw [hg1, readU8_at_enc port hport A _]
  simp only [dseq]
  have hg2 : A ++ encU8 port ++ (beBytes 2 kind ++ c) =
      (A ++ encU8 port) ++ beBytes 2 kind ++ c := by simp
  rw [hg2, show A.length + 1 = (A ++ encU8 port).length from by simp [encU8]]
  rw [readEnum_at portKindValid 2 kind (by norm_num at hk16 ⊢; omega) hkind _ _]
  show DOut.ok (⟨port, kind⟩ : PortController) ((A ++ encU8 port).length + 2) = _
  congr 1
  simp [encU8]

theorem bodyRT_portOverread (A c : Bytes) (port : Nat) (high : Bool)
    (hport : port < 256) (plen pstart : Nat) :
    portOverreadB (A ++ (encU8 port ++ encBool high) ++ c) plen pstart A.length =
      .ok ⟨port, high⟩ (A.length + 2) := by
  unfold portOverreadB fixedB
  simp only []
  have hg1 : A ++ (encU8 port ++ encBool high) ++ c =
      A ++ encU8 port ++ (encBool high ++ c) := by simp
  rw [hg1, readU8_at_enc port hport A _]
  simp only [dseq]
  have hg2 : A ++ encU8 port ++ (encBool high ++ c) =
      (A ++ encU8 port) ++ encBool high ++ c := by simp
  rw [hg2, show A.length + 1 = (A ++ encU8 port).length from by simp [encU8]]
  rw [readBool_at _ high _]
  show DOut.ok (⟨port, high⟩ : PortOverread) ((A ++ encU8 port).length + 1) = _
  congr 1
  simp [encU8]

theorem bodyRT_lagFrameChunk (A c : Bytes) (mf cnt : Nat)
    (hmf : mf < 2 ^ 32) (hcnt : cnt < 2 ^ 32) (plen pstart : Nat) :
    lagFrameChunkB (A ++ (beBytes 4 mf ++ beBytes 4 cnt) ++ c) plen pstart A.length =
      .ok ⟨mf, cnt⟩ (A.length + 8) := by
  unfold lagFrameChunkB fixedB
  simp only []
  have hg1 : A ++ (beBytes 4 mf ++ beBytes 4 cnt) ++ c =
      A ++ beBytes 4 mf ++ (beBytes 4 cnt ++ c) := by simp
  rw [hg1, readBE_at 4 mf (by norm_num at hmf ⊢; omega) A _]
  simp only [dseq]
  have hg2 : A ++ beBytes 4 mf ++ (beBytes 4 cnt ++ c) =
      (A ++ beBytes 4 mf) ++ beBytes 4 cnt ++ c := by simp
  rw [hg2, show A.length + 4 = (A ++ beBytes 4 mf).length
    from by simp [beBytes_length]]
  rw [readBE_at 4 cnt (by norm_num at hcnt ⊢; omega) _ _]
  show DOut.ok (⟨mf, cnt⟩ : LagFrameChunk) ((A ++ beBytes 4 mf).length + 4) = _
  congr 1
  simp [beBytes_length]
  try omega

theorem plenOk_lt {n : Nat} (h : plenOk n = true) : n < 2 ^ 64 := by
  simpa [plenOk] using h

theorem nonempty_pos {l : Bytes} (h : (!l.isEmpty) = true) : 0 < l.length := by
  cases l with
  | nil => simp at h
  | cons b t => simp

theorem plenEncode_length_pos (n : Nat) : 0 < (plenEncode n).length := by
  unfold plenEncode
  split <;> simp

theorem mkPacket_length_pos (key : Nat × Nat) (pl : Bytes) :
    0 < (mkPacket key pl).length := by
  simp [mkPacket]

theorem encode_pos (p : Packet) : 0 < (Packet.encode p).length := by
  cases p with
  | unsupported u =>
    simp only [Packet.encode, Unsupported.encode, List.length_append]
    have := plenEncode_length_pos u.data.length
    omega
  | transition port it idx tt inner => cases inner <;> exact mkPacket_length_pos _ _
  | movieTransition mf tt inner => cases inner <;> exact mkPacket_length_pos _ _
  | _ => exact mkPacket_length_pos _ _

theorem depth_pos (p : Packet) : 1 ≤ Packet.depth p := by
  unfold Packet.depth
  split <;> omega

theorem consoleValid_lt {n : Nat} (h : consoleValid n = true) : n < 256 := by
  simp [consoleValid] at h
  omega

theorem consoleRegionValid_lt {n : Nat} (h : consoleRegionValid n = true) : n < 256 := by
  simp [consoleRegionValid] at h
  omega

theorem attributionKindValid_lt {n : Nat} (h : attributionKindValid n = true) : n < 256 := by
  simp [attributionKindValid] at h
  omega

theorem initKindValid_lt {n : Nat} (h : initKindValid n = true) : n < 256 := by
  simp [initKindValid] at h
  omega

theorem initDeviceValid_lt {n : Nat} (h : initDeviceValid n = true) : n < 2 ^ 16 := by
  simp [initDeviceValid] at h
  omega

theorem idKindValid_lt {n : Nat} (h : idKindValid n = true) : n < 256 := by
  simp [idKindValid] at h
  omega

theorem idEncodingValid_lt {n : Nat} (h : idEncodingValid n = true) : n < 256 := by
  simp [idEncodingValid] at h
  omega

theorem portKindValid_lt {n : Nat} (h : portKindValid n = true) : n < 2 ^ 16 := by
  simp [portKindValid] at h
  omega

theorem momentIndexKindValid_lt {n : Nat} (h : momentIndexKindValid n = true) : n < 256 := by
  simp [momentIndexKindValid] at h
  omega

theorem transitionIndexKindValid_lt {n : Nat} (h : transitionIndexKindValid n = true) :
    n < 256 := by
  simp [transitionIndexKindValid] at h
  omega

theorem transitionKindValid_lt {n : Nat} (h : transitionKindValid n = true) : n < 256 := by
  simp [transitionKindValid] at h
  omega

theorem range_split (n j : Nat) (h : j < n) :
    List.range n = List.range j ++ j :: (List.range n).drop (j + 1) := by
  conv_lhs => rw [← List.take_append_drop j (List.range n)]
  congr 1
  · rw [List.take_range]
    congr 1
    omega
  · rw [List.drop_eq_getElem_cons (by simpa using h)]
    simp

theorem tryTyped_skip (dec : Bytes → Nat → DOut Packet) (input : Bytes) (pos : Nat)
    (l1 : List Nat) (j : Nat) (l2 : List Nat)
    (h1 : ∀ i ∈ l1, ∃ e p, typedDec dec i input pos = .err e p)
    (v : Packet) (pr : Nat) (hj : typedDec dec j input pos = .ok v pr) :
    tryTyped dec input pos (l1 ++ j :: l2) = .ok v pr := by
  induction l1 with
  | nil =>
    simp only [List.nil_append, tryTyped]
    rw [hj]
  | cons i rest ih =>
    obtain ⟨e, p, hi⟩ := h1 i (by simp)
    simp only [List.cons_append, tryTyped]
    rw [hi]
    exact ih fun i2 h2 => h1 i2 (by simp [h2])

theorem typedDec_wrongKey_of (dec : Bytes → Nat → DOut Packet) (i : Nat)
    (a : Bytes) (k1 k2 : Nat) (rest : Bytes) (hne : (k1, k2) ≠ typedKey i) :
    typedDec dec i (a ++ [k1, k2] ++ rest) a.length = .err .wrongKey a.length := by
  unfold typedDec
  exact decodeWith_wrongKey (typedKey i) _ _ _ k1 k2 (readBytes_at a [k1, k2] rest) hne

theorem tryTyped_at_key (dec : Bytes → Nat → DOut Packet) (a pl c : Bytes)
    (j : Nat) (hj : j < 39) (v : Packet) (pr : Nat)
    (hok : typedDec dec j (a ++ mkPacket (typedKey j) pl ++ c) a.length = .ok v pr) :
    tryTyped dec (a ++ mkPacket (typedKey j) pl ++ c) a.length (List.range 39) =
      .ok v pr := by
  rw [range_split 39 j hj]
  apply tryTyped_skip dec _ _ (List.range j) j _ ?h1 v pr hok
  intro i hi
  have hij : i < j := List.mem_range.mp hi
  have hkne : typedKey i ≠ typedKey j :=
    typedKey_inj i (by simp; omega) j (by simp; omega) (by omega)
  have hgrp : a ++ mkPacket (typedKey j) pl ++ c =
      a ++ [(typedKey j).1, (typedKey j).2] ++ (plenEncode pl.length ++ pl ++ c) := by
    simp [mkPacket]
  rw [hgrp]
  refine ⟨.wrongKey, a.length, typedDec_wrongKey_of dec i a _ _ _ ?_⟩
  rw [Prod.mk.eta]
  exact fun he => hkne he.symm

theorem tryTyped_encode (dec : Bytes → Nat → DOut Packet) (j : Nat) (hj : j < 39)
    (a pl c : Bytes) (h0 : 0 < pl.length) (h64 : pl.length < 2 ^ 64) (v : Packet)
    (hbody : typedBody dec j
        ((a ++ [(typedKey j).1, (typedKey j).2] ++ plenEncode pl.length) ++ pl ++ c)
        pl.length
        (a ++ [(typedKey j).1, (typedKey j).2] ++ plenEncode pl.length).length
        (a ++ [(typedKey j).1, (typedKey j).2] ++ plenEncode pl.length).length =
      .ok v ((a ++ [(typedKey j).1, (typedKey j).2] ++ plenEncode pl.length).length +
        pl.length)) :
    tryTyped dec (a ++ mkPacket (typedKey j) pl ++ c) a.length (List.range 39) =
      .ok v (a.length + (mkPacket (typedKey j) pl).length) := by
  apply tryTyped_at_key dec a pl c j hj
  have hlen : (a ++ [(typedKey j).1, (typedKey j).2] ++ plenEncode pl.length).length =
      a.length + (2 + (plenEncode pl.length).length) := by
    simp
    omega
  have hfin : (a ++ [(typedKey j).1, (typedKey j).2] ++ plenEncode pl.length).length +
      pl.length = a.length + (mkPacket (typedKey j) pl).length := by
    simp [mkPacket]
    omega
  unfold typedDec
  refine decodeWith_at (typedKey j) (typedBody dec j) a pl c h0 h64 v _ ?_
  rw [mkPacket_grouped (typedKey j) pl a c, ← hlen, ← hfin]
  exact hbody

theorem bodyRT_transition_none (dec : Bytes → Nat → DOut Packet) (A c : Bytes)
    (port it idx tt : Nat)
    (hport : port < 256) (hit : transitionIndexKindValid it = true) (hit256 : it < 256)
    (hidx : idx < 2 ^ 64) (htt : transitionKindValid tt = true) (htt256 : tt < 256) :
    transitionB dec (A ++ (encU8 port ++ encU8 it ++ beBytes 8 idx ++ encU8 tt) ++ c)
        11 A.length A.length =
      .ok (.transition port it idx tt none) (A.length + 11) := by
  unfold transitionB
  have hg1 : A ++ (encU8 port ++ encU8 it ++ beBytes 8 idx ++ encU8 tt) ++ c =
      A ++ encU8 port ++ (encU8 it ++ (beBytes 8 idx ++ (encU8 tt ++ c))) := by simp
  rw [hg1, readU8_at_enc port hport A _]
  simp only [dseq]
  have hg2 : A ++ encU8 port ++ (encU8 it ++ (beBytes 8 idx ++ (encU8 tt ++ c))) =
      (A ++ encU8 port) ++ encU8 it ++ (beBytes 8 idx ++ (encU8 tt ++ c)) := by simp
  rw [hg2, show A.length + 1 = (A ++ encU8 port).length from by simp [encU8]]
  rw [readEnum_at_u8 transitionIndexKindValid it hit256 hit _ _]
  simp only [dseq]
  have hg3 : (A ++ encU8 port) ++ encU8 it ++ (beBytes 8 idx ++ (encU8 tt ++ c)) =
      ((A ++ encU8 port) ++ encU8 it) ++ beBytes 8 idx ++ (encU8 tt ++ c) := by simp
  rw [hg3, show (A ++ encU8 port).length + 1 = ((A ++ encU8 port) ++ encU8 it).length
    from by simp [encU8]]
  rw [readBE_at 8 idx (by norm_num at hidx ⊢; omega) _ _]
  simp only [dseq]
  have hg4 : ((A ++ encU8 port) ++ encU8 it) ++ beBytes 8 idx ++ (encU8 tt ++ c) =
      (((A ++ encU8 port) ++ encU8 it) ++ beBytes 8 idx) ++ encU8 tt ++ c := by simp
  rw [hg4, show ((A ++ encU8 port) ++ encU8 it).length + 8 =
    (((A ++ encU8 port) ++ encU8 it) ++ beBytes 8 idx).length
    from by simp [beBytes_length]; try omega]
  rw [readEnum_at_u8 transitionKindValid tt htt256 htt _ _]
  simp only [dseq]
  have hpos : (((A ++ encU8 port) ++ encU8 it) ++ beBytes 8 idx).length + 1 =
      A.length + 11 := by
    simp [encU8, beBytes_length]
    try omega
  rw [hpos]
  unfold readTailOpt
  rw [if_neg (by omega), if_neg (by omega), if_pos (by omega)]

theorem bodyRT_transition_some (dec : Bytes → Nat → DOut Packet) (A c : Bytes)
    (port it idx tt : Nat) (q : Packet)
    (hport : port < 256) (hit : transitionIndexKindValid it = true) (hit256 : it < 256)
    (hidx : idx < 2 ^ 64) (htt : transitionKindValid tt = true) (htt256 : tt < 256)
    (hq : ∀ a' c' : Bytes, dec (a' ++ Packet.encode q ++ c') a'.length =
      .ok q (a'.length + (Packet.encode q).length)) :
    transitionB dec
        (A ++ (encU8 port ++ encU8 it ++ beBytes 8 idx ++ encU8 tt ++ Packet.encode q) ++ c)
        (11 + (Packet.encode q).length) A.length A.length =
      .ok (.transition port it idx tt (some q))
        (A.length + (11 + (Packet.encode q).length)) := by
  unfold transitionB
  have hg1 : A ++ (encU8 port ++ encU8 it ++ beBytes 8 idx ++ encU8 tt ++ Packet.encode q) ++ c =
      A ++ encU8 port ++ (encU8 it ++ (beBytes 8 idx ++ (encU8 tt ++ (Packet.encode q ++ c)))) := by
    simp
  rw [hg1, readU8_at_enc port hport A _]
  simp only [dseq]
  have hg2 : A ++ encU8 port ++ (encU8 it ++ (beBytes 8 idx ++ (encU8 tt ++ (Packet.encode q ++ c)))) =
      (A ++ encU8 port) ++ encU8 it ++ (beBytes 8 idx ++ (encU8 tt ++ (Packet.encode q ++ c))) := by
    simp
  rw [hg2, show A.length + 1 = (A ++ encU8 port).length from by simp [encU8]]
  rw [readEnum_at_u8 transitionIndexKindValid it hit256 hit _ _]
  simp only [dseq]
  have hg3 : (A ++ encU8 port) ++ encU8 it ++ (beBytes 8 idx ++ (encU8 tt ++ (Packet.encode q ++ c))) =
      ((A ++ encU8 port) ++ encU8 it) ++ beBytes 8 idx ++ (encU8 tt ++ (Packet.encode q ++ c)) := by
    simp
  rw [hg3, show (A ++ encU8 port).length + 1 = ((A ++ encU8 port) ++ encU8 it).length
    from by simp [encU8]]
  rw [readBE_at 8 idx (by norm_num at hidx ⊢; omega) _ _]
  simp only [dseq]
  have hg4 : ((A ++ encU8 port) ++ encU8 it) ++ beBytes 8 idx ++ (encU8 tt ++ (Packet.encode q ++ c)) =
      (((A ++ encU8 port) ++ encU8 it) ++ beBytes 8 idx) ++ encU8 tt ++ (Packet.encode q ++ c) := by
    simp
  rw [hg4, show ((A ++ encU8 port) ++ encU8 it).length + 8 =
    (((A ++ encU8 port) ++ encU8 it) ++ beBytes 8 idx).length
    from by simp [beBytes_length]; try omega]
  rw [readEnum_at_u8 transitionKindValid tt htt256 htt _ _]
  simp only [dseq]
  unfold readTailOpt
  have hA11 : (((A ++ encU8 port) ++ encU8 it) ++ beBytes 8 idx).length + 1 =
      A.length + 11 := by
    simp [encU8, beBytes_length]
    try omega
  rw [hA11]
  have hqpos := encode_pos q
  rw [if_neg (by omega), if_neg (by omega), if_neg (by omega)]
  have hg5 : (((A ++ encU8 port) ++ encU8 it) ++ beBytes 8 idx) ++ encU8 tt ++ (Packet.encode q ++ c) =
      ((((A ++ encU8 port) ++ encU8 it) ++ beBytes 8 idx) ++ encU8 tt) ++ Packet.encode q ++ c := by
    simp
  rw [hg5, show A.length + 11 =
    ((((A ++ encU8 port) ++ encU8 it) ++ beBytes 8 idx) ++ encU8 tt).length
    from by simp [encU8, beBytes_length]; try omega]
  rw [hq ((((A ++ encU8 port) ++ encU8 it) ++ beBytes 8 idx) ++ encU8 tt) c]
  simp only [dseq]
  congr 1
  simp [encU8, beBytes_length]
  omega

theorem bodyRT_movieTransition_none (dec : Bytes → Nat → DOut Packet) (A c : Bytes)
    (mf tt : Nat) (hmf : mf < 2 ^ 32) (htt : transitionKindValid tt = true)
    (htt256 : tt < 256) :
    movieTransitionB dec (A ++ (beBytes 4 mf ++ encU8 tt) ++ c) 5 A.length A.length =
      .ok (.movieTransition mf tt none) (A.length + 5) := by
  unfold movieTransitionB
  have hg1 : A ++ (beBytes 4 mf ++ encU8 tt) ++ c =
      A ++ beBytes 4 mf ++ (encU8 tt ++ c) := by simp
  rw [hg1, readBE_at 4 mf (by norm_num at hmf ⊢; omega) A _]
  simp only [dseq]
  have hg2 : A ++ beBytes 4 mf ++ (encU8 tt ++ c) =
      (A ++ beBytes 4 mf) ++ encU8 tt ++ c := by simp
  rw [hg2, show A.length + 4 = (A ++ beBytes 4 mf).length from by simp [beBytes_length]]
  rw [readEnum_at_u8 transitionKindValid tt htt256 htt _ _]
  simp only [dseq]
  have hpos : (A ++ beBytes 4 mf).length + 1 = A.length + 5 := by
    simp [beBytes_length]
    try omega
  rw [hpos]
  unfold readTailOpt
  rw [if_neg (by omega), if_neg (by omega), if_pos (by omega)]

theorem bodyRT_movieTransition_some (dec : Bytes → Nat → DOut Packet) (A c : Bytes)
    (mf tt : Nat) (q : Packet)
    (hmf : mf < 2 ^ 32) (htt : transitionKindValid tt = true) (htt256 : tt < 256)
    (hq : ∀ a' c' : Bytes, dec (a' ++ Packet.encode q ++ c') a'.length =
      .ok q (a'.length + (Packet.encode q).length)) :
    movieTransitionB dec (A ++ (beBytes 4 mf ++ encU8 tt ++ Packet.encode q) ++ c)
        (5 + (Packet.encode q).length) A.length A.length =
      .ok (.movieTransition mf tt (some q)) (A.length + (5 + (Packet.encode q).length)) := by
  unfold movieTransitionB
  have hg1 : A ++ (beBytes 4 mf ++ encU8 tt ++ Packet.encode q) ++ c =
      A ++ beBytes 4 mf ++ (encU8 tt ++ (Packet.encode q ++ c)) := by simp
  rw [hg1, readBE_at 4 mf (by norm_num at hmf ⊢; omega) A _]
  simp only [dseq]
  have hg2 : A ++ beBytes 4 mf ++ (encU8 tt ++ (Packet.encode q ++ c)) =
      (A ++ beBytes 4 mf) ++ encU8 tt ++ (Packet.encode q ++ c) := by simp
  rw [hg2, show A.length + 4 = (A ++ beBytes 4 mf).length from by simp [beBytes_length]]
  rw [readEnum_at_u8 transitionKindValid tt htt256 htt _ _]
  simp only [dseq]
  unfold readTailOpt
  have hA5 : (A ++ beBytes 4 mf).length + 1 = A.length + 5 := by
    simp [beBytes_length]
    try omega
  rw [hA5]
  have hqpos := encode_pos q
  rw [if_neg (by omega), if_neg (by omega), if_neg (by omega)]
  have hg3 : (A ++ beBytes 4 mf) ++ encU8 tt ++ (Packet.encode q ++ c) =
      ((A ++ beBytes 4 mf) ++ encU8 tt) ++ Packet.encode q ++ c := by simp
  rw [hg3, show A.length + 5 = ((A ++ beBytes 4 mf) ++ encU8 tt).length
    from by simp [encU8, beBytes_length]; try omega]
  rw [hq ((A ++ beBytes 4 mf) ++ encU8 tt) c]
  simp only [dseq]
  congr 1
  simp [encU8, beBytes_length]
  omega

theorem depth_le_encode : ∀ p : Packet, Packet.depth p ≤ (Packet.encode p).length
  | .transition port it idx tt (some q) => by
    have ih := depth_le_encode q
    have h1 := plenEncode_length_pos
      (encU8 port ++ encU8 it ++ beBytes 8 idx ++ encU8 tt ++ Packet.encode q).length
    show Packet.depth q + 1 ≤ (mkPacket (0xFE, 0x03)
      (encU8 port ++ encU8 it ++ beBytes 8 idx ++ encU8 tt ++ Packet.encode q)).length
    simp only [mkPacket, encU8, List.length_append, List.length_cons, List.length_nil,
      beBytes_length]
    omega
  | .movieTransition mf tt (some q) => by
    have ih := depth_le_encode q
    have h1 := plenEncode_length_pos (beBytes 4 mf ++ encU8 tt ++ Packet.encode q).length
    show Packet.depth q + 1 ≤ (mkPacket (0xFE, 0x05)
      (beBytes 4 mf ++ encU8 tt ++ Packet.encode q)).length
    simp only [mkPacket, encU8, List.length_append, List.length_cons, List.length_nil,
      beBytes_length]
    omega
  | .transition _ _ _ _ none => encode_pos _
  | .movieTransition _ _ none => encode_pos _
  | .consoleType _ => encode_pos _
  | .consoleRegion _ => encode_pos _
  | .gameTitle _ => encode_pos _
  | .romName _ => encode_pos _
  | .attribution _ => encode_pos _
  | .category _ => encode_pos _
  | .emulatorName _ => encode_pos _
  | .emulatorVersion _ => encode_pos _
  | .emulatorCore _ => encode_pos _
  | .tasLastModified _ => encode_pos _
  | .dumpCreated _ => encode_pos _
  | .dumpLastModified _ => encode_pos _
  | .totalFrames _ => encode_pos _
  | .rerecords _ => encode_pos _
  | .sourceLink _ => encode_pos _
  | .blankFrames _ => encode_pos _
  | .verified _ => encode_pos _
  | .memoryInit _ => encode_pos _
  | .gameIdentifier _ => encode_pos _
  | .movieLicense _ => encode_pos _
  | .movieFile _ => encode_pos _
  | .portController _ => encode_pos _
  | .portOverread _ => encode_pos _
  | .nesLatchFilter _ => encode_pos _
  | .nesClockFilter _ => encode_pos _
  | .nesGameGenieCode _ => encode_pos _
  | .snesLatchFilter _ => encode_pos _
  | .snesClockFilter _ => encode_pos _
  | .snesGameGenieCode _ => encode_pos _
  | .snesLatchTrain _ => encode_pos _
  | .genesisGameGenieCode _ => encode_pos _
  | .inputChunk _ => encode_pos _
  | .inputMoment _ => encode_pos _
  | .lagFrameChunk _ => encode_pos _
  | .comment _ => encode_pos _
  | .experimental _ => encode_pos _
  | .unspecified _ => encode_pos _
  | .unsupported _ => encode_pos _

theorem roundtrip_fuel : ∀ (fuel : Nat) (p : Packet), Packet.wfb p = true →
    Packet.depth p ≤ fuel → ∀ a c : Bytes,
    Packet.decodeFuel fuel (a ++ Packet.encode p ++ c) a.length =
      .ok p (a.length + (Packet.encode p).length) := by
  intro fuel
  induction fuel with
  | zero =>
    intro p hwf hd
    exact absurd hd (by have := depth_pos p; omega)
  | succ fuel ih =>
    intro p hwf hd a c
    cases p with
    | consoleType pv =>
      simp only [Packet.wfb, Bool.and_eq_true] at hwf
      obtain ⟨⟨hcv, hs⟩, hpl⟩ := hwf
      have henc : Packet.encode (.consoleType pv) =
          mkPacket (typedKey 0) (encU8 pv.console ++ pv.name) := rfl
      rw [henc]
      simp only [Packet.decodeFuel]
      have hplen : (encU8 pv.console ++ pv.name).length = 1 + pv.name.length := by
        simp [encU8]
        try omega
      refine tryTyped_encode _ 0 (by omega) a _ c (by rw [hplen]; omega)
        (by rw [hplen]; exact plenOk_lt hpl) _ ?_
      rw [hplen]
      exact mapB_ok _ _ _ _ _ _
        (bodyRT_enumTailStr consoleValid _ c pv.console pv.name hcv (consoleValid_lt hcv) hs)
    | consoleRegion r =>
      simp only [Packet.wfb] at hwf
      have henc : Packet.encode (.consoleRegion r) = mkPacket (typedKey 1) (encU8 r) := rfl
      rw [henc]
      simp only [Packet.decodeFuel]
      have hplen : (encU8 r).length = 1 := by simp [encU8]
      refine tryTyped_encode _ 1 (by omega) a _ c (by rw [hplen]; omega)
        (by rw [hplen]; norm_num) _ ?_
      rw [hplen]
      exact mapB_ok _ _ _ _ _ _
        (readEnum_at_u8 consoleRegionValid r (consoleRegionValid_lt hwf) hwf _ c)
    | gameTitle pv =>
      simp only [Packet.wfb, Bool.and_eq_true] at hwf
      obtain ⟨⟨hv, hne⟩, hpl⟩ := hwf
      have henc : Packet.encode (.gameTitle pv) = mkPacket (typedKey 2) pv.title := rfl
      rw [henc]
      simp only [Packet.decodeFuel]
      exact tryTyped_encode _ 2 (by omega) a _ c (nonempty_pos hne) (plenOk_lt hpl) _
        (mapB_ok _ _ _ _ _ _ (bodyRT_tailString _ pv.title c hv))
    | romName pv =>
      simp only [Packet.wfb, Bool.and_eq_true] at hwf
      obtain ⟨⟨hv, hne⟩, hpl⟩ := hwf
      have henc : Packet.encode (.romName pv) = mkPacket (typedKey 3) pv.name := rfl
      rw [henc]
      simp only [Packet.decodeFuel]
      exact tryTyped_encode _ 3 (by omega) a _ c (nonempty_pos hne) (plenOk_lt hpl) _
        (mapB_ok _ _ _ _ _ _ (bodyRT_tailString _ pv.name c hv))
    | attribution pv =>
      simp only [Packet.wfb, Bool.and_eq_true] at hwf
      obtain ⟨⟨hcv, hs⟩, hpl⟩ := hwf
      have henc : Packet.encode (.attribution pv) =
          mkPacket (typedKey 4) (encU8 pv.kind ++ pv.name) := rfl
      rw [henc]
      simp only [Packet.decodeFuel]
      have hplen : (encU8 pv.kind ++ pv.name).length = 1 + pv.name.length := by
        simp [encU8]
        try omega
      refine tryTyped_encode _ 4 (by omega) a _ c (by rw [hplen]; omega)
        (by rw [hplen]; exact plenOk_lt hpl) _ ?_
      rw [hplen]
      exact mapB_ok _ _ _ _ _ _
        (bodyRT_enumTailStr attributionKindValid _ c pv.kind pv.name hcv
          (attributionKindValid_lt hcv) hs)
    | category pv =>
      simp only [Packet.wfb, Bool.and_eq_true] at hwf
      obtain ⟨⟨hv, hne⟩, hpl⟩ := hwf
      have henc : Packet.encode (.category pv) = mkPacket (typedKey 5) pv.category := rfl
      rw [henc]
      simp only [Packet.decodeFuel]
      exact tryTyped_encode _ 5 (by omega) a _ c (nonempty_pos hne) (plenOk_lt hpl) _
        (mapB_ok _ _ _ _ _ _ (bodyRT_tailString _ pv.category c hv))
    | emulatorName pv =>
      simp only [Packet.wfb, Bool.and_eq_true] at hwf
      obtain ⟨⟨hv, hne⟩, hpl⟩ := hwf
      have henc : Packet.encode (.emulatorName pv) = mkPacket (typedKey 6) pv.name := rfl
      rw [henc]
      simp only [Packet.decodeFuel]
      exact tryTyped_encode _ 6 (by omega) a _ c (nonempty_pos hne) (plenOk_lt hpl) _
        (mapB_ok _ _ _ _ _ _ (bodyRT_tailString _ pv.name c hv))
    | emulatorVersion pv =>
      simp only [Packet.wfb, Bool.and_eq_true] at hwf
      obtain ⟨⟨hv, hne⟩, hpl⟩ := hwf
      have henc : Packet.encode (.emulatorVersion pv) = mkPacket (typedKey 7) pv.version := rfl
      rw [henc]
      simp only [Packet.decodeFuel]
      exact tryTyped_encode _ 7 (by omega) a _ c (nonempty_pos hne) (plenOk_lt hpl) _
        (mapB_ok _ _ _ _ _ _ (bodyRT_tailString _ pv.version c hv))
    | emulatorCore pv =>
      simp only [Packet.wfb, Bool.and_eq_true] at hwf
      obtain ⟨⟨hv, hne⟩, hpl⟩ := hwf
      have henc : Packet.encode (.emulatorCore pv) = mkPacket (typedKey 8) pv.core := rfl
      rw [henc]
      simp only [Packet.decodeFuel]
      exact tryTyped_encode _ 8 (by omega) a _ c (nonempty_pos hne) (plenOk_lt hpl) _
        (mapB_ok _ _ _ _ _ _ (bodyRT_tailString _ pv.core c hv))
    | tasLastModified pv =>
      simp only [Packet.wfb, Bool.and_eq_true, decide_eq_true_eq] at hwf
      obtain ⟨hlo, hhi⟩ := hwf
      have henc : Packet.encode (.tasLastModified pv) =
          mkPacket (typedKey 9) (ibeBytes 8 pv.timestamp) := rfl
      rw [henc]
      simp only [Packet.decodeFuel]
      have hplen : (ibeBytes 8 pv.timestamp).length = 8 := by
        simp [ibeBytes, beBytes_length]
      refine tryTyped_encode _ 9 (by omega) a _ c (by rw [hplen]; omega)
        (by rw [hplen]; norm_num) _ ?_
      rw [hplen]
      exact mapB_ok _ _ _ _ _ _ (readIBE_at 8 (by omega) pv.timestamp hlo hhi _ c)
    | dumpCreated pv =>
      simp only [Packet.wfb, Bool.and_eq_true, decide_eq_true_eq] at hwf
      obtain ⟨hlo, hhi⟩ := hwf
      have henc : Packet.encode (.dumpCreated pv) =
          mkPacket (typedKey 10) (ibeBytes 8 pv.timestamp) := rfl
      rw [henc]
      simp only [Packet.decodeFuel]
      have hplen : (ibeBytes 8 pv.timestamp).length = 8 := by
        simp [ibeBytes, beBytes_length]
      refine tryTyped_encode _ 10 (by omega) a _ c (by rw [hplen]; omega)
        (by rw [hplen]; norm_num) _ ?_
      rw [hplen]
      exact mapB_ok _ _ _ _ _ _ (readIBE_at 8 (by omega) pv.timestamp hlo hhi _ c)
    | dumpLastModified pv =>
      simp only [Packet.wfb, Bool.and_eq_true, decide_eq_true_eq] at hwf
      obtain ⟨hlo, hhi⟩ := hwf
      have henc : Packet.encode (.dumpLastModified pv) =
          mkPacket (typedKey 11) (ibeBytes 8 pv.timestamp) := rfl
      rw [henc]
      simp only [Packet.decodeFuel]
      have hplen : (ibeBytes 8 pv.timestamp).length = 8 := by
        simp [ibeBytes, beBytes_length]
      refine tryTyped_encode _ 11 (by omega) a _ c (by rw [hplen]; omega)
        (by rw [hplen]; norm_num) _ ?_
      rw [hplen]
      exact mapB_ok _ _ _ _ _ _ (readIBE_at 8 (by omega) pv.timestamp hlo hhi _ c)
    | totalFrames pv =>
      simp only [Packet.wfb, decide_eq_true_eq] at hwf
      have henc : Packet.encode (.totalFrames pv) =
          mkPacket (typedKey 12) (beBytes 4 pv.frames) := rfl
      rw [henc]
      simp only [Packet.decodeFuel]
      have hplen : (beBytes 4 pv.frames).length = 4 := beBytes_length 4 _
      refine tryTyped_encode _ 12 (by omega) a _ c (by rw [hplen]; omega)
        (by rw [hplen]; norm_num) _ ?_
      rw [hplen]
      exact mapB_ok _ _ _ _ _ _
        (readBE_at 4 pv.frames (by norm_num at hwf ⊢; omega) _ c)
    | rerecords pv =>
      simp only [Packet.wfb, decide_eq_true_eq] at hwf
      have henc : Packet.encode (.rerecords pv) =
          mkPacket (typedKey 13) (beBytes 4 pv.rerecords) := rfl
      rw [henc]
      simp only [Packet.decodeFuel]
      have hplen : (beBytes 4 pv.rerecords).length = 4 := beBytes_length 4 _
      refine tryTyped_encode _ 13 (by omega) a _ c (by rw [hplen]; omega)
        (by rw [hplen]; norm_num) _ ?_
      rw [hplen]
      exact mapB_ok _ _ _ _ _ _
        (readBE_at 4 pv.rerecords (by norm_num at hwf ⊢; omega) _ c)
    | sourceLink pv =>
      simp only [Packet.wfb, Bool.and_eq_true] at hwf
      obtain ⟨⟨hv, hne⟩, hpl⟩ := hwf
      have henc : Packet.encode (.sourceLink pv) = mkPacket (typedKey 14) pv.link := rfl
      rw [henc]
      simp only [Packet.decodeFuel]
      exact tryTyped_encode _ 14 (by omega) a _ c (nonempty_pos hne) (plenOk_lt hpl) _
        (mapB_ok _ _ _ _ _ _ (bodyRT_tailString _ pv.link c hv))
    | blankFrames pv =>
      simp only [Packet.wfb, Bool.and_eq_true, decide_eq_true_eq] at hwf
      obtain ⟨hlo, hhi⟩ := hwf
      have henc : Packet.encode (.blankFrames pv) =
          mkPacket (typedKey 15) (ibeBytes 2 pv.frames) := rfl
      rw [henc]
      simp only [Packet.decodeFuel]
      have hplen : (ibeBytes 2 pv.frames).length = 2 := by
        simp [ibeBytes, beBytes_length]
      refine tryTyped_encode _ 15 (by omega) a _ c (by rw [hplen]; omega)
        (by rw [hplen]; norm_num) _ ?_
      rw [hplen]
      exact mapB_ok _ _ _ _ _ _ (readIBE_at 2 (by omega) pv.frames hlo hhi _ c)
    | verified pv =>
      have henc : Packet.encode (.verified pv) =
          mkPacket (typedKey 16) (encBool pv.verified) := rfl
      rw [henc]
      simp only [Packet.decodeFuel]
      have hplen : (encBool pv.verified).length = 1 := by simp [encBool]
      refine tryTyped_encode _ 16 (by omega) a _ c (by rw [hplen]; omega)
        (by rw [hplen]; norm_num) _ ?_
      rw [hplen]
      exact mapB_ok _ _ _ _ _ _ (readBool_at _ pv.verified c)
    | memoryInit pv =>
      simp only [Packet.wfb, Bool.and_eq_true, decide_eq_true_eq] at hwf
      obtain ⟨⟨⟨⟨⟨hdt, hdev⟩, hnm⟩, hn255⟩, hbw⟩, hpl⟩ := hwf
      have henc : Packet.encode (.memoryInit pv) = mkPacket (typedKey 17)
          (encU8 pv.data_type ++ beBytes 2 pv.device ++ encBool pv.required ++
            u8StringEnc pv.name ++ pv.data) := rfl
      rw [henc]
      simp only [Packet.decodeFuel]
      have hplen : (encU8 pv.data_type ++ beBytes 2 pv.device ++ encBool pv.required ++
          u8StringEnc pv.name ++ pv.data).length = 5 + pv.name.length + pv.data.length := by
        simp [encU8, encBool, beBytes_length, u8StringEnc_short pv.name hn255]
        try omega
      refine tryTyped_encode _ 17 (by omega) a _ c (by rw [hplen]; omega)
        (by rw [hplen]; exact plenOk_lt hpl) _ ?_
      rw [hplen]
      exact mapB_ok _ _ _ _ _ _
        (bodyRT_memoryInit _ c pv.data_type pv.device pv.required pv.name pv.data
          hdt (initKindValid_lt hdt) hdev (initDeviceValid_lt hdev) hnm hn255)
    | gameIdentifier pv =>
      simp only [Packet.wfb, Bool.and_eq_true, decide_eq_true_eq] at hwf
      obtain ⟨⟨⟨⟨⟨hk, he⟩, hnm⟩, hn255⟩, hbw⟩, hpl⟩ := hwf
      have henc : Packet.encode (.gameIdentifier pv) = mkPacket (typedKey 18)
          (encU8 pv.kind ++ encU8 pv.encoding ++ u8StringEnc pv.name ++ pv.identifier) := rfl
      rw [henc]
      simp only [Packet.decodeFuel]
      have hplen : (encU8 pv.kind ++ encU8 pv.encoding ++ u8StringEnc pv.name ++
          pv.identifier).length = 3 + pv.name.length + pv.identifier.length := by
        simp [encU8, u8StringEnc_short pv.name hn255]
        try omega
      refine tryTyped_encode _ 18 (by omega) a _ c (by rw [hplen]; omega)
        (by rw [hplen]; exact plenOk_lt hpl) _ ?_
      rw [hplen]
      exact mapB_ok _ _ _ _ _ _
        (bodyRT_gameIdentifier _ c pv.kind pv.encoding pv.name pv.identifier
          hk (idKindValid_lt hk) he (idEncodingValid_lt he) hnm hn255)
    | movieLicense pv =>
      simp only [Packet.wfb, Bool.and_eq_true] at hwf
      obtain ⟨⟨hv, hne⟩, hpl⟩ := hwf
      have henc : Packet.encode (.movieLicense pv) = mkPacket (typedKey 19) pv.license := rfl
      rw [henc]
      simp only [Packet.decodeFuel]
      exact tryTyped_encode _ 19 (by omega) a _ c (nonempty_pos hne) (plenOk_lt hpl) _
        (mapB_ok _ _ _ _ _ _ (bodyRT_tailString _ pv.license c hv))
    | movieFile pv =>
      simp only [Packet.wfb, Bool.and_eq_true, decide_eq_true_eq] at hwf
      obtain ⟨⟨⟨hnm, hn255⟩, hbw⟩, hpl⟩ := hwf
      have henc : Packet.encode (.movieFile pv) = mkPacket (typedKey 20)
          (u8StringEnc pv.name ++ pv.data) := rfl
      rw [henc]
      simp only [Packet.decodeFuel]
      have hplen : (u8StringEnc pv.name ++ pv.data).length =
          1 + pv.name.length + pv.data.length := by
        simp [u8StringEnc_short pv.name hn255]
        try omega
      refine tryTyped_encode _ 20 (by omega) a _ c (by rw [hplen]; omega)
        (by rw [hplen]; exact plenOk_lt hpl) _ ?_
      rw [hplen]
      exact mapB_ok _ _ _ _ _ _
        (bodyRT_movieFile _ c pv.name pv.data hnm hn255)
    | portController pv =>
      simp only [Packet.wfb, Bool.and_eq_true, decide_eq_true_eq] at hwf
      obtain ⟨hport, hkind⟩ := hwf
      have henc : Packet.encode (.portController pv) = mkPacket (typedKey 21)
          (encU8 pv.port ++ beBytes 2 pv.kind) := rfl
      rw [henc]
      simp only [Packet.decodeFuel]
      have hplen : (encU8 pv.port ++ beBytes 2 pv.kind).length = 3 := by
        simp [encU8, beBytes_length]
      refine tryTyped_encode _ 21 (by omega) a _ c (by rw [hplen]; omega)
        (by rw [hplen]; norm_num) _ ?_
      rw [hplen]
      exact mapB_ok _ _ _ _ _ _
        (bodyRT_portController _ c pv.port pv.kind hport hkind (portKindValid_lt hkind) _ _)
    | portOverread pv =>
      simp only [Packet.wfb, decide_eq_true_eq] at hwf
      have henc : Packet.encode (.portOverread pv) = mkPacket (typedKey 22)
          (encU8 pv.port ++ encBool pv.high) := rfl
      rw [henc]
      simp only [Packet.decodeFuel]
      have hplen : (encU8 pv.port ++ encBool pv.high).length = 2 := by
        simp [encU8, encBool]
      refine tryTyped_encode _ 22 (by omega) a _ c (by rw [hplen]; omega)
        (by rw [hplen]; norm_num) _ ?_
      rw [hplen]
      exact mapB_ok _ _ _ _ _ _ (bodyRT_portOverread _ c pv.port pv.high hwf _ _)
    | nesLatchFilter pv =>
      simp only [Packet.wfb, decide_eq_true_eq] at hwf
      have henc : Packet.encode (.nesLatchFilter pv) =
          mkPacket (typedKey 23) (beBytes 2 pv.time) := rfl
      rw [henc]
      simp only [Packet.decodeFuel]
      have hplen : (beBytes 2 pv.time).length = 2 := beBytes_length 2 _
      refine tryTyped_encode _ 23 (by omega) a _ c (by rw [hplen]; omega)
        (by rw [hplen]; norm_num) _ ?_
      rw [hplen]
      exact mapB_ok _ _ _ _ _ _
        (readBE_at 2 pv.time (by norm_num at hwf ⊢; omega) _ c)
    | nesClockFilter pv =>
      simp only [Packet.wfb, decide_eq_true_eq] at hwf
      have henc : Packet.encode (.nesClockFilter pv) =
          mkPacket (typedKey 24) (encU8 pv.time) := rfl
      rw [henc]
      simp only [Packet.decodeFuel]
      have hplen : (encU8 pv.time).length = 1 := by simp [encU8]
      refine tryTyped_encode _ 24 (by omega) a _ c (by rw [hplen]; omega)
        (by rw [hplen]; norm_num) _ ?_
      rw [hplen]
      exact mapB_ok _ _ _ _ _ _ (readU8_at_enc pv.time hwf _ c)
    | nesGameGenieCode pv =>
      simp only [Packet.wfb, Bool.and_eq_true] at hwf
      obtain ⟨⟨hv, hne⟩, hpl⟩ := hwf
      have henc : Packet.encode (.nesGameGenieCode pv) = mkPacket (typedKey 25) pv.code := rfl
      rw [henc]
      simp only [Packet.decodeFuel]
      exact tryTyped_encode _ 25 (by omega) a _ c (nonempty_pos hne) (plenOk_lt hpl) _
        (mapB_ok _ _ _ _ _ _ (bodyRT_tailString _ pv.code c hv))
    | snesLatchFilter pv =>
      simp only [Packet.wfb, decide_eq_true_eq] at hwf
      have henc : Packet.encode (.snesLatchFilter pv) =
          mkPacket (typedKey 26) (beBytes 2 pv.time) := rfl
      rw [henc]
      simp only [Packet.decodeFuel]
      have hplen : (beBytes 2 pv.time).length = 2 := beBytes_length 2 _
      refine tryTyped_encode _ 26 (by omega) a _ c (by rw [hplen]; omega)
        (by rw [hplen]; norm_num) _ ?_
      rw [hplen]
      exact mapB_ok _ _ _ _ _ _
        (readBE_at 2 pv.time (by norm_num at hwf ⊢; omega) _ c)
    | snesClockFilter pv =>
      simp only [Packet.wfb, decide_eq_true_eq] at hwf
      have henc : Packet.encode (.snesClockFilter pv) =
          mkPacket (typedKey 27) (encU8 pv.time) := rfl
      rw [henc]
      simp only [Packet.decodeFuel]
      have hplen : (encU8 pv.time).length = 1 := by simp [encU8]
      refine tryTyped_encode _ 27 (by omega) a _ c (by rw [hplen]; omega)
        (by rw [hplen]; norm_num) _ ?_
      rw [hplen]
      exact mapB_ok _ _ _ _ _ _ (readU8_at_enc pv.time hwf _ c)
    | snesGameGenieCode pv =>
      simp only [Packet.wfb, Bool.and_eq_true] at hwf
      obtain ⟨⟨hv, hne⟩, hpl⟩ := hwf
      have henc : Packet.encode (.snesGameGenieCode pv) =
          mkPacket (typedKey 28) pv.code := rfl
      rw [henc]
      simp only [Packet.decodeFuel]
      exact tryTyped_encode _ 28 (by omega) a _ c (nonempty_pos hne) (plenOk_lt hpl) _
        (mapB_ok _ _ _ _ _ _ (bodyRT_tailString _ pv.code c hv))
    | snesLatchTrain pv =>
      simp only [Packet.wfb, Bool.and_eq_true] at hwf
      obtain ⟨⟨hall, hne⟩, hpl⟩ := hwf
      have hw : ∀ w ∈ pv.latch_trains, w < 2 ^ 64 := by
        simpa [List.all_eq_true] using hall
      have henc : Packet.encode (.snesLatchTrain pv) =
          mkPacket (typedKey 29) (pv.latch_trains.flatMap (beBytes 8)) := rfl
      rw [henc]
      simp only [Packet.decodeFuel]
      have hplen : (pv.latch_trains.flatMap (beBytes 8)).length =
          8 * pv.latch_trains.length := flatMap_beBytes_length _
      have hlp : 0 < pv.latch_trains.length := nonempty_pos hne
      refine tryTyped_encode _ 29 (by omega) a _ c (by rw [hplen]; omega)
        (by rw [hplen]; exact plenOk_lt hpl) _ ?_
      exact mapB_ok _ _ _ _ _ _ (bodyRT_tailVec64 _ c pv.latch_trains hw)
    | genesisGameGenieCode pv =>
      simp only [Packet.wfb, Bool.and_eq_true] at hwf
      obtain ⟨⟨hv, hne⟩, hpl⟩ := hwf
      have henc : Packet.encode (.genesisGameGenieCode pv) =
          mkPacket (typedKey 30) pv.code := rfl
      rw [henc]
      simp only [Packet.decodeFuel]
      exact tryTyped_encode _ 30 (by omega) a _ c (nonempty_pos hne) (plenOk_lt hpl) _
        (mapB_ok _ _ _ _ _ _ (bodyRT_tailString _ pv.code c hv))
    | inputChunk pv =>
      simp only [Packet.wfb, Bool.and_eq_true, decide_eq_true_eq] at hwf
      obtain ⟨⟨hport, hbw⟩, hpl⟩ := hwf
      have henc : Packet.encode (.inputChunk pv) = mkPacket (typedKey 31)
          (encU8 pv.port ++ pv.inputs) := rfl
      rw [henc]
      simp only [Packet.decodeFuel]
      have hplen : (encU8 pv.port ++ pv.inputs).length = 1 + pv.inputs.length := by
        simp [encU8]
        try omega
      refine tryTyped_encode _ 31 (by omega) a _ c (by rw [hplen]; omega)
        (by rw [hplen]; exact plenOk_lt hpl) _ ?_
      rw [hplen]
      exact mapB_ok _ _ _ _ _ _ (bodyRT_u8TailVec _ c pv.port pv.inputs hport)
    | inputMoment pv =>
      simp only [Packet.wfb, Bool.and_eq_true, decide_eq_true_eq] at hwf
      obtain ⟨⟨⟨⟨hport, hit⟩, hidx⟩, hbw⟩, hpl⟩ := hwf
      have henc : Packet.encode (.inputMoment pv) = mkPacket (typedKey 32)
          (encU8 pv.port ++ encBool pv.hold ++ encU8 pv.index_type ++
            beBytes 8 pv.index ++ pv.inputs) := rfl
      rw [henc]
      simp only [Packet.decodeFuel]
      have hplen : (encU8 pv.port ++ encBool pv.hold ++ encU8 pv.index_type ++
          beBytes 8 pv.index ++ pv.inputs).length = 11 + pv.inputs.length := by
        simp [encU8, encBool, beBytes_length]
        try omega
      refine tryTyped_encode _ 32 (by omega) a _ c (by rw [hplen]; omega)
        (by rw [hplen]; exact plenOk_lt hpl) _ ?_
      rw [hplen]
      exact mapB_ok _ _ _ _ _ _
        (bodyRT_inputMoment _ c pv.port pv.hold pv.index_type pv.index pv.inputs
          hport hit (momentIndexKindValid_lt hit) hidx)
    | transition port it idx tt inner =>
      cases inner with
      | none =>
        simp only [Packet.wfb, Bool.and_eq_true, decide_eq_true_eq] at hwf
        obtain ⟨⟨⟨⟨hport, hit⟩, hidx⟩, htt⟩, -⟩ := hwf
        have henc : Packet.encode (.transition port it idx tt none) =
            mkPacket (typedKey 33) (encU8 port ++ encU8 it ++ beBytes 8 idx ++ encU8 tt) := by
          show mkPacket _ (encU8 port ++ encU8 it ++ beBytes 8 idx ++ encU8 tt ++ []) = _
          rw [List.append_nil]
          rfl
        rw [henc]
        simp only [Packet.decodeFuel]
        have hplen : (encU8 port ++ encU8 it ++ beBytes 8 idx ++ encU8 tt).length = 11 := by
          simp [encU8, beBytes_length]
          try omega
        refine tryTyped_encode _ 33 (by omega) a _ c (by rw [hplen]; omega)
          (by rw [hplen]; norm_num) _ ?_
        rw [hplen]
        exact bodyRT_transition_none _ _ c port it idx tt hport hit
          (transitionIndexKindValid_lt hit) hidx htt (transitionKindValid_lt htt)
      | some q =>
        simp only [Packet.wfb, Bool.and_eq_true, decide_eq_true_eq] at hwf
        obtain ⟨⟨⟨⟨hport, hit⟩, hidx⟩, htt⟩, hwfq, hpl⟩ := hwf
        have hdq : Packet.depth q ≤ fuel := by
          simp only [Packet.depth] at hd
          omega
        have henc : Packet.encode (.transition port it idx tt (some q)) =
            mkPacket (typedKey 33)
              (encU8 port ++ encU8 it ++ beBytes 8 idx ++ encU8 tt ++ Packet.encode q) := rfl
        rw [henc]
        simp only [Packet.decodeFuel]
        have hplen : (encU8 port ++ encU8 it ++ beBytes 8 idx ++ encU8 tt ++
            Packet.encode q).length = 11 + (Packet.encode q).length := by
          simp [encU8, beBytes_length]
          try omega
        refine tryTyped_encode _ 33 (by omega) a _ c (by rw [hplen]; omega)
          (by rw [hplen]; exact plenOk_lt hpl) _ ?_
        rw [hplen]
        exact bodyRT_transition_some _ _ c port it idx tt q hport hit
          (transitionIndexKindValid_lt hit) hidx htt (transitionKindValid_lt htt)
          (fun a' c' => ih q hwfq hdq a' c')
    | lagFrameChunk pv =>
      simp only [Packet.wfb, Bool.and_eq_true, decide_eq_true_eq] at hwf
      obtain ⟨hmf, hcnt⟩ := hwf
      have henc : Packet.encode (.lagFrameChunk pv) = mkPacket (typedKey 34)
          (beBytes 4 pv.movie_frame ++ beBytes 4 pv.count) := rfl
      rw [henc]
      simp only [Packet.decodeFuel]
      have hplen : (beBytes 4 pv.movie_frame ++ beBytes 4 pv.count).length = 8 := by
        simp [beBytes_length]
      refine tryTyped_encode _ 34 (by omega) a _ c (by rw [hplen]; omega)
        (by rw [hplen]; norm_num) _ ?_
      rw [hplen]
      exact mapB_ok _ _ _ _ _ _
        (bodyRT_lagFrameChunk _ c pv.movie_frame pv.count hmf hcnt _ _)
    | movieTransition mf tt inner =>
      cases inner with
      | none =>
        simp only [Packet.wfb, Bool.and_eq_true, decide_eq_true_eq] at hwf
        obtain ⟨⟨hmf, htt⟩, -⟩ := hwf
        have henc : Packet.encode (.movieTransition mf tt none) =
            mkPacket (typedKey 35) (beBytes 4 mf ++ encU8 tt) := by
          show mkPacket _ (beBytes 4 mf ++ encU8 tt ++ []) = _
          rw [List.append_nil]
          rfl
        rw [henc]
        simp only [Packet.decodeFuel]
        have hplen : (beBytes 4 mf ++ encU8 tt).length = 5 := by
          simp [encU8, beBytes_length]
          try omega
        refine tryTyped_encode _ 35 (by omega) a _ c (by rw [hplen]; omega)
          (by rw [hplen]; norm_num) _ ?_
        rw [hplen]
        exact bodyRT_movieTransition_none _ _ c mf tt hmf htt (transitionKindValid_lt htt)
      | some q =>
        simp only [Packet.wfb, Bool.and_eq_true, decide_eq_true_eq] at hwf
        obtain ⟨⟨hmf, htt⟩, hwfq, hpl⟩ := hwf
        have hdq : Packet.depth q ≤ fuel := by
          simp only [Packet.depth] at hd
          omega
        have henc : Packet.encode (.movieTransition mf tt (some q)) =
            mkPacket (typedKey 35) (beBytes 4 mf ++ encU8 tt ++ Packet.encode q) := rfl
        rw [henc]
        simp only [Packet.decodeFuel]
        have hplen : (beBytes 4 mf ++ encU8 tt ++ Packet.encode q).length =
            5 + (Packet.encode q).length := by
          simp [encU8, beBytes_length]
          try omega
        refine tryTyped_encode _ 35 (by omega) a _ c (by rw [hplen]; omega)
          (by rw [hplen]; exact plenOk_lt hpl) _ ?_
        rw [hplen]
        exact bodyRT_movieTransition_some _ _ c mf tt q hmf htt
          (transitionKindValid_lt htt) (fun a' c' => ih q hwfq hdq a' c')
    | comment pv =>
      simp only [Packet.wfb, Bool.and_eq_true] at hwf
      obtain ⟨⟨hv, hne⟩, hpl⟩ := hwf
      have henc : Packet.encode (.comment pv) = mkPacket (typedKey 36) pv.comment := rfl
      rw [henc]
      simp only [Packet.decodeFuel]
      exact tryTyped_encode _ 36 (by omega) a _ c (nonempty_pos hne) (plenOk_lt hpl) _
        (mapB_ok _ _ _ _ _ _ (bodyRT_tailString _ pv.comment c hv))
    | experimental pv =>
      have henc : Packet.encode (.experimental pv) =
          mkPacket (typedKey 37) (encBool pv.experimental) := rfl
      rw [henc]
      simp only [Packet.decodeFuel]
      have hplen : (encBool pv.experimental).length = 1 := by simp [encBool]
      refine tryTyped_encode _ 37 (by omega) a _ c (by rw [hplen]; omega)
        (by rw [hplen]; norm_num) _ ?_
      rw [hplen]
      exact mapB_ok _ _ _ _ _ _ (readBool_at _ pv.experimental c)
    | unspecified pv =>
      simp only [Packet.wfb, Bool.and_eq_true] at hwf
      obtain ⟨⟨hbw, hne⟩, hpl⟩ := hwf
      have henc : Packet.encode (.unspecified pv) = mkPacket (typedKey 38) pv.data := rfl
      rw [henc]
      simp only [Packet.decodeFuel]
      exact tryTyped_encode _ 38 (by omega) a _ c (nonempty_pos hne) (plenOk_lt hpl) _
        (mapB_ok _ _ _ _ _ _ (bodyRT_tailVec _ pv.data c))
    | unsupported u =>
      obtain ⟨key, data⟩ := u
      simp only [Packet.wfb, Bool.and_eq_true] at hwf
      obtain ⟨⟨⟨hm, hb⟩, hne⟩, hpl⟩ := hwf
      cases key with
      | nil => simp at hm
      | cons k1 t1 =>
        cases t1 with
        | nil => simp at hm
        | cons k2 t2 =>
          cases t2 with
          | cons k3 t3 => simp at hm
          | nil =>
            simp only [decide_eq_true_eq, Bool.and_eq_true] at hm
            obtain ⟨⟨hk1, hk2⟩, hnotin⟩ := hm
            have henc : Packet.encode (.unsupported ⟨[k1, k2], data⟩) =
                [k1, k2] ++ plenEncode data.length ++ data := rfl
            rw [henc]
            simp only [Packet.decodeFuel]
            have hgrp : a ++ ([k1, k2] ++ plenEncode data.length ++ data) ++ c =
                a ++ [k1, k2] ++ (plenEncode data.length ++ (data ++ c)) := by simp
            rw [hgrp]
            rw [tryTyped_all_err (Packet.decodeFuel fuel) _ a.length (List.range 39) ?herr]
            case herr =>
              intro j hj
              have hne2 : (k1, k2) ≠ typedKey j := by
                intro he
                exact hnotin (by rw [he]; exact List.mem_map_of_mem typedKey hj)
              exact ⟨.wrongKey, a.length,
                typedDec_wrongKey_of (Packet.decodeFuel fuel) j a k1 k2 _ hne2⟩
            simp only [tryTyped]
            have h0 : 0 < data.length := nonempty_pos hne
            have h64 : data.length < 2 ^ 64 := plenOk_lt hpl
            have hk := readBytes_at a [k1, k2] (plenEncode data.length ++ (data ++ c))
            have hp := plenDecode_at data.length h0 h64 (a ++ [k1, k2]) (data ++ c)
            rw [show (a ++ [k1, k2]) ++ plenEncode data.length ++ (data ++ c) =
                a ++ [k1, k2] ++ (plenEncode data.length ++ (data ++ c)) from by simp] at hp
            rw [show (a ++ [k1, k2]).length = a.length + 2 from by simp] at hp
            have hdr := readBytes_at (a ++ [k1, k2] ++ plenEncode data.length) data c
            rw [show (a ++ [k1, k2] ++ plenEncode data.length) ++ data ++ c =
                a ++ [k1, k2] ++ (plenEncode data.length ++ (data ++ c)) from by simp] at hdr
            rw [show (a ++ [k1, k2] ++ plenEncode data.length).length =
                a.length + 2 + (plenEncode data.length).length
              from by simp; try omega] at hdr
            rw [unsupported_decode_ok _ a.length k1 k2 data.length _ data hk hp hdr]
            simp
            try omega

/-! ## Claim theorems -/

/-- C3 (code bug): the dispatcher is claimed to always return `Ok` or
`Err` (with the cursor rewound) on any input of length at least
`keylen + 1` that begins at a packet boundary.  It does not: on the
5-byte input `FE 01 01 00 00` — an `InputChunk` key with a declared
payload length of `0` — the generated decoder reads the 1-byte `port`
field and then computes the tail length `plen - offset = 0 - 1`, an
unsigned subtraction that underflows: a panic in debug builds, an
attempted `usize::MAX`-sized allocation (abort) in release builds. -/
theorem C3_dispatcher_underflow :
    Packet.decode [0xFE, 0x01, 0x01, 0x00, 0x00] 0 = .panic := rfl

/-- C5 (code bug): `PLen::decode` is claimed to return `OversizedLength`
when the `e` length bytes hold a value exceeding the index width.  The
code instead guards the accumulation with `len.checked_shl(8)`, which
fails only when the *shift amount* (8) reaches `usize::BITS` (64) —
never — so the high bits are silently discarded: the 9 length bytes
`01 00 00 00 00 00 00 00 00`, big-endian value `2^64`, decode to
`Ok(PLen(0))`. -/
theorem C5_oversized_wraps :
    2 ^ 64 ≤ beNat [1, 0, 0, 0, 0, 0, 0, 0, 0] ∧
      plenDecode [9, 1, 0, 0, 0, 0, 0, 0, 0, 0] 0 = .ok 0 10 :=
  ⟨by norm_num [beNat], rfl⟩

/-- C1 (counterexample): `decode(encode(p)) == p` fails for the valid
packet `GameTitle { title: "" }`: its empty payload is encoded with the
`PLen` zero special case as the single byte `0x00`, which every decoder
— including the final `Unsupported` fallback — rejects with
`ExponentIsZero`, so the dispatcher returns an error rather than the
packet. -/
theorem C1_roundtrip_counterexample :
    Packet.decode (Packet.encode (.gameTitle ⟨[]⟩)) 0 = .err .exponentIsZero 0 := rfl



/-- C2: `PLen` encoding emits the single byte `0x00` for length `0`; for
every positive length that fits the index width it emits the minimal
byte-count `e` (the smallest `e` with `n < 256^e`) followed by the `e`
big-endian bytes of `n` most-significant first, `1 + e` bytes in total;
and `PLen` decoding fails with `ExponentIsZero` whenever the exponent
byte read is `0`. -/
theorem C2_plen :
    plenEncode 0 = [0] ∧
    (∀ n, 0 < n → n < 2 ^ 64 →
      plenEncode n = (beMin n).length :: beMin n ∧
      (plenEncode n).length = 1 + (beMin n).length ∧
      beNat (beMin n) = n ∧
      n < 256 ^ (beMin n).length ∧
      (∀ e, n < 256 ^ e → (beMin n).length ≤ e)) ∧
    (∀ input pos p, readU8 input pos = .ok 0 p →
      plenDecode input pos = .err .exponentIsZero p) := by
  refine ⟨by simp [plenEncode], fun n h0 _ => ⟨?_, ?_, beNat_beMin n, beMin_lt n, ?_⟩, ?_⟩
  · simp [plenEncode, Nat.pos_iff_ne_zero.mp h0]
  · simp only [plenEncode, Nat.pos_iff_ne_zero.mp h0, if_false, List.length_cons]
    omega
  · intro e he
    have hmin := beMin_len_min n h0
    have hlt : 256 ^ ((beMin n).length - 1) < 256 ^ e := lt_of_le_of_lt hmin he
    have := (Nat.pow_lt_pow_iff_right (by omega : 1 < 256)).mp hlt
    have hnn := beMin_ne_nil n h0
    have : (beMin n).length ≠ 0 := by
      intro hc
      exact hnn (List.length_eq_zero.mp hc)
    omega
  · intro input pos p h
    unfold plenDecode
    rw [h]
    simp [dseq]

/-- C2 witness: the theorem applied at length `300` and at the exponent
byte `0`. -/
theorem C2_plen_witness :
    plenEncode 300 = [2, 1, 44] ∧ plenDecode [0] 0 = .err .exponentIsZero 1 := by
  constructor
  · have h := (C2_plen.2.1 300 (by norm_num) (by norm_num)).1
    rw [h]
    rfl
  · exact C2_plen.2.2 [0] 0 1 rfl



/-- C9 (counterexample): TASD→R08 conversion is claimed to require
exactly two `PortController` packets; but a file with a single
`PortController { port: 1, kind: 0x0101 }` converts successfully (the
code only rejects an *empty* controller list), refuting "succeeds only
when [exactly two with kind 0x0101] holds". -/
theorem C9_single_controller_accepted :
    (lPortControllers ⟨[.portController 1 0x0101]⟩).length = 1 ∧
      R08.tryFromTasd ⟨[.portController 1 0x0101]⟩ = .ok ⟨[]⟩ := ⟨rfl, rfl⟩

/-- C9 (amended): TASD→R08 conversion requires at least one
`PortController`, all of kind `0x0101`: it fails with
`MissingPortControllers` when no `PortController` packet is present,
fails with `UnsupportedControllers` when one is present with a kind
other than `0x0101`, and succeeds whenever at least one is present and
all have kind `0x0101`. -/
theorem C9_controllers_amended (f : LTasdFile) :
    (lPortControllers f = [] → R08.tryFromTasd f = .error .missingPortControllers) ∧
    (lPortControllers f ≠ [] → (∃ pc ∈ lPortControllers f, pc.2 ≠ 0x0101) →
      R08.tryFromTasd f = .error .unsupportedControllers) ∧
    (lPortControllers f ≠ [] → (∀ pc ∈ lPortControllers f, pc.2 = 0x0101) →
      ∃ r, R08.tryFromTasd f = .ok r) := by
  refine ⟨fun h => ?_, fun hne hex => ?_, fun hne hall => ?_⟩
  · simp [R08.tryFromTasd, h]
  · have hemp : (lPortControllers f).isEmpty = false := by
      simpa [List.isEmpty_iff] using hne
    have hany : (lPortControllers f).any (fun pc => pc.2 ≠ 0x0101) = true := by
      rw [List.any_eq_true]
      obtain ⟨pc, hmem, hpc⟩ := hex
      exact ⟨pc, hmem, by simpa using hpc⟩
    simp only [R08.tryFromTasd, hemp, hany]
    simp
  · have hemp : (lPortControllers f).isEmpty = false := by
      simpa [List.isEmpty_iff] using hne
    have hany : (lPortControllers f).any (fun pc => pc.2 ≠ 0x0101) = false := by
      rw [List.any_eq_false]
      intro pc hmem
      simpa using hall pc hmem
    refine ⟨⟨List.zipWith (fun a b => (a ^^^ 0xFF, b ^^^ 0xFF))
        (lResize (lLanes (lInputChunks f)).1 (lLanes (lInputChunks f)).2.length)
        (lResize (lLanes (lInputChunks f)).2 (lLanes (lInputChunks f)).1.length)⟩, ?_⟩
    simp only [R08.tryFromTasd, hemp, hany]
    simp

/-- C9 witness: the amended theorem at three concrete files. -/
theorem C9_controllers_amended_witness :
    R08.tryFromTasd ⟨[]⟩ = .error .missingPortControllers ∧
    R08.tryFromTasd ⟨[.portController 1 0x0202]⟩ = .error .unsupportedControllers ∧
    ∃ r, R08.tryFromTasd ⟨[.portController 1 0x0101, .portController 2 0x0101]⟩ = .ok r :=
  ⟨(C9_controllers_amended ⟨[]⟩).1 rfl,
   (C9_controllers_amended ⟨[.portController 1 0x0202]⟩).2.1 (by simp [lPortControllers])
     ⟨(1, 0x0202), by simp [lPortControllers], by decide⟩,
   (C9_controllers_amended ⟨[.portController 1 0x0101, .portController 2 0x0101]⟩).2.2
     (by simp [lPortControllers]) (by decide)⟩



/-- C10 (counterexample): `R08 → TasdFile → R08` is claimed to be the
identity for every `R08`; but an empty `R08` produces a file with no
`PortController` packets (both lanes are empty), and converting back
fails with `MissingPortControllers` instead of returning the empty
`R08`. -/
theorem C10_empty_r08_fails :
    R08.tryFromTasd (tasdFromR08 ⟨[]⟩) = .error .missingPortControllers := rfl

/-- C10 (amended): for every `R08` with at least one frame,
`R08 → TasdFile → R08` is the identity; and in the TASD→R08 direction
(whenever the controller requirement holds) the `InputChunk` bytes are
distributed into two lanes by port — port 1 to lane 0, port 2 to lane 1,
other ports ignored — the shorter lane is padded to the longer one with
`0xFF`, and output frame `i` is `[p1[i] ^ 0xFF, p2[i] ^ 0xFF]`. -/
theorem C10_r08_roundtrip_amended :
    (∀ r : R08, r.inputs ≠ [] → R08.tryFromTasd (tasdFromR08 r) = .ok r) ∧
    (∀ chunks : List (Nat × List Nat), lLanes chunks =
      ((chunks.filter (fun c => c.1 = 1)).flatMap Prod.snd,
       (chunks.filter (fun c => c.1 = 2)).flatMap Prod.snd)) ∧
    (∀ f : LTasdFile, lPortControllers f ≠ [] →
      (∀ pc ∈ lPortControllers f, pc.2 = 0x0101) →
      R08.tryFromTasd f = .ok ⟨List.zipWith (fun a b => (a ^^^ 0xFF, b ^^^ 0xFF))
        (lResize (lLanes (lInputChunks f)).1 (lLanes (lInputChunks f)).2.length)
        (lResize (lLanes (lInputChunks f)).2 (lLanes (lInputChunks f)).1.length)⟩) := by
  refine ⟨fun r hne => ?_, lLanes_eq, fun f hne hall => ?_⟩
  · have hp1 : (r.inputs.map (fun i => i.1 ^^^ 0xFF)).isEmpty = false := by
      simp [List.isEmpty_iff, hne]
    have hp2 : (r.inputs.map (fun i => i.2 ^^^ 0xFF)).isEmpty = false := by
      simp [List.isEmpty_iff, hne]
    have hfile : tasdFromR08 r =
        ⟨[.dumpCreated, .consoleType 0x01,
          .portController 1 0x0101, .portController 2 0x0101,
          .inputChunk 1 (r.inputs.map (fun i => i.1 ^^^ 0xFF)),
          .inputChunk 2 (r.inputs.map (fun i => i.2 ^^^ 0xFF))]⟩ := by
      simp [tasdFromR08, LTasdFile.new, hp1, hp2]
    rw [hfile]
    have hlen : (r.inputs.map (fun i => i.2 ^^^ 0xFF)).length =
        (r.inputs.map (fun i => i.1 ^^^ 0xFF)).length := by simp
    simp only [R08.tryFromTasd, lPortControllers, lInputChunks, lLanes,
      List.filterMap_cons, List.filterMap_nil, List.foldl_cons, List.foldl_nil]
    norm_num [lResize, zip_xor_inv]
    cases r with
    | mk inputs => simp [xor_ff_cancel]
  · have hemp : (lPortControllers f).isEmpty = false := by
      simpa [List.isEmpty_iff] using hne
    have hany : (lPortControllers f).any (fun pc => pc.2 ≠ 0x0101) = false := by
      rw [List.any_eq_false]
      intro pc hmem
      simpa using hall pc hmem
    simp only [R08.tryFromTasd, hemp, hany]
    simp

/-- C10 witness: the amended theorem at the one-frame `R08`
`[(0x11, 0x22)]` and at a concrete two-controller file. -/
theorem C10_r08_roundtrip_amended_witness :
    R08.tryFromTasd (tasdFromR08 ⟨[(0x11, 0x22)]⟩) = .ok ⟨[(0x11, 0x22)]⟩ ∧
    lLanes [(1, [5]), (3, [6]), (2, [7])] = ([5], [7]) ∧
    R08.tryFromTasd ⟨[.portController 1 0x0101, .inputChunk 1 [0x00, 0xA5]]⟩ =
      .ok ⟨[(0xFF, 0x00), (0x5A, 0x00)]⟩ := by
  refine ⟨C10_r08_roundtrip_amended.1 ⟨[(0x11, 0x22)]⟩ (by decide), ?_, ?_⟩
  · have h := C10_r08_roundtrip_amended.2.1 [(1, [5]), (3, [6]), (2, [7])]
    rw [h]
    rfl
  · have h := C10_r08_roundtrip_amended.2.2
      ⟨[.portController 1 0x0101, .inputChunk 1 [0x00, 0xA5]]⟩
      (by simp [lPortControllers]) (by decide)
    rw [h]
    rfl



/-- C6: the packet loop of `TasdFile::parse_slice` accepts an
`EndOfStream` from the packet decoder only when the (rewound) cursor is
exactly the input length, in which case the loop ends successfully —
so a successful `parse_slice` implies the packet decoder signalled
`EndOfStream` exactly at the input length; an `EndOfStream` at any
earlier cursor is returned as an error, and any other packet-decode
error aborts parsing and is surfaced. -/
theorem C6_parse_eos_boundary :
    (∀ data pos fuel acc p2, Packet.decode data pos = .err .endOfStream p2 →
      parseLoop (fuel + 1) data pos acc =
        (if p2 = data.length then .ok acc else .err (.packet .endOfStream))) ∧
    (∀ data pos fuel acc e p2, Packet.decode data pos = .err e p2 →
      e ≠ .endOfStream → parseLoop (fuel + 1) data pos acc = .err (.packet e)) ∧
    (∀ data pos fuel acc p pos2, Packet.decode data pos = .ok p pos2 →
      parseLoop (fuel + 1) data pos acc = parseLoop fuel data pos2 (acc ++ [p])) ∧
    (∀ data tf, TasdFile.parseSlice data = .ok tf →
      ∃ pos2, Packet.decode data pos2 = .err .endOfStream data.length) := by
  refine ⟨fun data pos fuel acc p2 hd => ?_, fun data pos fuel acc e p2 hd hne => ?_,
    fun data pos fuel acc p pos2 hd => ?_, fun data tf h => ?_⟩
  · unfold parseLoop
    rw [hd]
    by_cases hp : p2 = data.length
    · simp [hp]
    · simp [hp]
  · unfold parseLoop
    rw [hd]
    cases e with
    | endOfStream => exact absurd rfl hne
    | io => simp
    | invalidUtf8 => simp
    | invalidEnum => simp
    | invalidBool => simp
    | wrongKey => simp
    | oversizedLength => simp
    | exponentIsZero => simp
    | wrongLength => simp
  · simp only [parseLoop]
    rw [hd]
  · unfold TasdFile.parseSlice at h
    cases hm : readBytes data 0 4 with
    | ok magic p4 =>
      rw [hm] at h
      simp only at h
      by_cases hmg : magic = [0x54, 0x41, 0x53, 0x44]
      · rw [if_neg (by simpa using hmg)] at h
        cases hv : readBE 2 data p4 with
        | ok version p6 =>
          rw [hv] at h
          simp only at h
          by_cases hver : version = 1
          · rw [if_neg (by simpa using hver)] at h
            cases hk : readU8 data p6 with
            | ok keylen p7 =>
              rw [hk] at h
              simp only at h
              cases hl : parseLoop (data.length + 1) data p7 [] with
              | ok packets => exact parseLoop_ok_eos (data.length + 1) data p7 [] packets hl
              | err e => rw [hl] at h; simp at h
              | panic => rw [hl] at h; simp at h
            | err e p => rw [hk] at h; simp at h
            | panic => rw [hk] at h; simp at h
          · rw [if_pos (by simpa using hver)] at h
            simp at h
        | err e p => rw [hv] at h; simp at h
        | panic => rw [hv] at h; simp at h
      · rw [if_pos (by simpa using hmg)] at h
        simp at h
    | err e p => rw [hm] at h; simp at h
    | panic => rw [hm] at h; simp at h

/-- C6 witness: the theorem's clauses at concrete inputs — an empty
remainder at the exact end (accepted), a trailing partial packet
(rejected), a malformed trailing packet (its error surfaced), and a
minimal valid file (header only). -/
theorem C6_parse_eos_boundary_witness :
    parseLoop 1 [0x54] 1 [] = .ok [] ∧
    parseLoop 1 [0x54, 0x00] 1 [] = .err (.packet .endOfStream) ∧
    parseLoop 1 [0xFF, 0xFF, 0x00] 0 [] = .err (.packet .exponentIsZero) ∧
    ∃ pos2, Packet.decode [0x54, 0x41, 0x53, 0x44, 0x00, 0x01, 0x02] pos2 =
      .err .endOfStream 7 := by
  refine ⟨?_, ?_, ?_, ?_⟩
  · rw [C6_parse_eos_boundary.1 [0x54] 1 0 [] 1 rfl]
    rfl
  · rw [C6_parse_eos_boundary.1 [0x54, 0x00] 1 0 [] 1 rfl]
    rfl
  · exact C6_parse_eos_boundary.2.1 [0xFF, 0xFF, 0x00] 0 0 [] .exponentIsZero 0 rfl
      (by decide)
  · exact C6_parse_eos_boundary.2.2.2 [0x54, 0x41, 0x53, 0x44, 0x00, 0x01, 0x02]
      ⟨1, 2, []⟩ rfl



/-- C7: on an input that begins with the 2-byte key of a known typed
variant, carries a decodable `PLen` and a complete payload, and whose
typed decode fails with `InvalidEnum` (an enum-backed field holding an
unmapped integer), the dispatcher falls through every typed variant and
succeeds with an `Unsupported` packet preserving that key and the raw
payload verbatim. -/
theorem C7_invalid_enum_unsupported
    (fuel i0 : Nat) (input : Bytes) (pos k1 k2 plen pstart : Nat) (data : Bytes)
    (hi : i0 < 39) (hkey : typedKey i0 = (k1, k2))
    (hk : readBytes input pos 2 = .ok [k1, k2] (pos + 2))
    (hp : plenDecode input (pos + 2) = .ok plen pstart)
    (hd : readBytes input pstart plen = .ok data (pstart + plen))
    (henum : typedDec (Packet.decodeFuel fuel) i0 input pos = .err .invalidEnum pos) :
    Packet.decodeFuel (fuel + 1) input pos =
      .ok (.unsupported ⟨[k1, k2], data⟩) (pstart + plen) := by
  have hall : ∀ j ∈ List.range 39, ∃ e p,
      typedDec (Packet.decodeFuel fuel) j input pos = .err e p := by
    intro j hj
    by_cases hji : j = i0
    · subst hji
      exact ⟨.invalidEnum, pos, henum⟩
    · have hkne : (k1, k2) ≠ typedKey j := by
        intro hc
        exact typedKey_inj i0 (List.mem_range.mpr hi) j hj
          (fun he => hji he.symm) (by rw [hkey, hc])
      exact ⟨.wrongKey, pos,
        decodeWith_wrongKey (typedKey j) (typedBody (Packet.decodeFuel fuel) j)
          input pos k1 k2 hk hkne⟩
  show tryTyped (Packet.decodeFuel fuel) input pos (List.range 39) = _
  rw [tryTyped_all_err _ _ _ _ hall]
  simp only [tryTyped]
  rw [unsupported_decode_ok input pos k1 k2 plen pstart data hk hp hd]

/-- C7 witness: the theorem at the concrete input `00 02 01 01 42` — a
`ConsoleRegion` packet whose enum byte `0x42` maps to no variant. -/
theorem C7_invalid_enum_unsupported_witness :
    Packet.decodeFuel 6 [0x00, 0x02, 0x01, 0x01, 0x42] 0 =
      .ok (.unsupported ⟨[0x00, 0x02], [0x42]⟩) 5 :=
  C7_invalid_enum_unsupported 5 1 [0x00, 0x02, 0x01, 0x01, 0x42] 0 0 2 1 4 [0x42]
    (by norm_num) rfl rfl rfl rfl rfl



/-- C4 (counterexample): a successful typed decode is claimed to land
exactly at `payload_start + plen` for every variant, explicitly
including fixed-field variants whose declared `plen` exceeds their field
width.  It does not: `TotalFrames` (key `00 0D`) with declared `plen` 5
and payload `00 00 00 2A 99` decodes successfully to frames `42` with
the cursor at `8 = payload_start + 4`, one byte short of
`payload_start + plen = 9` — the generated decoder never checks `plen`
against the fixed fields it reads. -/
theorem C4_totalframes_short_landing :
    typedDec Packet.decode 12 [0x00, 0x0D, 0x01, 0x05, 0x00, 0x00, 0x00, 0x2A, 0x99] 0 =
      .ok (.totalFrames ⟨42⟩) 8 ∧
    plenDecode [0x00, 0x0D, 0x01, 0x05, 0x00, 0x00, 0x00, 0x2A, 0x99] 2 = .ok 5 4 ∧
    (8 : Nat) ≠ 4 + 5 := ⟨rfl, rfl, by omega⟩

/-- C4 (amended): whenever a typed packet decode succeeds, the cursor
lands exactly at `payload_start + plen` for every variant whose schema
ends in a raw tail field (`Vec<u8>`, `Vec<u64>` or `String`); variants
with only fixed-width fields instead land at `payload_start` plus their
fixed field width, which differs from `payload_start + plen` when the
declared `plen` is inconsistent (`Transition`/`MovieTransition`, whose
tail is an optional inner packet, land wherever the inner decode ends).
The first index list below enumerates the raw-tail variants in
declaration order, the second pairs each fixed-field variant with its
field width. -/
theorem C4_cursor_landing_amended :
    (∀ j ∈ ([0, 2, 3, 4, 5, 6, 7, 8, 14, 17, 18, 19, 20, 25, 28, 29, 30, 31, 32, 36, 38] :
        List Nat),
      ∀ dec input pos a p, typedDec dec j input pos = .ok a p →
        ∃ plen pstart, plenDecode input (pos + 2) = .ok plen pstart ∧ p = pstart + plen) ∧
    (∀ jw ∈ ([(1, 1), (9, 8), (10, 8), (11, 8), (12, 4), (13, 4), (15, 2), (16, 1),
        (21, 3), (22, 2), (23, 2), (24, 1), (26, 2), (27, 1), (34, 8), (37, 1)] :
        List (Nat × Nat)),
      ∀ dec input pos a p, typedDec dec jw.1 input pos = .ok a p →
        ∃ plen pstart, plenDecode input (pos + 2) = .ok plen pstart ∧ p = pstart + jw.2) := by
  constructor
  · intro j hj
    fin_cases hj <;>
      (intro dec input pos a p h
       obtain ⟨plen, pstart, hp, hb⟩ := decodeWith_ok _ _ _ _ _ _ h
       refine ⟨plen, pstart, hp, ?_⟩)
    case _ => exact mapB_exact _ _ (enumTailStrB_exact consoleValid) _ _ _ _ _ _ hb
    case _ => exact mapB_exact _ _ readTailString_exact _ _ _ _ _ _ hb
    case _ => exact mapB_exact _ _ readTailString_exact _ _ _ _ _ _ hb
    case _ => exact mapB_exact _ _ (enumTailStrB_exact attributionKindValid) _ _ _ _ _ _ hb
    case _ => exact mapB_exact _ _ readTailString_exact _ _ _ _ _ _ hb
    case _ => exact mapB_exact _ _ readTailString_exact _ _ _ _ _ _ hb
    case _ => exact mapB_exact _ _ readTailString_exact _ _ _ _ _ _ hb
    case _ => exact mapB_exact _ _ readTailString_exact _ _ _ _ _ _ hb
    case _ => exact mapB_exact _ _ readTailString_exact _ _ _ _ _ _ hb
    case _ => exact mapB_exact _ _ memoryInitB_exact _ _ _ _ _ _ hb
    case _ => exact mapB_exact _ _ gameIdentifierB_exact _ _ _ _ _ _ hb
    case _ => exact mapB_exact _ _ readTailString_exact _ _ _ _ _ _ hb
    case _ => exact mapB_exact _ _ movieFileB_exact _ _ _ _ _ _ hb
    case _ => exact mapB_exact _ _ readTailString_exact _ _ _ _ _ _ hb
    case _ => exact mapB_exact _ _ readTailString_exact _ _ _ _ _ _ hb
    case _ => exact mapB_exact _ _ readTailVec64_exact _ _ _ _ _ _ hb
    case _ => exact mapB_exact _ _ readTailString_exact _ _ _ _ _ _ hb
    case _ => exact mapB_exact _ _ u8TailVecB_exact _ _ _ _ _ _ hb
    case _ => exact mapB_exact _ _ inputMomentB_exact _ _ _ _ _ _ hb
    case _ => exact mapB_exact _ _ readTailString_exact _ _ _ _ _ _ hb
    case _ => exact mapB_exact _ _ readTailVec_exact _ _ _ _ _ _ hb
  · intro jw hjw
    fin_cases hjw <;>
      (intro dec input pos a p h
       obtain ⟨plen, pstart, hp, hb⟩ := decodeWith_ok _ _ _ _ _ _ h
       refine ⟨plen, pstart, hp, ?_⟩)
    case _ => exact mapB_fixed _ _ _ (fixedB_enum consoleRegionValid 1) _ _ _ _ _ _ hb
    case _ => exact mapB_fixed _ _ _ (fixedB_ibe 8) _ _ _ _ _ _ hb
    case _ => exact mapB_fixed _ _ _ (fixedB_ibe 8) _ _ _ _ _ _ hb
    case _ => exact mapB_fixed _ _ _ (fixedB_ibe 8) _ _ _ _ _ _ hb
    case _ => exact mapB_fixed _ _ _ (fixedB_be 4) _ _ _ _ _ _ hb
    case _ => exact mapB_fixed _ _ _ (fixedB_be 4) _ _ _ _ _ _ hb
    case _ => exact mapB_fixed _ _ _ (fixedB_ibe 2) _ _ _ _ _ _ hb
    case _ => exact mapB_fixed _ _ _ fixedB_bool _ _ _ _ _ _ hb
    case _ => exact mapB_fixed _ _ _ portControllerB_fixed _ _ _ _ _ _ hb
    case _ => exact mapB_fixed _ _ _ portOverreadB_fixed _ _ _ _ _ _ hb
    case _ => exact mapB_fixed _ _ _ (fixedB_be 2) _ _ _ _ _ _ hb
    case _ => exact mapB_fixed _ _ _ fixedB_u8 _ _ _ _ _ _ hb
    case _ => exact mapB_fixed _ _ _ (fixedB_be 2) _ _ _ _ _ _ hb
    case _ => exact mapB_fixed _ _ _ fixedB_u8 _ _ _ _ _ _ hb
    case _ => exact mapB_fixed _ _ _ lagFrameChunkB_fixed _ _ _ _ _ _ hb
    case _ => exact mapB_fixed _ _ _ fixedB_bool _ _ _ _ _ _ hb

/-- C4 witness: the amended theorem at a concrete `GameTitle` success
(raw tail, lands at `payload_start + plen`) and a concrete `Verified`
success (fixed width 1). -/
theorem C4_cursor_landing_amended_witness :
    (∃ plen pstart,
      plenDecode [0x00, 0x03, 0x01, 0x02, 0x48, 0x69] 2 = .ok plen pstart ∧
        (6 : Nat) = pstart + plen) ∧
    (∃ plen pstart,
      plenDecode [0x00, 0x11, 0x01, 0x01, 0x01] 2 = .ok plen pstart ∧
        (5 : Nat) = pstart + 1) := by
  constructor
  · exact C4_cursor_landing_amended.1 2 (by norm_num) Packet.decode
      [0x00, 0x03, 0x01, 0x02, 0x48, 0x69] 0 (.gameTitle ⟨[0x48, 0x69]⟩) 6 rfl
  · exact C4_cursor_landing_amended.2 (16, 1) (by norm_num) Packet.decode
      [0x00, 0x11, 0x01, 0x01, 0x01] 0 (.verified ⟨true⟩) 5 rfl



/-- C8: for every valid UTF-8 string `s`, the `u8_string` encoder emits
a one-byte length `L` followed by the first `L` bytes of `s`, where
`L ≤ 255`, the emitted prefix is valid UTF-8 (no code point is split);
`L = length s` when `s` is at most 255 bytes, otherwise `L` is the
largest UTF-8 character boundary of `s` at most 255 (boundaries being
exactly the prefix lengths whose prefix is valid), and a pure-ASCII `s`
longer than 255 bytes yields `L = 255`. -/
theorem C8_u8string_truncation (s : Bytes) (hs : utf8Valid s = true) :
    u8StringEnc s = u8StrIndex s :: s.take (u8StrIndex s) ∧
    u8StrIndex s ≤ 255 ∧
    utf8Valid (s.take (u8StrIndex s)) = true ∧
    (s.length ≤ 255 → u8StrIndex s = s.length) ∧
    (255 < s.length → ∀ i, i ≤ 255 → utf8Valid (s.take i) = true → i ≤ u8StrIndex s) ∧
    (255 < s.length → (∀ x ∈ s, x < 0x80) → u8StrIndex s = 255) := by
  by_cases hlen : s.length ≤ 255
  · have hL : u8StrIndex s = s.length := by
      unfold u8StrIndex
      rw [if_pos hlen]
    refine ⟨?_, by omega, ?_, fun _ => hL, fun hc => absurd hc (by omega), fun hc => ?_⟩
    · unfold u8StringEnc
      rw [hL, Nat.mod_eq_of_lt (by omega)]
    · rw [hL, List.take_length]
      exact hs
    · exact absurd hc (by omega)
  · have hw4 : ((s.drop 252).take 4).length = 4 := by
      simp only [List.length_take, List.length_drop]
      omega
    obtain ⟨a, b, c, d, heq⟩ := list_len4 _ hw4
    have hgd : ∀ j, j < 4 → s.getD (252 + j) 0 = ([a, b, c, d] : Bytes).getD j 0 := by
      intro j hj
      rw [← heq, getD_take _ 4 j hj, getD_drop]
    have ha : s.getD 252 0 = a := by simpa using hgd 0 (by omega)
    have hb : s.getD 253 0 = b := by simpa using hgd 1 (by omega)
    have hc : s.getD 254 0 = c := by simpa using hgd 2 (by omega)
    have hd : s.getD 255 0 = d := by simpa using hgd 3 (by omega)
    have hLdef : u8StrIndex s =
        (if isCont d = false then 255
         else if isCont c = false then 254
         else if isCont b = false then 253
         else if isCont a = false then 252
         else 252) := by
      unfold u8StrIndex
      rw [if_neg hlen, heq]
    have hex : isCont d = false ∨ isCont c = false ∨ isCont b = false ∨
        isCont a = false := by
      obtain ⟨c0, hc1, hc2, hc3⟩ := utf8_nocont_window s hs 255 (by omega)
      have hlow : 252 ≤ c0 := by omega
      interval_cases c0
      · rw [ha] at hc3
        exact Or.inr (Or.inr (Or.inr hc3))
      · rw [hb] at hc3
        exact Or.inr (Or.inr (Or.inl hc3))
      · rw [hc] at hc3
        exact Or.inr (Or.inl hc3)
      · rw [hd] at hc3
        exact Or.inl hc3
    have hcore : u8StrIndex s ≤ 255 ∧ utf8Valid (s.take (u8StrIndex s)) = true ∧
        (∀ i, i ≤ 255 → utf8Valid (s.take i) = true → i ≤ u8StrIndex s) := by
      by_cases hdc : isCont d = false
      · have hL : u8StrIndex s = 255 := by rw [hLdef, if_pos hdc]
        refine ⟨by omega, ?_, fun i hi hv => by omega⟩
        rw [hL]
        exact (utf8_boundary_iff s hs 255 (by omega)).mpr
          (Or.inr ⟨by omega, by rw [hd]; exact hdc⟩)
      · by_cases hcc : isCont c = false
        · have hL : u8StrIndex s = 254 := by rw [hLdef, if_neg hdc, if_pos hcc]
          refine ⟨by omega, ?_, fun i hi hv => ?_⟩
          · rw [hL]
            exact (utf8_boundary_iff s hs 254 (by omega)).mpr
              (Or.inr ⟨by omega, by rw [hc]; exact hcc⟩)
          · rw [hL]
            by_contra hgt
            have hi255 : i = 255 := by omega
            subst hi255
            rcases (utf8_boundary_iff s hs 255 (by omega)).mp hv with h1 | ⟨_, h2⟩
            · omega
            · rw [hd] at h2
              simp [h2] at hdc
        · by_cases hbc : isCont b = false
          · have hL : u8StrIndex s = 253 := by
              rw [hLdef, if_neg hdc, if_neg hcc, if_pos hbc]
            refine ⟨by omega, ?_, fun i hi hv => ?_⟩
            · rw [hL]
              exact (utf8_boundary_iff s hs 253 (by omega)).mpr
                (Or.inr ⟨by omega, by rw [hb]; exact hbc⟩)
            · rw [hL]
              by_contra hgt
              rcases (utf8_boundary_iff s hs i (by omega)).mp hv with h1 | ⟨_, h2⟩
              · omega
              · interval_cases i
                · rw [hc] at h2
                  simp [h2] at hcc
                · rw [hd] at h2
                  simp [h2] at hdc
          · by_cases hac : isCont a = false
            · have hL : u8StrIndex s = 252 := by
                rw [hLdef, if_neg hdc, if_neg hcc, if_neg hbc, if_pos hac]
              refine ⟨by omega, ?_, fun i hi hv => ?_⟩
              · rw [hL]
                exact (utf8_boundary_iff s hs 252 (by omega)).mpr
                  (Or.inr ⟨by omega, by rw [ha]; exact hac⟩)
              · rw [hL]
                by_contra hgt
                rcases (utf8_boundary_iff s hs i (by omega)).mp hv with h1 | ⟨_, h2⟩
                · omega
                · interval_cases i
                  · rw [hb] at h2
                    simp [h2] at hbc
                  · rw [hc] at h2
                    simp [h2] at hcc
                  · rw [hd] at h2
                    simp [h2] at hdc
            · rcases hex with h | h | h | h
              · exact absurd h hdc
              · exact absurd h hcc
              · exact absurd h hbc
              · exact absurd h hac
    refine ⟨?_, hcore.1, hcore.2.1, fun hcon => absurd hcon hlen,
      fun _ => hcore.2.2, fun _ hascii => ?_⟩
    · unfold u8StringEnc
      rw [Nat.mod_eq_of_lt (by omega)]
    · have hdval : d < 0x80 := by
        rw [← hd]
        exact hascii _ (getD_mem s 255 (by omega))
      have hdc : isCont d = false := by
        simp only [isCont, Bool.and_eq_false_iff]
        left
        simp only [decide_eq_false_iff_not]
        omega
      rw [hLdef, if_pos hdc]



set_option maxRecDepth 4096

/-- C8 witness: the theorem at the one-byte string `"H"` (emitted whole)
and at a 256-byte string of 254 ASCII bytes followed by a two-byte
scalar, where the largest boundary at most 255 is 254. -/
theorem C8_u8string_truncation_witness :
    u8StringEnc [0x48] = [1, 0x48] ∧
    (254 : Nat) ≤ u8StrIndex (List.replicate 254 0x61 ++ [0xC3, 0xA9]) := by
  constructor
  · have h := C8_u8string_truncation [0x48] (by decide)
    rw [h.1]
    rfl
  · have h := C8_u8string_truncation (List.replicate 254 0x61 ++ [0xC3, 0xA9]) (by decide)
    exact h.2.2.2.2.1 (by decide) 254 (by omega) (by decide)

/-- C1 (amended): the decoder inverts the encoder on every well-formed
packet value — any `Packet` (including nested `Transition` /
`MovieTransition` inner packets and `Unsupported` values) whose fields
fit their wire widths and enums, whose strings are valid UTF-8, whose
`#[u8_string]` fields are at most 255 bytes, whose empty-payload-capable
variants have a non-empty payload, and whose `Unsupported` keys match no
typed variant: `Packet::decode` applied to `Packet::encode p` returns
`Ok(p)` and consumes exactly the encoded bytes.  (The unamended claim is
refuted by `C1_roundtrip_counterexample`: a zero-length payload encodes
as the lone PLen byte `0x00`, which decoding rejects with
`ExponentIsZero`.) -/
theorem C1_roundtrip_amended (p : Packet) (hwf : Packet.wfb p = true) :
    Packet.decode (Packet.encode p) 0 = .ok p (Packet.encode p).length := by
  have h := roundtrip_fuel ((Packet.encode p).length + 1) p hwf
    (le_trans (depth_le_encode p) (by omega)) [] []
  simp only [List.append_nil, List.nil_append, List.length_nil, Nat.zero_add] at h
  exact h

/-- Witness for C1: a concrete well-formed packet (a `GameTitle` with
the one-byte title `"A"`, nested inside a `Transition`) satisfies the
hypothesis and round-trips. -/
theorem C1_roundtrip_amended_witness :
    Packet.wfb (.transition 1 1 0 1 (some (.gameTitle ⟨[0x41]⟩))) = true ∧
      Packet.decode
          (Packet.encode (.transition 1 1 0 1 (some (.gameTitle ⟨[0x41]⟩)))) 0 =
        .ok (.transition 1 1 0 1 (some (.gameTitle ⟨[0x41]⟩)))
          (Packet.encode (.transition 1 1 0 1 (some (.gameTitle ⟨[0x41]⟩)))).length :=
  ⟨by decide, C1_roundtrip_amended _ (by decide)⟩

end Tasd
